import Mathlib

/-! memcache: LRU cache engine and connection framer.

A shallow embedding of `src/cache.h`, `src/cache.cpp`, `src/util.h` and
`src/connection.cpp`.

* Bytes are natural numbers, byte strings are `List Nat`.
* `size_t` arithmetic is arithmetic modulo `2 ^ 64` (`size_add`, `size_sub`,
  `size_mul`).
* `std::unordered_map<key, shared_ptr<value>>` is an association list searched
  with `key::operator==`; the hash function plays no role in the semantics.
* `std::list<key>` is a list of nodes; every node carries the identity that a
  `std::list` iterator designates (`lru_node.ref`), drawn from the allocation
  counter `cache.next_ref_`.
* The mutex is not modelled: every public operation holds it for its whole
  duration, so the operations are the sequential functions below.
-/

namespace memcache

/-! ## limits.h -/

def KB : Nat := 1024
def MB : Nat := KB * KB
def MAX_KEY_SIZE : Nat := 250
def MAX_VALUE_SIZE : Nat := MB
def DEFAULT_CACHE_CAPACITY : Nat := 64 * MB
def PACKET_EXTRAS_SIZE : Nat := 8
def DATA_READ_CHUNK_SIZE : Nat := 128

/-! ## size_t arithmetic -/

/-- Number of values of a 64-bit `size_t`. -/
def SIZE_MOD : Nat := 2 ^ 64

/-- Addition of two `size_t`. -/
def size_add (a b : Nat) : Nat := (a + b) % SIZE_MOD

/-- Subtraction of two `size_t`, wrapping around below zero. -/
def size_sub (a b : Nat) : Nat := (a % SIZE_MOD + SIZE_MOD - b % SIZE_MOD) % SIZE_MOD

/-- Multiplication of two `size_t`. -/
def size_mul (a b : Nat) : Nat := (a * b) % SIZE_MOD

/-! ## protocol_binary.h -/

/-- Modelled from the spec: `protocol_binary.h` is not part of the sources. The
request header is 24 bytes: magic (1), opcode (1), keylen (2), extlen (1),
datatype (1), vbucket (2), bodylen (4), opaque (4), cas (8). -/
def HEADER_SIZE : Nat := 24

/-- Modelled from the spec: magic byte of a request (`protocol_binary.h` is not
part of the sources). -/
def PROTOCOL_BINARY_REQ : Nat := 0x80

/-- Modelled from the spec: magic byte of a response (`protocol_binary.h` is not
part of the sources). -/
def PROTOCOL_BINARY_RES : Nat := 0x81

/-- Modelled from the spec: opcode of GET (`protocol_binary.h` is not part of the
sources). -/
def PROTOCOL_BINARY_CMD_GET : Nat := 0x00

/-- Modelled from the spec: opcode of SET (`protocol_binary.h` is not part of the
sources). -/
def PROTOCOL_BINARY_CMD_SET : Nat := 0x01

/-- Modelled from the spec: opcode of DELETE (`protocol_binary.h` is not part of
the sources). -/
def PROTOCOL_BINARY_CMD_DELETE : Nat := 0x04

/-- Modelled from the spec: datatype of raw bytes (`protocol_binary.h` is not
part of the sources). -/
def PROTOCOL_BINARY_RAW_BYTES : Nat := 0x00

/-- Modelled from the spec: status of a success response (`protocol_binary.h` is
not part of the sources). -/
def PROTOCOL_BINARY_RESPONSE_SUCCESS : Nat := 0x00

/-- Modelled from the spec: status `KEY_ENOENT` (`protocol_binary.h` is not part
of the sources). -/
def PROTOCOL_BINARY_RESPONSE_KEY_ENOENT : Nat := 0x01

/-- Modelled from the spec: status `KEY_EEXISTS` (`protocol_binary.h` is not part
of the sources). -/
def PROTOCOL_BINARY_RESPONSE_KEY_EEXISTS : Nat := 0x02

/-- Modelled from the spec: status `E2BIG` (`protocol_binary.h` is not part of
the sources). -/
def PROTOCOL_BINARY_RESPONSE_E2BIG : Nat := 0x03

/-- Modelled from the spec: status `EINVAL` (`protocol_binary.h` is not part of
the sources). -/
def PROTOCOL_BINARY_RESPONSE_EINVAL : Nat := 0x04

/-- Modelled from the spec: status `UNKNOWN_COMMAND` (`protocol_binary.h` is not
part of the sources). -/
def PROTOCOL_BINARY_RESPONSE_UNKNOWN_COMMAND : Nat := 0x81

/-- Modelled from the spec: the fields of `protocol_binary_request_header`
(`protocol_binary.h` is not part of the sources). `keylen`, `bodylen` and `cas`
hold numbers; `vbucket` and `opaque_` are never interpreted by the program and
hold the bytes of the field as they lie in memory. -/
structure protocol_binary_request_header where
  magic : Nat
  opcode : Nat
  keylen : Nat
  extlen : Nat
  datatype : Nat
  vbucket : List Nat
  bodylen : Nat
  opaque_ : List Nat
  cas : Nat
deriving DecidableEq, Repr

/-! ## cache.h: key and value -/

/-- The struct `cache::key`: `key_ptr_` holds the bytes that the pointer of the
source points at, `length_` the key length and `value_size_` the `memsize` the
key was built with. -/
structure key where
  key_ptr_ : List Nat
  length_ : Nat
  value_size_ : Nat
deriving DecidableEq, Repr

/-- The comparison `key::operator==`: equal lengths, and equal bytes unless the
length is zero. `value_size_` takes no part in it. -/
def key.eq (a k : key) : Bool :=
  if a.length_ ≠ k.length_ then false
  else a.length_ == 0 || a.key_ptr_.take a.length_ == k.key_ptr_.take a.length_

/-- What `key::operator==` compares: the length and the first `length_` bytes. -/
def key.id (k : key) : Nat × List Nat := (k.length_, k.key_ptr_.take k.length_)

/-- The struct `cache::value`: the whole packet, the decoded header and the LRU
reference. `lru_ref_` is `none` until `set_lru` is called. -/
structure value where
  data_str_ : List Nat
  header_ : protocol_binary_request_header
  lru_ref_ : Option Nat
deriving DecidableEq, Repr

/-- The constructor `value(std::string&& d, const header& h)`. Its assertion,
`d.size() >= h.extlen + sizeof(header)`, is checked where the connection builds a
value (`handle_set`, `handle_get`, `handle_delete`). -/
def value.ctor (d : List Nat) (h : protocol_binary_request_header) : value :=
  { data_str_ := d, header_ := h, lru_ref_ := none }

/-- The method `value::get_key`. -/
def value.get_key (v : value) : key :=
  { key_ptr_ := (v.data_str_.drop (HEADER_SIZE + v.header_.extlen)).take v.header_.keylen
    length_ := v.header_.keylen
    value_size_ := v.data_str_.length }

/-- The method `value::packet_data_len`. -/
def value.packet_data_len (v : value) : Nat :=
  size_sub (size_sub v.data_str_.length v.header_.extlen) HEADER_SIZE

/-- The method `value::packet_user_data`: the bytes from the pointer on. -/
def value.packet_user_data (v : value) : List Nat :=
  v.data_str_.drop (v.header_.extlen + HEADER_SIZE)

/-- The method `value::packet_value_len`. -/
def value.packet_value_len (v : value) : Nat :=
  size_sub v.packet_data_len v.header_.keylen

/-- The method `value::get_value`: the bytes from the pointer on. -/
def value.get_value (v : value) : List Nat :=
  v.packet_user_data.drop v.header_.keylen

/-- The method `value::set_lru`. -/
def value.set_lru (v : value) (it : Nat) : value :=
  { v with lru_ref_ := some it }

/-! ## cache.h: the cache -/

/-- A node of `std::list<key>`; `ref` is what an iterator to the node designates. -/
structure lru_node where
  ref : Nat
  k : key
deriving DecidableEq, Repr

/-- The struct `cache`. `next_ref_` is the number of list nodes allocated so far. -/
structure cache where
  capacity_ : Nat
  size_ : Nat
  lookup_ : List (key × value)
  lru_ : List lru_node
  next_ref_ : Nat
deriving DecidableEq, Repr

/-- The constructor `cache(size_t capacity = 0)`. -/
def cache.ctor (capacity : Nat) : cache :=
  { capacity_ := if capacity = 0 then DEFAULT_CACHE_CAPACITY else capacity
    size_ := 0, lookup_ := [], lru_ := [], next_ref_ := 0 }

/-- The call `lookup_.find(k)`. -/
def lookup_find (l : List (key × value)) (k : key) : Option (key × value) :=
  l.find? (fun e => e.1.eq k)

/-- The call `lookup_.erase(it)` for the iterator that `lookup_.find(k)` returned. -/
def lookup_erase (l : List (key × value)) (k : key) : List (key × value) :=
  l.eraseP (fun e => e.1.eq k)

/-- The call `lookup_.emplace(k, v)`: no insertion when the key is present. -/
def lookup_emplace (l : List (key × value)) (k : key) (v : value) : List (key × value) :=
  if (lookup_find l k).isSome then l else l ++ [(k, v)]

/-- The call `lru_.erase(it)`. -/
def lru_erase (l : List lru_node) (it : Option Nat) : List lru_node :=
  l.eraseP (fun n => some n.ref == it)

/-- The iterator `--lru_.end()`. -/
def lru_last (l : List lru_node) : Option Nat :=
  l.getLast?.map (fun n => n.ref)

/-- The call `lru_.splice(lru_.end(), lru_, it)`: the node moves to the back. -/
def lru_splice (l : List lru_node) (it : Option Nat) : List lru_node :=
  match l.find? (fun n => some n.ref == it) with
  | some n => lru_erase l it ++ [n]
  | none => l

/-- The method `cache::count`. -/
def cache.count (c : cache) : Nat := c.lookup_.length

/-- The method `cache::get_inl`. The assertion `!lru_.empty()` is not
modelled. -/
def cache.get_inl (c : cache) (k : key) : Option value × cache :=
  match lookup_find c.lookup_ k with
  | none => (none, c)
  | some e =>
    if e.2.lru_ref_ ≠ lru_last c.lru_ then
      (some e.2, { c with lru_ := lru_splice c.lru_ e.2.lru_ref_ })
    else (some e.2, c)

/-- The method `cache::delete_inl`. -/
def cache.delete_inl (c : cache) (k : key) : Bool × cache :=
  match lookup_find c.lookup_ k with
  | none => (false, c)
  | some e =>
    (true, { c with lru_ := lru_erase c.lru_ e.2.lru_ref_
                    lookup_ := lookup_erase c.lookup_ k
                    size_ := size_sub c.size_ k.value_size_ })

/-- The loop of `cache::reclaim`. The iterator is advanced before `delete_inl`
is called on the key of the node it stood on, and `delete_inl` erases that very
node when the cache is consistent (`cache.consistent`), so the loop visits the
nodes the list had on entry, from the front. The assertion that `delete_inl`
succeeds is not modelled. -/
def cache.reclaim_loop (size : Nat) : cache → Nat → List lru_node → cache
  | c, _, [] => c
  | c, freed, n :: rest =>
    if freed < size then
      cache.reclaim_loop size (c.delete_inl n.k).2 (size_add freed n.k.value_size_) rest
    else c

/-- The method `cache::reclaim`. The assertion `size` (non-zero) is not
modelled. -/
def cache.reclaim (c : cache) (size : Nat) : cache :=
  cache.reclaim_loop size c 0 c.lru_

/-- The method `cache::set_inl`. The assertion after `delete_inl` cannot fail:
the key was just found. -/
def cache.set_inl (c : cache) (v : value) : cache :=
  let k := v.get_key
  let c1 := if (lookup_find c.lookup_ k).isSome then (c.delete_inl k).2 else c
  let mem := v.data_str_.length
  let c2 := if size_add mem c1.size_ > c1.capacity_ then c1.reclaim (size_mul 5 mem) else c1
  let it2 := c2.next_ref_
  { c2 with lru_ := c2.lru_ ++ [{ ref := it2, k := k }]
            next_ref_ := it2 + 1
            lookup_ := lookup_emplace c2.lookup_ k (v.set_lru it2)
            size_ := size_add c2.size_ mem }

/-- The method `cache::get`. -/
def cache.get (c : cache) (k : key) : Option value × cache := c.get_inl k

/-- The method `cache::set`. -/
def cache.set (c : cache) (v : value) : cache := c.set_inl v

/-- The method `cache::remove`. -/
def cache.remove (c : cache) (v : value) (cas : Nat) : Bool × cache :=
  if cas > 0 then
    match c.get_inl v.get_key with
    | (some p, c1) => if p.header_.cas ≠ cas then (false, c1) else c1.delete_inl v.get_key
    | (none, c1) => c1.delete_inl v.get_key
  else c.delete_inl v.get_key

/-- The method `cache::cas`. -/
def cache.cas (c : cache) (v : value) (cas : Nat) : Bool × cache :=
  if cas > 0 then
    match c.get_inl v.get_key with
    | (some p, c1) => if p.header_.cas ≠ cas then (false, c1) else (true, c1.set_inl v)
    | (none, c1) => (true, c1.set_inl v)
  else (true, c.set_inl v)

/-- The method `cache::clear`. -/
def cache.clear (c : cache) : cache :=
  if c.size_ ≠ 0 then c.reclaim c.size_ else c

/-- The method `cache::rehash`. The assertion `capacity` (non-zero) is not
modelled. -/
def cache.rehash (c : cache) (capacity : Nat) : cache :=
  { c.clear with capacity_ := capacity }

/-! ## Sequences of cache operations -/

/-- One call of the public interface of the cache. -/
inductive cache_op where
  | set (v : value)
  | get (k : key)
  | cas (v : value) (t : Nat)
  | remove (v : value) (t : Nat)
  | clear
deriving DecidableEq, Repr

/-- The cache after one call. -/
def cache.step (c : cache) : cache_op → cache
  | .set v => c.set v
  | .get k => (c.get k).2
  | .cas v t => (c.cas v t).2
  | .remove v t => (c.remove v t).2
  | .clear => c.clear

/-- The cache after a sequence of calls. -/
def cache.run (c : cache) (ops : List cache_op) : cache :=
  ops.foldl cache.step c

/-- The sum of the stored packet lengths of the resident entries. -/
def cache.resident_bytes (c : cache) : Nat :=
  (c.lookup_.map (fun e => e.2.data_str_.length)).sum

/-- The keys of the LRU list, least recent first. -/
def cache.lru_keys (c : cache) : List key := c.lru_.map (fun n => n.k)

/-! ## util.h -/

/-- The big-endian bytes of the low `w` bytes of `n`: what `htons`, `htonl` and
`htonll` leave in memory. -/
def be_encode : Nat → Nat → List Nat
  | 0, _ => []
  | w + 1, n => be_encode w (n / 256) ++ [n % 256]

/-- The number whose big-endian bytes are `bs`: what `ntohs`, `ntohl` and
`ntohll` read from memory. -/
def be_decode (bs : List Nat) : Nat := bs.foldl (fun acc b => acc * 256 + b) 0

/-- The function `util::validate_header`. -/
def validate_header (h : protocol_binary_request_header) : Nat :=
  if h.keylen = 0 then PROTOCOL_BINARY_RESPONSE_E2BIG
  else if h.opcode = PROTOCOL_BINARY_CMD_GET then
    if h.extlen ≠ 0 ∨ h.bodylen ≠ h.keylen then PROTOCOL_BINARY_RESPONSE_EINVAL
    else PROTOCOL_BINARY_RESPONSE_SUCCESS
  else if h.opcode = PROTOCOL_BINARY_CMD_SET then
    if h.extlen ≠ 8 ∨ h.bodylen < h.keylen + PACKET_EXTRAS_SIZE ∨ h.keylen > MAX_KEY_SIZE then
      PROTOCOL_BINARY_RESPONSE_EINVAL
    else if h.bodylen > MAX_VALUE_SIZE + h.keylen + PACKET_EXTRAS_SIZE then
      PROTOCOL_BINARY_RESPONSE_E2BIG
    else PROTOCOL_BINARY_RESPONSE_SUCCESS
  else if h.opcode = PROTOCOL_BINARY_CMD_DELETE then
    if h.extlen ≠ 0 ∨ h.bodylen ≠ h.keylen then PROTOCOL_BINARY_RESPONSE_EINVAL
    else PROTOCOL_BINARY_RESPONSE_SUCCESS
  else PROTOCOL_BINARY_RESPONSE_UNKNOWN_COMMAND

/-- The function `util::build_response_hdr`. The layout of the response header is
modelled from the spec: magic, opcode, keylen (2), extlen, datatype, status (2),
bodylen (4), opaque (4), cas (8). -/
def build_response_hdr (h : protocol_binary_request_header) (keylen body_len : Nat)
    (err : Nat) (extlen : Nat) : List Nat :=
  [PROTOCOL_BINARY_RES, h.opcode] ++ be_encode 2 keylen ++ [extlen % 256, PROTOCOL_BINARY_RAW_BYTES]
    ++ be_encode 2 err ++ be_encode 4 body_len ++ h.opaque_ ++ be_encode 8 h.cas

/-! ## connection.h, connection.cpp -/

/-- What one call of `::write` returns: the number of bytes taken, or -1 with
`EAGAIN` or `EWOULDBLOCK`, or -1 with another error. -/
inductive write_result where
  | count (n : Nat)
  | again
  | error
deriving DecidableEq, Repr

/-- The socket behind `fd_`, seen from the writer. `written` holds the bytes
taken by each `::write` that returned a count, in order. `results` lists what the
coming calls of `::write` return; for `count n` the socket takes `n` bytes, or
all it is offered when that is less. When no result is listed, `::write` fails
with an error other than `EAGAIN`/`EWOULDBLOCK` if the socket is `broken`, and
takes all it is offered otherwise. -/
structure socket where
  written : List (List Nat)
  broken : Bool
  results : List write_result := []
deriving DecidableEq, Repr

/-- Every `::write` on the socket takes all the bytes it is offered. -/
def socket.whole (f : socket) : Prop := f.results = [] ∧ f.broken = false

/-- The struct `connection`. `c_` is the cache the connection refers to. -/
structure connection where
  fd_ : socket
  c_ : cache
  executor_index_ : Int
  request_ : List Nat
  header_ : protocol_binary_request_header
deriving DecidableEq, Repr

/-- The header after `memset(&header_, 0, sizeof(header_))`. -/
def zero_header : protocol_binary_request_header :=
  { magic := 0, opcode := 0, keylen := 0, extlen := 0, datatype := 0, vbucket := [0, 0]
    bodylen := 0, opaque_ := [0, 0, 0, 0], cas := 0 }

/-- The constructor `connection(fd, c, executor_index)` on a socket nothing was
written to. -/
def connection.ctor (c : cache) (executor_index : Int) : connection :=
  { fd_ := { written := [], broken := false }, c_ := c, executor_index_ := executor_index
    request_ := [], header_ := zero_header }

/-- The header that `buffer_packet` decodes from the first 24 buffered bytes:
`memcpy`, then `ntohs`, `ntohl` and `ntohll` on `keylen`, `bodylen` and `cas`. -/
def decode_header (r : List Nat) : protocol_binary_request_header :=
  { magic := r.getD 0 0, opcode := r.getD 1 0, keylen := be_decode ((r.drop 2).take 2)
    extlen := r.getD 4 0, datatype := r.getD 5 0, vbucket := (r.drop 6).take 2
    bodylen := be_decode ((r.drop 8).take 4), opaque_ := (r.drop 12).take 4
    cas := be_decode ((r.drop 16).take 8) }

/-- The method `connection::reset`. -/
def connection.reset (s : connection) : connection :=
  { s with header_ := zero_header, request_ := [] }

/-- The loop of `connection::write_response` with `len` bytes left to write, on
the results of the coming calls of `::write`. Every call `::write(fd_, buf, len)`
offers the first `len` bytes of `buf`, because the loop does not advance `buf`:
a count is subtracted from `len` (it is at most `len`, as the loop asserts),
`EAGAIN` and `EWOULDBLOCK` are retried, and another error makes the method
return false. -/
def write_loop (buf : List Nat) : List write_result → Nat → socket → Bool × socket
  | [], len, f =>
    if len = 0 then (true, f)
    else if f.broken then (false, f)
    else (true, { f with written := f.written ++ [buf.take len] })
  | r :: rest, len, f =>
    if len = 0 then (true, f)
    else
      match r with
      | write_result.count n =>
        write_loop buf rest (len - min n len)
          { f with results := rest, written := f.written ++ [buf.take (min n len)] }
      | write_result.again => write_loop buf rest len { f with results := rest }
      | write_result.error => (false, { f with results := rest })

/-- The method `connection::write_response`. -/
def connection.write_response (s : connection) (buf : List Nat) : Bool × connection :=
  ((write_loop buf s.fd_.results buf.length s.fd_).1,
    { s with fd_ := (write_loop buf s.fd_.results buf.length s.fd_).2 })

/-- The diagnostic that `connection::write_error` selects; `none` is the default
branch of its switch. -/
def errstr (err : Nat) : Option (List Nat) :=
  if err = PROTOCOL_BINARY_RESPONSE_KEY_EEXISTS then
    some ("Entry exists for key".toList.map Char.toNat)
  else if err = PROTOCOL_BINARY_RESPONSE_KEY_ENOENT then some ("Not found".toList.map Char.toNat)
  else if err = PROTOCOL_BINARY_RESPONSE_EINVAL then some ("Bad parameters".toList.map Char.toNat)
  else if err = PROTOCOL_BINARY_RESPONSE_UNKNOWN_COMMAND then
    some ("Unsupported command".toList.map Char.toNat)
  else if err = PROTOCOL_BINARY_RESPONSE_E2BIG then some ("Too large".toList.map Char.toNat)
  else none

/-- The method `connection::write_error`; `none` when `assert(false)` of the
default branch fails. -/
def connection.write_error (s : connection) (err : Nat) : Option connection :=
  match errstr err with
  | none => none
  | some str =>
    let buf := build_response_hdr s.header_ 0 (str.length % 2 ^ 32) err 0 ++ str
    some (s.write_response buf).2.reset

/-- The method `connection::handle_set`; `none` when the assertion of the
constructor of `value` fails. -/
def connection.handle_set (s : connection) : Option (Bool × connection) :=
  if s.request_.length < s.header_.extlen + HEADER_SIZE then none
  else
    let val := value.ctor s.request_ s.header_
    let s0 := { s with request_ := [] }
    let r : Bool × cache :=
      if s0.header_.cas ≠ 0 then s0.c_.cas val s0.header_.cas else (true, s0.c_.set val)
    let s1 := { s0 with c_ := r.2 }
    if r.1 = false then (s1.write_error PROTOCOL_BINARY_RESPONSE_KEY_EEXISTS).map (fun t => (true, t))
    else
      let resp := build_response_hdr s1.header_ 0 0 0 0
      let w := s1.write_response resp
      if w.1 = false then some (false, w.2) else some (true, w.2)

/-- The method `connection::handle_get`; `none` when the assertion of the
constructor of `value` fails. -/
def connection.handle_get (s : connection) : Option (Bool × connection) :=
  if s.request_.length < s.header_.extlen + HEADER_SIZE then none
  else
    let req := value.ctor s.request_ s.header_
    let s0 := { s with request_ := [] }
    let r := s0.c_.get req.get_key
    let s1 := { s0 with c_ := r.2 }
    match r.1 with
    | none => (s1.write_error PROTOCOL_BINARY_RESPONSE_KEY_ENOENT).map (fun t => (true, t))
    | some value =>
      let hdr := build_response_hdr s1.header_ 0 (size_add value.packet_value_len 4 % 2 ^ 32) 0 4
      let hdr := hdr ++ [0, 0, 0, 0]
      let size := value.packet_value_len
      let buf := value.packet_user_data.drop value.header_.keylen
      let hdr := hdr ++ buf.take size
      some (true, (s1.write_response hdr).2)

/-- The method `connection::handle_delete`; `none` when the assertion of the
constructor of `value` fails. -/
def connection.handle_delete (s : connection) : Option (Bool × connection) :=
  if s.request_.length < s.header_.extlen + HEADER_SIZE then none
  else
    let val := value.ctor s.request_ s.header_
    let s0 := { s with request_ := [] }
    let r := s0.c_.remove val s0.header_.cas
    let s1 := { s0 with c_ := r.2 }
    if r.1 = false then (s1.write_error PROTOCOL_BINARY_RESPONSE_KEY_EEXISTS).map (fun t => (true, t))
    else
      let resp := build_response_hdr s1.header_ 0 0 0 0
      let w := s1.write_response resp
      if w.1 = false then some (false, w.2) else some (true, w.2)

/-- The method `connection::process_packet`. -/
def connection.process_packet (s : connection) : Option (Bool × connection) :=
  let r : Option (Bool × connection) :=
    if s.header_.opcode = PROTOCOL_BINARY_CMD_SET then s.handle_set
    else if s.header_.opcode = PROTOCOL_BINARY_CMD_GET then s.handle_get
    else if s.header_.opcode = PROTOCOL_BINARY_CMD_DELETE then s.handle_delete
    else (s.write_error PROTOCOL_BINARY_RESPONSE_UNKNOWN_COMMAND).map (fun t => (true, t))
  r.map (fun p => (p.1, p.2.reset))

/-- The method `connection::buffer_packet`; `none` when an assertion fails (the
program aborts), otherwise the value returned and the connection afterwards. -/
def connection.buffer_packet (s : connection) (b : List Nat) : Option (Bool × connection) :=
  if b.length = 0 then some (true, s)
  else if s.request_.length = 0 ∧ b.head? ≠ some PROTOCOL_BINARY_REQ then some (false, s)
  else
    let prev_size := s.request_.length
    let s1 := { s with request_ := s.request_ ++ b }
    if s1.request_.length < HEADER_SIZE then some (true, s1)
    else if ¬ prev_size < HEADER_SIZE then none
    else
      let s2 := { s1 with header_ := decode_header s1.request_ }
      let status := validate_header s2.header_
      let s3 : Option connection :=
        if status ≠ PROTOCOL_BINARY_RESPONSE_SUCCESS then s2.write_error status else some s2
      match s3 with
      | none => none
      | some s3 =>
        if s3.request_.length < s3.header_.bodylen + HEADER_SIZE then some (true, s3)
        else if s3.request_.length > s3.header_.bodylen + HEADER_SIZE then
          (s3.write_error PROTOCOL_BINARY_RESPONSE_EINVAL).map (fun t => (false, t))
        else s3.process_packet

/-! ## The representation invariant -/

/-- The representation invariant of the cache: the keys of the mapping are
pairwise different under `operator==`, the list nodes are pairwise different and
were all allocated, every entry is stored under the key of its own packet and
refers to a list node holding that key, every list node is referred to by an
entry stored under the key of the node, and the two containers have the same
number of elements. -/
structure cache.consistent (c : cache) : Prop where
  keys_nodup : (c.lookup_.map (fun e => e.1.id)).Nodup
  refs_nodup : (c.lru_.map (fun n => n.ref)).Nodup
  refs_lt : ∀ n ∈ c.lru_, n.ref < c.next_ref_
  entry_node : ∀ e ∈ c.lookup_, ∃ n ∈ c.lru_, e.2.lru_ref_ = some n.ref ∧ n.k = e.1
  node_entry : ∀ n ∈ c.lru_, ∃ e ∈ c.lookup_, e.2.lru_ref_ = some n.ref ∧ n.k = e.1
  key_of : ∀ e ∈ c.lookup_, e.1 = e.2.get_key
  length_eq : c.lru_.length = c.lookup_.length

/-- The cache in `set_inl` after the entry stored for the key of `v`, if any,
has been deleted. -/
def cache.set_del (c : cache) (v : value) : cache :=
  if (lookup_find c.lookup_ v.get_key).isSome then (c.delete_inl v.get_key).2 else c

/-- The cache in `set_inl` right before the new entry is inserted: any entry of
the key deleted, and entries reclaimed when the new packet does not fit. -/
def cache.set_pre (c : cache) (v : value) : cache :=
  if size_add v.data_str_.length (c.set_del v).size_ > (c.set_del v).capacity_ then
    (c.set_del v).reclaim (size_mul 5 v.data_str_.length)
  else c.set_del v

/-- The packet and the decoded header of a value: all of it except the LRU
reference. -/
def value.packet (v : value) : List Nat × protocol_binary_request_header :=
  (v.data_str_, v.header_)

/-- The packets resident in the cache, in the order in which they were stored. -/
def cache.entries (c : cache) : List (List Nat × protocol_binary_request_header) :=
  c.lookup_.map (fun e => e.2.packet)

/-! ## Well-formed requests -/

/-- A SET request as it travels on the wire: the 24-byte header (magic 0x80,
opcode 0x01, keylen, extlen 8, bodylen, opaque bytes, cas, all numbers
big-endian), then the 8 bytes of extras, the key and the value. -/
def set_request (k v : List Nat) (cas : Nat) (opq extras : List Nat) : List Nat :=
  [PROTOCOL_BINARY_REQ, PROTOCOL_BINARY_CMD_SET] ++ be_encode 2 k.length ++ [8, 0, 0, 0]
    ++ be_encode 4 (k.length + v.length + 8) ++ opq ++ be_encode 8 cas ++ extras ++ k ++ v

/-- A GET request as it travels on the wire: the 24-byte header (magic 0x80,
opcode 0x00, keylen, extlen 0, bodylen = keylen), then the key. -/
def get_request (k : List Nat) (cas : Nat) (opq : List Nat) : List Nat :=
  [PROTOCOL_BINARY_REQ, PROTOCOL_BINARY_CMD_GET] ++ be_encode 2 k.length ++ [0, 0, 0, 0]
    ++ be_encode 4 k.length ++ opq ++ be_encode 8 cas ++ k

/-- A DELETE request as it travels on the wire: the 24-byte header (magic 0x80,
opcode 0x04, keylen, extlen 0, bodylen = keylen), then the key. -/
def delete_request (k : List Nat) (cas : Nat) (opq : List Nat) : List Nat :=
  [PROTOCOL_BINARY_REQ, PROTOCOL_BINARY_CMD_DELETE] ++ be_encode 2 k.length ++ [0, 0, 0, 0]
    ++ be_encode 4 k.length ++ opq ++ be_encode 8 cas ++ k

/-- The entry that `handle_set` builds from a SET request for `k` and `v`. -/
def set_entry (k v : List Nat) (cas : Nat) : value :=
  value.ctor (set_request k v cas [0, 0, 0, 0] [0, 0, 0, 0, 0, 0, 0, 0])
    (decode_header (set_request k v cas [0, 0, 0, 0] [0, 0, 0, 0, 0, 0, 0, 0]))

/-- The value that `handle_delete` builds from a DELETE request for `k`. -/
def delete_entry (k : List Nat) (cas : Nat) : value :=
  value.ctor (delete_request k cas [0, 0, 0, 0]) (decode_header (delete_request k cas [0, 0, 0, 0]))

/-! ## Concrete caches -/

/-- The default cache after SET of key `[1]` and then of key `[2]`, both with
CAS 999: key `[1]` is the least recent one. -/
def cache_two_keys : cache :=
  ((cache.ctor 0).set (set_entry [1] [7] 999)).set (set_entry [2] [7] 999)

/-- The number of entries resident after `n` entries of one packet length have
been set into an empty cache whose capacity is five times that length. -/
def resident_count (n : Nat) : Nat := if n = 0 then 0 else (n - 1) % 5 + 1

/-- The ten entries of the eviction test: keys `[0]` to `[9]`, each with a
one-byte value, so that every packet has 34 bytes. -/
def ten_entries : List value := (List.range 10).map (fun i => set_entry [i] [i + 100] 0)

/-! ## Concrete headers -/

/-- The decoded header of a SET request for a one-byte key and a one-byte value. -/
def set_header_example : protocol_binary_request_header :=
  { magic := 0x80, opcode := 0x01, keylen := 1, extlen := 8, datatype := 0, vbucket := [0, 0]
    bodylen := 10, opaque_ := [0, 0, 0, 0], cas := 0 }

/-- The decoded header of a GET request for a one-byte key. -/
def get_header_example : protocol_binary_request_header :=
  { magic := 0x80, opcode := 0x00, keylen := 1, extlen := 0, datatype := 0, vbucket := [0, 0]
    bodylen := 1, opaque_ := [0, 0, 0, 0], cas := 0 }

/-- A decoded header with the opcode 0x02, which the server does not know, and
the key length `keylen`. -/
def unknown_header_example (keylen : Nat) : protocol_binary_request_header :=
  { magic := 0x80, opcode := 0x02, keylen := keylen, extlen := 0, datatype := 0
    vbucket := [0, 0], bodylen := keylen, opaque_ := [0, 0, 0, 0], cas := 0 }

/-! ## The calls of one connection -/

/-- The calls of `buffer_packet` that `executor::put_new_data` makes for the
chunks read from one connection, in order: the values returned, up to the first
`false` (after which the executor destroys the connection), and the connection
after the last call made; `none` when an assertion fails. -/
def connection.feed : connection → List (List Nat) → Option (List Bool × connection)
  | s, [] => some ([], s)
  | s, b :: bs =>
    match s.buffer_packet b with
    | none => none
    | some (false, s1) => some ([false], s1)
    | some (true, s1) => (connection.feed s1 bs).map (fun p => (true :: p.1, p.2))

/-- The state of the request buffer between two calls of `buffer_packet`: a
buffer of 24 bytes or more holds a header that passed validation and less than
the whole packet. -/
def connection.buffering (s : connection) : Prop :=
  HEADER_SIZE ≤ s.request_.length →
    validate_header (decode_header s.request_) = PROTOCOL_BINARY_RESPONSE_SUCCESS ∧
    s.request_.length < (decode_header s.request_).bodylen + HEADER_SIZE

/-! ## Concrete requests -/

/-- A request with the opcode 0x02, which the server does not know: magic 0x80,
keylen 1, extlen 0, bodylen 1, and the one-byte key as body. -/
def unknown_request : List Nat :=
  [0x80, 0x02, 0, 1, 0, 0, 0, 0, 0, 0, 0, 1, 0, 0, 0, 0, 0, 0, 0, 0, 0, 0, 0, 0, 107]

/-- The chunks of at most `n` bytes that a byte string falls into when it is
read `n` bytes at a time; the first argument bounds the number of chunks. -/
def chunks (n : Nat) : Nat → List Nat → List (List Nat)
  | 0, _ => []
  | fuel + 1, l => if l = [] then [] else l.take n :: chunks n fuel (l.drop n)

/-- The chunks of `n` bytes, the last one possibly shorter, of a byte string. -/
def split_chunks (n : Nat) (l : List Nat) : List (List Nat) := chunks n l.length l

/-! ## The connection at the call of a handler -/

/-- The connection when `buffer_packet` has buffered the complete packet `p` and
decoded its header: the state in which `process_packet` calls a handler. -/
def connection.with_request (s : connection) (p : List Nat) : connection :=
  { s with request_ := p, header_ := decode_header p }

/-- A fresh connection to the cache `c` whose socket fails every `::write` with
an error other than `EAGAIN`/`EWOULDBLOCK`. -/
def connection.broken (c : cache) : connection :=
  { connection.ctor c 0 with fd_ := { written := [], broken := true } }

/-! ## executor.h, executor.cpp -/

/-- The enum `task::type`. -/
inductive task_type where
  | NOOP
  | NEW
  | READ
  | CLOSE
  | SHUTDOWN
deriving DecidableEq, Repr

/-- The struct `task`. `s_` is the address of a connection object, 0 for
`nullptr`. -/
structure task where
  type_ : task_type
  s_ : Nat
  packet_ : List Nat
deriving DecidableEq, Repr

/-- The struct `executor`: the queue `q_` and the set `active_connections_` of
addresses. `heap_` is not a member: it holds, by address, the connection objects
allocated with `new` and not yet deleted that the tasks of this executor point
to (every connection is handled by the one executor it was assigned to). The
thread and the locks are not modelled. -/
structure executor where
  q_ : List task
  active_connections_ : List Nat
  heap_ : List (Nat × connection)
deriving DecidableEq, Repr

/-- The constructor of `executor`. -/
def executor.ctor : executor := { q_ := [], active_connections_ := [], heap_ := [] }

/-- The method `executor::add`, that is `sync_queue::push`. -/
def executor.add (e : executor) (d : task) : executor := { e with q_ := e.q_ ++ [d] }

/-- The method `executor::add_connection`; `none` when its assertion fails. -/
def executor.add_connection (e : executor) (s : Nat) : Option executor :=
  if s ∈ e.active_connections_ then none
  else some { e with active_connections_ := e.active_connections_ ++ [s] }

/-- The method `executor::close_connection`; `none` when its assertion fails.
`delete` takes the object off the heap. -/
def executor.close_connection (e : executor) (s : Nat) : Option executor :=
  if s ∉ e.active_connections_ then none
  else some { e with heap_ := e.heap_.filter (fun p => p.1 ≠ s)
                     active_connections_ := e.active_connections_.filter (fun a => a ≠ s) }

/-- The method `executor::put_new_data`; `none` when its assertion or one of
`buffer_packet` fails, or when the object is not on the heap. -/
def executor.put_new_data (e : executor) (s : Nat) (b : List Nat) : Option executor :=
  if s ∉ e.active_connections_ then none
  else
    match e.heap_.find? (fun p => p.1 = s) with
    | none => none
    | some p =>
      match p.2.buffer_packet b with
      | none => none
      | some (ok, conn) =>
        let e1 := { e with heap_ := e.heap_.map (fun q => if q.1 = s then (s, conn) else q) }
        if ok = false then e1.close_connection s else some e1

/-- The method `executor::process_inl`; `none` when an assertion fails. -/
def executor.process_inl (e : executor) (t : task) : Option (Bool × executor) :=
  match t.type_ with
  | task_type.NEW =>
    if t.packet_ ≠ [] then none else (e.add_connection t.s_).map (fun e1 => (true, e1))
  | task_type.READ => (e.put_new_data t.s_ t.packet_).map (fun e1 => (true, e1))
  | task_type.CLOSE =>
    if t.packet_ ≠ [] then none else (e.close_connection t.s_).map (fun e1 => (true, e1))
  | task_type.SHUTDOWN => some (false, e)
  | task_type.NOOP => none

/-- The method `executor::cleanup`. -/
def executor.cleanup (e : executor) : executor :=
  { e with heap_ := e.heap_.filter (fun p => p.1 ∉ e.active_connections_)
           active_connections_ := [] }

/-- The method `executor::process` on the tasks that `q_.pop()` hands to it, in
order: the executor when the loop has ended after a SHUTDOWN task or waits for
the next task; `none` when an assertion fails. -/
def executor.process : executor → List task → Option executor
  | e, [] => some e
  | e, v :: rest =>
    if v.type_ ≠ task_type.SHUTDOWN ∧ v.s_ = 0 then none
    else
      match e.process_inl v with
      | none => none
      | some (false, e1) => some e1.cleanup
      | some (true, e1) => executor.process e1 rest

/-- The class `IOPoolExecutor`. -/
structure IOPoolExecutor where
  executors_ : List executor
  next_ : Nat
deriving DecidableEq, Repr

/-- The method `IOPoolExecutor::init`, which appends `size` executors. -/
def IOPoolExecutor.init (p : IOPoolExecutor) (size : Int) : IOPoolExecutor :=
  { p with executors_ := p.executors_ ++ List.replicate size.toNat executor.ctor }

/-- The constructor `IOPoolExecutor(size)`. -/
def IOPoolExecutor.ctor (size : Int) : IOPoolExecutor :=
  IOPoolExecutor.init { executors_ := [], next_ := 0 } size

/-- The conversion of an unsigned 64-bit number to `int`. -/
def to_int (n : Nat) : Int :=
  if n % 2 ^ 32 < 2 ^ 31 then (n % 2 ^ 32 : Nat) else (n % 2 ^ 32 : Nat) - 2 ^ 32

/-- The method `IOPoolExecutor::pick`: the index picked and the pool afterwards;
`none` for the division by zero of a pool without executors. The counter `next_`
is a `uint64_t`. -/
def IOPoolExecutor.pick (p : IOPoolExecutor) : Option (Int × IOPoolExecutor) :=
  if p.executors_.length = 0 then none
  else some (to_int (p.next_ % p.executors_.length), { p with next_ := (p.next_ + 1) % 2 ^ 64 })

/-- The method `IOPoolExecutor::add`; `none` when an assertion fails or the
index is outside of `executors_`. -/
def IOPoolExecutor.add (p : IOPoolExecutor) (t : task) (index : Int) : Option IOPoolExecutor :=
  if t.s_ = 0 then none
  else if t.type_ = task_type.NOOP then none
  else
    match (if index = -1 then p.pick else some (index, p)) with
    | none => none
    | some (i, p1) =>
      match p1.executors_.get? i.toNat with
      | none => none
      | some e =>
        if i < 0 then none
        else some { p1 with executors_ := p1.executors_.set i.toNat (e.add t) }

/-- A call of a method of the pool: `pick()` or `add(t, index)`. -/
inductive pool_call where
  | pick
  | add (t : task) (index : Int)
deriving DecidableEq, Repr

/-- The pool after a call; `none` when the call fails. -/
def IOPoolExecutor.call (p : IOPoolExecutor) : pool_call → Option IOPoolExecutor
  | pool_call.pick => p.pick.map (fun r => r.2)
  | pool_call.add t index => p.add t index

/-- The pool after a sequence of calls. -/
def IOPoolExecutor.calls : IOPoolExecutor → List pool_call → Option IOPoolExecutor
  | p, [] => some p
  | p, op :: ops =>
    match p.call op with
    | none => none
    | some p1 => IOPoolExecutor.calls p1 ops

/-- The number of times that a sequence of calls runs `pick()`: once for each
`pick()` and once for each `add` with the index -1. -/
def pick_count : List pool_call → Nat
  | [] => 0
  | pool_call.pick :: ops => pick_count ops + 1
  | pool_call.add _ index :: ops => if index = -1 then pick_count ops + 1 else pick_count ops

/-- The indices that `n` successive calls of `pick()` return, and the pool
afterwards. -/
def IOPoolExecutor.picks : Nat → IOPoolExecutor → Option (List Int × IOPoolExecutor)
  | 0, p => some ([], p)
  | n + 1, p =>
    match p.pick with
    | none => none
    | some (i, p1) => (IOPoolExecutor.picks n p1).map (fun r => (i :: r.1, r.2))

/-! ## util.h, main.cpp: the options -/

/-- The constant `MAX_CONNECTIONS` of `limits.h`. -/
def MAX_CONNECTIONS : Nat := 512

/-- The struct `options` with its default member values. -/
structure options where
  port : Nat
  threads : Nat
  cachemem : Nat
  max_connections : Nat
  ip : String
deriving DecidableEq, Repr

/-- The default-initialised `options`; `cachemem` is an `unsigned int`. -/
def options.ctor : options :=
  { port := 11211, threads := 0, cachemem := DEFAULT_CACHE_CAPACITY % 2 ^ 32
    max_connections := MAX_CONNECTIONS, ip := "127.0.0.1" }

/-- The decimal digits at the head of a string, read as a number. -/
def atoi_digits : List Char → Nat → Nat
  | [], acc => acc
  | c :: cs, acc => if c.isDigit then atoi_digits cs (acc * 10 + (c.toNat - 48)) else acc

/-- The function `isspace` of the C library in the C locale: space, and the
characters from horizontal tab to carriage return. -/
def isspace (c : Char) : Bool := c.toNat == 32 || (9 ≤ c.toNat && c.toNat ≤ 13)

/-- The number that `strtol` reads in base 10: white space, an optional sign,
then decimal digits (0 when there is no digit), saturated to the range of
`long`. -/
def strtol (s : String) : Int :=
  let v : Int :=
    match s.toList.dropWhile isspace with
    | '-' :: ds => - (atoi_digits ds 0 : Int)
    | '+' :: ds => (atoi_digits ds 0 : Int)
    | ds => (atoi_digits ds 0 : Int)
  if v > 2 ^ 63 - 1 then 2 ^ 63 - 1 else if v < -(2 ^ 63) then -(2 ^ 63) else v

/-- The function `atoi` of the C library, `(int) strtol(s, NULL, 10)`: the low
32 bits of the `long`, read as a signed number. -/
def atoi (s : String) : Int := (strtol s + 2 ^ 31) % 2 ^ 32 - 2 ^ 31

/-- The conversion of an `int` to `unsigned int`. -/
def to_unsigned (i : Int) : Nat := (i % 2 ^ 32).toNat

/-- The loop of `util::parse` over the arguments after `argv[0]`: the value
returned and the options as the loop leaves them. -/
def parse_loop : List String → options → Bool × options
  | [], o => (true, o)
  | arg :: rest, o =>
    match arg.toList with
    | [] => parse_loop rest o
    | [_] => (false, o)
    | [c0, c1] =>
      if c0 ≠ '-' then (false, o)
      else if c1 = 'i' then
        match rest with
        | [] => (false, o)
        | a :: rest1 => parse_loop rest1 { o with ip := a }
      else if c1 = 'p' then
        match rest with
        | [] => (false, o)
        | a :: rest1 => parse_loop rest1 { o with port := to_unsigned (atoi a) }
      else if c1 = 't' then
        match rest with
        | [] => (false, o)
        | a :: rest1 => parse_loop rest1 { o with threads := to_unsigned (atoi a) }
      else if c1 = 'm' then
        match rest with
        | [] => (false, o)
        | a :: rest1 =>
          if to_unsigned (atoi a) = 0 then (false, { o with cachemem := to_unsigned (atoi a) })
          else parse_loop rest1 { o with cachemem := to_unsigned (atoi a) }
      else (false, o)
    | _ :: _ :: _ :: _ => (false, o)

/-- The function `util::parse`. -/
def parse (argv : List String) (o : options) : Bool × options := parse_loop (argv.drop 1) o

/-- The cache that `main` allocates for the command line `argv`:
`new cache(o.cachemem)` with the options that `parse` leaves, whether it
returned true or not. -/
def main_cache (argv : List String) : cache := cache.ctor (parse argv options.ctor).2.cachemem

/-! ## The entries that `reclaim` deletes -/

/-- The number of nodes that the loop of `reclaim` deletes from a list of nodes
when `freed` bytes have been freed so far. -/
def reclaim_count (size : Nat) : Nat → List lru_node → Nat
  | _, [] => 0
  | freed, n :: rest =>
    if freed < size then reclaim_count size (size_add freed n.k.value_size_) rest + 1 else 0

/-- A cache of capacity 250 after SET of key `[1]` with a 170-byte value (a
packet of 203 bytes) and then of key `[2]` with a one-byte value (34 bytes). -/
def cache_long_short : cache :=
  ((cache.ctor 250).set (set_entry [1] (List.replicate 170 7) 0)).set (set_entry [2] [7] 0)

/-! ## executor.h: the queue and the loop of the worker -/

/-- The loop of `executor::process` on the queue `q` of the executor, in the
sequential model in which nothing is pushed while the worker runs. `q_.pop()`
takes the task at the head of the queue and leaves the rest in `q_`; on the
empty queue it blocks, which ends the run. The first component lists the tasks
handed to `process_inl`, in this order; the second is the executor when the loop
has ended or waits, `none` when an assertion failed. -/
def executor.process_log : executor → List task → List task × Option executor
  | e, [] => ([], some { e with q_ := [] })
  | e, v :: rest =>
    if v.type_ ≠ task_type.SHUTDOWN ∧ v.s_ = 0 then ([], none)
    else
      match ({ e with q_ := rest } : executor).process_inl v with
      | none => ([v], none)
      | some (false, e1) => ([v], some e1.cleanup)
      | some (true, e1) =>
        (v :: (executor.process_log e1 rest).1, (executor.process_log e1 rest).2)

/-- The worker of an executor on the tasks that are in its queue. -/
def executor.run (e : executor) : List task × Option executor := e.process_log e.q_

/-- Whether the packet of `v` has the length of the packet stored for its key,
if one is stored. -/
def cache.same_length (c : cache) (v : value) : Bool :=
  match lookup_find c.lookup_ v.get_key with
  | none => true
  | some e => decide (e.2.data_str_.length = v.data_str_.length)

/-- Whether `v` can be handed to `set`: its packet holds the header and the
extras, as the constructor of `value` asserts, and five times its length, and
its length added to the capacity, are within `size_t`. -/
def cache.takes (c : cache) (v : value) : Bool :=
  decide (v.header_.extlen + HEADER_SIZE ≤ v.data_str_.length)
    && decide (5 * v.data_str_.length < SIZE_MOD)
    && decide (c.capacity_ + v.data_str_.length < SIZE_MOD)

/-- Whether a call is one of set, get, cas and remove and, for a key that is
stored, comes with a packet of the length of the stored one. -/
def cache.admits_op (c : cache) : cache_op → Bool
  | .set v => c.same_length v && c.takes v
  | .get _ => true
  | .cas v _ => c.same_length v && c.takes v
  | .remove v _ => c.same_length v
  | .clear => false

/-- Whether every call of a sequence is admitted in the state in which it is
made. -/
def cache.admits : cache → List cache_op → Bool
  | _, [] => true
  | c, op :: ops => c.admits_op op && cache.admits (c.step op) ops

/-- The accounting invariant: the cache is consistent, the tracked size is the
sum of the resident packet lengths, the capacity is within `size_t`, and the
size is at most the capacity unless a single entry is resident (whose length,
five times over, is within `size_t`). -/
def cache.exact (c : cache) : Prop :=
  c.consistent ∧ c.size_ = c.resident_bytes ∧ c.capacity_ < SIZE_MOD ∧
    (c.size_ ≤ c.capacity_ ∨ (c.count = 1 ∧ 5 * c.size_ < SIZE_MOD))

/-! # Theorems -/

/-! ## Keys and the two containers -/

theorem key.eq_iff (a k : key) : a.eq k = true ↔ a.id = k.id := by
  unfold key.eq key.id
  by_cases h : a.length_ = k.length_
  · by_cases h0 : a.length_ = 0
    · have hk : k.length_ = 0 := h ▸ h0
      simp [h0, hk]
    · rw [← h]
      simp [h0]
  · simp [h]

theorem key.eq_refl (k : key) : k.eq k = true := (key.eq_iff k k).2 rfl

theorem key.eq_false_iff (a k : key) : a.eq k = false ↔ a.id ≠ k.id := by
  rw [← Bool.not_eq_true, key.eq_iff]

theorem eraseP_eq_filter_of_nodup {α β : Type} [DecidableEq β] (f : α → β) (x : β) :
    ∀ l : List α, (l.map f).Nodup →
      l.eraseP (fun a => decide (f a = x)) = l.filter (fun a => !decide (f a = x))
  | [], _ => rfl
  | a :: l, h => by
    rw [List.map_cons, List.nodup_cons] at h
    by_cases hax : f a = x
    · have hl : ∀ b ∈ l, f b ≠ x := by
        intro b hb hbx
        exact h.1 (hax ▸ hbx ▸ List.mem_map_of_mem f hb)
      have hfil : l.filter (fun a => !decide (f a = x)) = l := by
        rw [List.filter_eq_self]
        intro b hb
        simpa using hl b hb
      simp [List.eraseP_cons, hax, hfil]
    · simp [List.eraseP_cons, hax, eraseP_eq_filter_of_nodup f x l h.2]

theorem lookup_find_some {l : List (key × value)} {k : key} {e : key × value}
    (h : lookup_find l k = some e) : e ∈ l ∧ e.1.id = k.id :=
  by
  unfold lookup_find at h
  have h2 : e.1.eq k = true := @List.find?_some _ (fun e => e.1.eq k) e l h
  exact ⟨List.mem_of_find?_eq_some h, (key.eq_iff _ _).1 h2⟩

theorem lookup_find_none {l : List (key × value)} {k : key} :
    lookup_find l k = none ↔ ∀ e ∈ l, e.1.id ≠ k.id := by
  unfold lookup_find
  rw [List.find?_eq_none]
  constructor
  · intro h e he hid
    exact h e he ((key.eq_iff _ _).2 hid)
  · intro h e he heq
    exact h e he ((key.eq_iff _ _).1 heq)

theorem lookup_find_congr (l : List (key × value)) {a k : key} (h : a.id = k.id) :
    lookup_find l a = lookup_find l k := by
  unfold lookup_find
  congr 1
  funext e
  rw [Bool.eq_iff_iff, key.eq_iff, key.eq_iff, h]

theorem lookup_find_of_mem {l : List (key × value)} (hn : (l.map (fun e => e.1.id)).Nodup)
    {e : key × value} (he : e ∈ l) {k : key} (hk : e.1.id = k.id) :
    lookup_find l k = some e := by
  induction l with
  | nil => cases he
  | cons a l ih =>
    rw [List.map_cons, List.nodup_cons] at hn
    unfold lookup_find
    rw [List.find?_cons]
    rcases List.mem_cons.1 he with rfl | he
    · simp [(key.eq_iff _ _).2 hk]
    · have hne : a.1.id ≠ k.id := by
        intro ha
        exact hn.1 (List.mem_map.2 ⟨e, he, by rw [hk, ha]⟩)
      simp only [(key.eq_false_iff _ _).2 hne]
      exact ih hn.2 he

theorem lookup_erase_eq_filter {l : List (key × value)} (hn : (l.map (fun e => e.1.id)).Nodup)
    (k : key) : lookup_erase l k = l.filter (fun e => !decide (e.1.id = k.id)) := by
  rw [← eraseP_eq_filter_of_nodup (fun e : key × value => e.1.id) k.id l hn]
  unfold lookup_erase
  congr 1
  funext e
  rw [Bool.eq_iff_iff, key.eq_iff]
  simp

theorem lru_erase_eq_filter {l : List lru_node} (hn : (l.map (fun n => n.ref)).Nodup)
    (r : Nat) : lru_erase l (some r) = l.filter (fun n => !decide (n.ref = r)) := by
  rw [← eraseP_eq_filter_of_nodup (fun n : lru_node => n.ref) r l hn]
  unfold lru_erase
  congr 1

/-! ## Preservation of the representation invariant -/

theorem consistent_ctor (capacity : Nat) : (cache.ctor capacity).consistent := by
  constructor <;> simp [cache.ctor]

theorem cache.consistent.ref_inj {c : cache} (h : c.consistent) {n m : lru_node}
    (hn : n ∈ c.lru_) (hm : m ∈ c.lru_) (hr : n.ref = m.ref) : n = m :=
  List.inj_on_of_nodup_map h.refs_nodup hn hm hr

theorem cache.consistent.key_inj {c : cache} (h : c.consistent) {e f : key × value}
    (he : e ∈ c.lookup_) (hf : f ∈ c.lookup_) (hk : e.1.id = f.1.id) : e = f :=
  List.inj_on_of_nodup_map h.keys_nodup he hf hk

theorem delete_inl_lookup_sublist (c : cache) (k : key) :
    (c.delete_inl k).2.lookup_.Sublist c.lookup_ := by
  unfold cache.delete_inl
  cases lookup_find c.lookup_ k with
  | none => exact List.Sublist.refl _
  | some e => exact List.eraseP_sublist _

theorem delete_inl_next_ref (c : cache) (k : key) :
    (c.delete_inl k).2.next_ref_ = c.next_ref_ := by
  unfold cache.delete_inl
  cases lookup_find c.lookup_ k <;> rfl

theorem delete_inl_capacity (c : cache) (k : key) :
    (c.delete_inl k).2.capacity_ = c.capacity_ := by
  unfold cache.delete_inl
  cases lookup_find c.lookup_ k <;> rfl

/-- The state after `delete_inl` found the entry: both containers lose the
element of the key. -/
theorem delete_inl_found {c : cache} (h : c.consistent) {k : key} {e : key × value}
    (hf : lookup_find c.lookup_ k = some e) :
    ∃ n ∈ c.lru_, e.2.lru_ref_ = some n.ref ∧ n.k = e.1 ∧
      c.delete_inl k = (true,
        { c with lru_ := c.lru_.filter (fun m => !decide (m.ref = n.ref))
                 lookup_ := c.lookup_.filter (fun f => !decide (f.1.id = k.id))
                 size_ := size_sub c.size_ k.value_size_ }) := by
  obtain ⟨n, hn, hr, hk⟩ := h.entry_node e (lookup_find_some hf).1
  refine ⟨n, hn, hr, hk, ?_⟩
  unfold cache.delete_inl
  rw [hf]
  simp only [hr, lru_erase_eq_filter h.refs_nodup, lookup_erase_eq_filter h.keys_nodup]

theorem delete_inl_consistent {c : cache} (h : c.consistent) (k : key) :
    (c.delete_inl k).2.consistent := by
  cases hf : lookup_find c.lookup_ k with
  | none =>
    unfold cache.delete_inl
    rw [hf]
    exact h
  | some e =>
    obtain ⟨n0, hn0, hr0, hk0, heq⟩ := delete_inl_found h hf
    have hlen : (c.delete_inl k).2.lru_.length = (c.delete_inl k).2.lookup_.length := by
      unfold cache.delete_inl
      rw [hf]
      simp only [lru_erase, lookup_erase]
      have hp : (fun m : lru_node => some m.ref == e.2.lru_ref_) n0 = true := by simp [hr0]
      have hq : (fun f : key × value => f.1.eq k) e = true :=
        (key.eq_iff _ _).2 (lookup_find_some hf).2
      rw [List.length_eraseP_of_mem hn0 hp, List.length_eraseP_of_mem (lookup_find_some hf).1 hq,
        h.length_eq]
    rw [heq] at hlen ⊢
    obtain ⟨he, hid⟩ := lookup_find_some hf
    refine ⟨?_, ?_, ?_, ?_, ?_, ?_, hlen⟩
    · exact List.Nodup.sublist ((List.filter_sublist _).map _) h.keys_nodup
    · exact List.Nodup.sublist ((List.filter_sublist _).map _) h.refs_nodup
    · intro m hm
      exact h.refs_lt m (List.mem_filter.1 hm).1
    · intro f hf2
      simp only [List.mem_filter, Bool.not_eq_true', decide_eq_false_iff_not] at hf2 ⊢
      obtain ⟨m, hm, hmr, hmk⟩ := h.entry_node f hf2.1
      refine ⟨m, ⟨hm, ?_⟩, hmr, hmk⟩
      intro hmn
      have : m = n0 := h.ref_inj hm hn0 hmn
      apply hf2.2
      rw [← hmk, this, hk0, hid]
    · intro m hm
      simp only [List.mem_filter, Bool.not_eq_true', decide_eq_false_iff_not] at hm ⊢
      obtain ⟨f, hf2, hfr, hfk⟩ := h.node_entry m hm.1
      refine ⟨f, ⟨hf2, ?_⟩, hfr, hfk⟩
      intro hfid
      have : f = e := h.key_inj hf2 he (hfid.trans hid.symm)
      apply hm.2
      rw [this, hr0] at hfr
      exact (Option.some.inj hfr).symm
    · intro f hf2
      exact h.key_of f (List.mem_filter.1 hf2).1

theorem reclaim_loop_consistent (size : Nat) :
    ∀ (nodes : List lru_node) (c : cache) (freed : Nat), c.consistent →
      (cache.reclaim_loop size c freed nodes).consistent
  | [], c, freed, h => by
    unfold cache.reclaim_loop
    exact h
  | n :: rest, c, freed, h => by
    unfold cache.reclaim_loop
    split
    · exact reclaim_loop_consistent size rest _ _ (delete_inl_consistent h n.k)
    · exact h

theorem reclaim_loop_lookup_sublist (size : Nat) :
    ∀ (nodes : List lru_node) (c : cache) (freed : Nat),
      (cache.reclaim_loop size c freed nodes).lookup_.Sublist c.lookup_
  | [], c, freed => by
    unfold cache.reclaim_loop
    exact List.Sublist.refl _
  | n :: rest, c, freed => by
    unfold cache.reclaim_loop
    split
    · exact (reclaim_loop_lookup_sublist size rest _ _).trans (delete_inl_lookup_sublist c n.k)
    · exact List.Sublist.refl _

theorem reclaim_loop_next_ref (size : Nat) :
    ∀ (nodes : List lru_node) (c : cache) (freed : Nat),
      (cache.reclaim_loop size c freed nodes).next_ref_ = c.next_ref_
  | [], c, freed => by
    unfold cache.reclaim_loop
    rfl
  | n :: rest, c, freed => by
    unfold cache.reclaim_loop
    split
    · rw [reclaim_loop_next_ref size rest, delete_inl_next_ref]
    · rfl

theorem reclaim_loop_capacity (size : Nat) :
    ∀ (nodes : List lru_node) (c : cache) (freed : Nat),
      (cache.reclaim_loop size c freed nodes).capacity_ = c.capacity_
  | [], c, freed => by
    unfold cache.reclaim_loop
    rfl
  | n :: rest, c, freed => by
    unfold cache.reclaim_loop
    split
    · rw [reclaim_loop_capacity size rest, delete_inl_capacity]
    · rfl

theorem reclaim_consistent {c : cache} (h : c.consistent) (size : Nat) :
    (c.reclaim size).consistent :=
  reclaim_loop_consistent size _ _ _ h

theorem clear_consistent {c : cache} (h : c.consistent) : c.clear.consistent := by
  unfold cache.clear
  split
  · exact reclaim_consistent h _
  · exact h

theorem eraseP_append_perm {α : Type} (p : α → Bool) :
    ∀ (l : List α) (a : α), l.find? p = some a → (l.eraseP p ++ [a]).Perm l
  | [], a, h => by simp at h
  | b :: l, a, h => by
    rw [List.find?_cons] at h
    rw [List.eraseP_cons]
    cases hb : p b with
    | true =>
      rw [hb] at h
      cases h
      simp only [cond_true]
      exact (List.perm_append_singleton b l)
    | false =>
      rw [hb] at h
      simp only [cond_false]
      exact List.Perm.cons b (eraseP_append_perm p l a h)

theorem lru_splice_perm (l : List lru_node) (it : Option Nat) : (lru_splice l it).Perm l := by
  unfold lru_splice
  cases hf : l.find? (fun n => some n.ref == it) with
  | none => exact List.Perm.refl _
  | some n => exact eraseP_append_perm _ l n hf

/-- The state of `lru_splice` on a list of pairwise different nodes. -/
theorem lru_splice_eq {l : List lru_node} (hn : (l.map (fun n => n.ref)).Nodup) {n : lru_node}
    (hm : n ∈ l) : lru_splice l (some n.ref) = l.filter (fun m => !decide (m.ref = n.ref)) ++ [n] := by
  unfold lru_splice
  have hf : l.find? (fun m => some m.ref == some n.ref) = some n := by
    rw [List.find?_eq_some]
    obtain ⟨as, bs, rfl⟩ := List.append_of_mem hm
    refine ⟨by simp, as, bs, rfl, ?_⟩
    intro a ha
    simp only [beq_iff_eq, Option.some.injEq, Bool.not_eq_true', beq_eq_false_iff_ne, ne_eq]
    intro har
    rw [List.map_append, List.map_cons, List.nodup_append] at hn
    exact hn.2.2 (List.mem_map_of_mem (fun n => n.ref) ha) (by rw [har]; exact List.mem_cons_self _ _)
  rw [hf, lru_erase_eq_filter hn]

theorem consistent_of_lru_perm {c : cache} (h : c.consistent) {l : List lru_node}
    (hp : l.Perm c.lru_) : ({ c with lru_ := l } : cache).consistent := by
  refine ⟨h.keys_nodup, ?_, ?_, ?_, ?_, h.key_of, ?_⟩
  · exact ((hp.map _).nodup_iff).2 h.refs_nodup
  · intro n hn
    exact h.refs_lt n (hp.mem_iff.1 hn)
  · intro e he
    obtain ⟨n, hn, hr⟩ := h.entry_node e he
    exact ⟨n, hp.mem_iff.2 hn, hr⟩
  · intro n hn
    exact h.node_entry n (hp.mem_iff.1 hn)
  · show l.length = c.lookup_.length
    rw [hp.length_eq, h.length_eq]

theorem get_inl_lookup (c : cache) (k : key) : (c.get_inl k).2.lookup_ = c.lookup_ := by
  unfold cache.get_inl
  cases lookup_find c.lookup_ k with
  | none => rfl
  | some e =>
    simp only
    split <;> rfl

theorem get_inl_size (c : cache) (k : key) : (c.get_inl k).2.size_ = c.size_ := by
  unfold cache.get_inl
  cases lookup_find c.lookup_ k with
  | none => rfl
  | some e =>
    simp only
    split <;> rfl

theorem get_inl_capacity (c : cache) (k : key) : (c.get_inl k).2.capacity_ = c.capacity_ := by
  unfold cache.get_inl
  cases lookup_find c.lookup_ k with
  | none => rfl
  | some e =>
    simp only
    split <;> rfl

theorem get_inl_next_ref (c : cache) (k : key) : (c.get_inl k).2.next_ref_ = c.next_ref_ := by
  unfold cache.get_inl
  cases lookup_find c.lookup_ k with
  | none => rfl
  | some e =>
    simp only
    split <;> rfl

theorem get_inl_fst (c : cache) (k : key) :
    (c.get_inl k).1 = (lookup_find c.lookup_ k).map (fun e => e.2) := by
  unfold cache.get_inl
  cases lookup_find c.lookup_ k with
  | none => rfl
  | some e =>
    simp only
    split <;> rfl

theorem get_inl_lru_perm (c : cache) (k : key) : (c.get_inl k).2.lru_.Perm c.lru_ := by
  unfold cache.get_inl
  cases lookup_find c.lookup_ k with
  | none => exact List.Perm.refl _
  | some e =>
    simp only
    split
    · exact lru_splice_perm _ _
    · exact List.Perm.refl _

theorem get_inl_consistent {c : cache} (h : c.consistent) (k : key) :
    (c.get_inl k).2.consistent := by
  have hp := get_inl_lru_perm c k
  have := consistent_of_lru_perm h hp
  have heq : (c.get_inl k).2 = { c with lru_ := (c.get_inl k).2.lru_ } := by
    unfold cache.get_inl
    cases lookup_find c.lookup_ k with
    | none => rfl
    | some e =>
      simp only
      split <;> rfl
  rw [heq]
  exact this

theorem set_inl_eq (c : cache) (v : value) :
    c.set_inl v =
      { c.set_pre v with
        lru_ := (c.set_pre v).lru_ ++ [{ ref := (c.set_pre v).next_ref_, k := v.get_key }]
        next_ref_ := (c.set_pre v).next_ref_ + 1
        lookup_ := lookup_emplace (c.set_pre v).lookup_ v.get_key
          (v.set_lru (c.set_pre v).next_ref_)
        size_ := size_add (c.set_pre v).size_ v.data_str_.length } := rfl

theorem set_del_next_ref (c : cache) (v : value) : (c.set_del v).next_ref_ = c.next_ref_ := by
  unfold cache.set_del
  split
  · exact delete_inl_next_ref _ _
  · rfl

theorem set_del_capacity (c : cache) (v : value) : (c.set_del v).capacity_ = c.capacity_ := by
  unfold cache.set_del
  split
  · exact delete_inl_capacity _ _
  · rfl

theorem set_del_consistent {c : cache} (h : c.consistent) (v : value) :
    (c.set_del v).consistent := by
  unfold cache.set_del
  split
  · exact delete_inl_consistent h _
  · exact h

theorem set_del_lookup_sublist (c : cache) (v : value) :
    (c.set_del v).lookup_.Sublist c.lookup_ := by
  unfold cache.set_del
  split
  · exact delete_inl_lookup_sublist _ _
  · exact List.Sublist.refl _

theorem set_pre_next_ref (c : cache) (v : value) : (c.set_pre v).next_ref_ = c.next_ref_ := by
  unfold cache.set_pre cache.reclaim
  split
  · rw [reclaim_loop_next_ref, set_del_next_ref]
  · exact set_del_next_ref _ _

theorem set_pre_capacity (c : cache) (v : value) : (c.set_pre v).capacity_ = c.capacity_ := by
  unfold cache.set_pre cache.reclaim
  split
  · rw [reclaim_loop_capacity, set_del_capacity]
  · exact set_del_capacity _ _

theorem set_pre_lookup_sublist_del (c : cache) (v : value) :
    (c.set_pre v).lookup_.Sublist (c.set_del v).lookup_ := by
  unfold cache.set_pre cache.reclaim
  split
  · exact reclaim_loop_lookup_sublist _ _ _ _
  · exact List.Sublist.refl _

theorem set_pre_lookup_sublist (c : cache) (v : value) :
    (c.set_pre v).lookup_.Sublist c.lookup_ :=
  (set_pre_lookup_sublist_del c v).trans (set_del_lookup_sublist c v)

theorem set_pre_consistent {c : cache} (h : c.consistent) (v : value) :
    (c.set_pre v).consistent := by
  unfold cache.set_pre
  split
  · exact reclaim_consistent (set_del_consistent h v) _
  · exact set_del_consistent h v

theorem delete_inl_find_none {c : cache} (h : c.consistent) (k : key) :
    lookup_find (c.delete_inl k).2.lookup_ k = none := by
  cases hf : lookup_find c.lookup_ k with
  | none =>
    unfold cache.delete_inl
    rw [hf]
    exact hf
  | some e =>
    obtain ⟨n, -, -, -, heq⟩ := delete_inl_found h hf
    rw [heq, lookup_find_none]
    intro f hf2
    simpa using (List.mem_filter.1 hf2).2

theorem set_del_find_none {c : cache} (h : c.consistent) (v : value) :
    lookup_find (c.set_del v).lookup_ v.get_key = none := by
  unfold cache.set_del
  split
  · exact delete_inl_find_none h _
  · rename_i hs
    simpa using hs

theorem set_pre_find_none {c : cache} (h : c.consistent) (v : value) :
    lookup_find (c.set_pre v).lookup_ v.get_key = none := by
  have h1 := set_del_find_none h v
  rw [lookup_find_none] at h1 ⊢
  intro e he
  exact h1 e ((set_pre_lookup_sublist_del c v).subset he)

/-- The state after `set_inl` on a consistent cache: the new node and the new
entry are appended to what `set_pre` left. -/
theorem set_inl_eq_of_consistent {c : cache} (h : c.consistent) (v : value) :
    c.set_inl v =
      { c.set_pre v with
        lru_ := (c.set_pre v).lru_ ++ [{ ref := c.next_ref_, k := v.get_key }]
        next_ref_ := c.next_ref_ + 1
        lookup_ := (c.set_pre v).lookup_ ++ [(v.get_key, v.set_lru c.next_ref_)]
        size_ := size_add (c.set_pre v).size_ v.data_str_.length } := by
  rw [set_inl_eq, set_pre_next_ref]
  unfold lookup_emplace
  rw [set_pre_find_none h]
  rfl

theorem set_inl_consistent {c : cache} (h : c.consistent) (v : value) :
    (c.set_inl v).consistent := by
  rw [set_inl_eq_of_consistent h]
  have h2 := set_pre_consistent h v
  have hnone := set_pre_find_none h v
  rw [lookup_find_none] at hnone
  have hnx := set_pre_next_ref c v
  refine ⟨?_, ?_, ?_, ?_, ?_, ?_, ?_⟩
  · simp only [List.map_append, List.map_cons, List.map_nil]
    rw [List.nodup_append]
    refine ⟨h2.keys_nodup, List.nodup_singleton _, ?_⟩
    intro x hx hx2
    rw [List.mem_singleton] at hx2
    obtain ⟨e, he, rfl⟩ := List.mem_map.1 hx
    exact hnone e he hx2
  · simp only [List.map_append, List.map_cons, List.map_nil]
    rw [List.nodup_append]
    refine ⟨h2.refs_nodup, List.nodup_singleton _, ?_⟩
    intro x hx hx2
    rw [List.mem_singleton] at hx2
    obtain ⟨n, hn, rfl⟩ := List.mem_map.1 hx
    have := h2.refs_lt n hn
    omega
  · intro n hn
    simp only [List.mem_append, List.mem_singleton] at hn
    rcases hn with hn | rfl
    · have := h2.refs_lt n hn
      simp only
      omega
    · simp
  · intro e he
    simp only [List.mem_append, List.mem_singleton] at he ⊢
    rcases he with he | rfl
    · obtain ⟨n, hn, hr⟩ := h2.entry_node e he
      exact ⟨n, Or.inl hn, hr⟩
    · exact ⟨_, Or.inr rfl, rfl, rfl⟩
  · intro n hn
    simp only [List.mem_append, List.mem_singleton] at hn ⊢
    rcases hn with hn | rfl
    · obtain ⟨e, he, hr⟩ := h2.node_entry n hn
      exact ⟨e, Or.inl he, hr⟩
    · exact ⟨_, Or.inr rfl, rfl, rfl⟩
  · intro e he
    simp only [List.mem_append, List.mem_singleton] at he
    rcases he with he | rfl
    · exact h2.key_of e he
    · rfl
  · simp only [List.length_append, List.length_singleton]
    rw [h2.length_eq]

theorem cas_consistent {c : cache} (h : c.consistent) (v : value) (t : Nat) :
    (c.cas v t).2.consistent := by
  unfold cache.cas
  split
  · have hg := get_inl_consistent h v.get_key
    split
    · rename_i p c1 heq
      have hc1 : c1 = (c.get_inl v.get_key).2 := by rw [heq]
      split
      · rw [hc1]; exact hg
      · rw [hc1]; exact set_inl_consistent hg v
    · rename_i c1 heq
      have hc1 : c1 = (c.get_inl v.get_key).2 := by rw [heq]
      rw [hc1]; exact set_inl_consistent hg v
  · exact set_inl_consistent h v

theorem remove_consistent {c : cache} (h : c.consistent) (v : value) (t : Nat) :
    (c.remove v t).2.consistent := by
  unfold cache.remove
  split
  · have hg := get_inl_consistent h v.get_key
    split
    · rename_i p c1 heq
      have hc1 : c1 = (c.get_inl v.get_key).2 := by rw [heq]
      split
      · rw [hc1]; exact hg
      · rw [hc1]; exact delete_inl_consistent hg _
    · rename_i c1 heq
      have hc1 : c1 = (c.get_inl v.get_key).2 := by rw [heq]
      rw [hc1]; exact delete_inl_consistent hg _
  · exact delete_inl_consistent h _

theorem step_consistent {c : cache} (h : c.consistent) (op : cache_op) :
    (c.step op).consistent := by
  cases op with
  | set v => exact set_inl_consistent h v
  | get k => exact get_inl_consistent h k
  | cas v t => exact cas_consistent h v t
  | remove v t => exact remove_consistent h v t
  | clear => exact clear_consistent h

theorem run_consistent (ops : List cache_op) :
    ∀ {c : cache}, c.consistent → (c.run ops).consistent := by
  induction ops with
  | nil => intro c h; exact h
  | cons op ops ih => intro c h; exact ih (step_consistent h op)

/-- The keys of the LRU list of a consistent cache are pairwise different. -/
theorem cache.consistent.lru_keys_nodup {c : cache} (h : c.consistent) :
    (c.lru_.map (fun n => n.k.id)).Nodup := by
  rw [List.nodup_map_iff_inj_on (List.Nodup.of_map _ h.refs_nodup)]
  intro n hn m hm hk
  obtain ⟨e, he, her, hek⟩ := h.node_entry n hn
  obtain ⟨f, hf, hfr, hfk⟩ := h.node_entry m hm
  have hef : e = f := h.key_inj he hf (by rw [← hek, ← hfk, hk])
  apply h.ref_inj hn hm
  rw [hef, hfr] at her
  exact (Option.some.inj her).symm

theorem length_filter_eq_one {α β : Type} [DecidableEq β] (f : α → β) (x : β) :
    ∀ l : List α, (l.map f).Nodup → (∃ a ∈ l, f a = x) →
      (l.filter (fun a => decide (f a = x))).length = 1
  | [], _, h => by
    obtain ⟨a, ha, _⟩ := h
    cases ha
  | a :: l, hn, h => by
    rw [List.map_cons, List.nodup_cons] at hn
    by_cases hax : f a = x
    · have hnil : l.filter (fun a => decide (f a = x)) = [] := by
        rw [List.filter_eq_nil_iff]
        intro b hb
        have : f b ≠ x := fun hbx => hn.1 (hax ▸ hbx ▸ List.mem_map_of_mem f hb)
        simpa using this
      simp [List.filter_cons, hax, hnil]
    · obtain ⟨b, hb, hbx⟩ := h
      rcases List.mem_cons.1 hb with rfl | hb
      · exact absurd hbx hax
      · have ih := length_filter_eq_one f x l hn.2 ⟨b, hb, hbx⟩
        simpa [List.filter_cons, hax] using ih

/-- In a consistent cache exactly one node of the LRU list holds a given key of
the mapping. -/
theorem cache.consistent.lru_count {c : cache} (h : c.consistent) {e : key × value}
    (he : e ∈ c.lookup_) : (c.lru_.filter (fun n => n.k.eq e.1)).length = 1 := by
  obtain ⟨n, hn, -, hk⟩ := h.entry_node e he
  have hfe : (fun m : lru_node => m.k.eq e.1) = (fun m => decide (m.k.id = e.1.id)) := by
    funext m
    rw [Bool.eq_iff_iff, key.eq_iff]
    simp
  rw [hfe]
  exact length_filter_eq_one (fun m : lru_node => m.k.id) e.1.id c.lru_ h.lru_keys_nodup
    ⟨n, hn, congrArg key.id hk⟩

/-! ## Resident packets -/

theorem value.packet_eq {v w : value} (h : v.packet = w.packet) :
    v.data_str_ = w.data_str_ ∧ v.header_ = w.header_ := by
  unfold value.packet at h
  exact Prod.mk.inj h

theorem value.get_key_congr {v w : value} (h : v.packet = w.packet) : v.get_key = w.get_key := by
  obtain ⟨hd, hh⟩ := value.packet_eq h
  unfold value.get_key
  rw [hd, hh]

theorem value.get_value_congr {v w : value} (h : v.packet = w.packet) :
    v.get_value = w.get_value := by
  obtain ⟨hd, hh⟩ := value.packet_eq h
  unfold value.get_value value.packet_user_data
  rw [hd, hh]

/-- A resident packet is found under its key. -/
theorem get_of_mem_entries {c : cache} (h : c.consistent) {v : value}
    (hv : v.packet ∈ c.entries) :
    ∃ r, (c.get v.get_key).1 = some r ∧ r.packet = v.packet := by
  obtain ⟨e, he, hp⟩ := List.mem_map.1 hv
  refine ⟨e.2, ?_, hp⟩
  have hk : e.1 = v.get_key := (h.key_of e he).trans (value.get_key_congr hp)
  unfold cache.get
  rw [get_inl_fst, lookup_find_of_mem h.keys_nodup he (congrArg key.id hk)]
  rfl

/-- A key that no resident packet has misses, and the miss changes nothing. -/
theorem get_miss {c : cache} {k : key} (hk : lookup_find c.lookup_ k = none) :
    c.get k = (none, c) := by
  unfold cache.get cache.get_inl
  rw [hk]

theorem find_none_of_entries {c : cache} (h : c.consistent) {k : key}
    (hk : ∀ p ∈ c.entries, (value.ctor p.1 p.2).get_key.id ≠ k.id) :
    lookup_find c.lookup_ k = none := by
  rw [lookup_find_none]
  intro e he
  rw [h.key_of e he]
  exact hk e.2.packet (List.mem_map.2 ⟨e, he, rfl⟩)

/-- The state after `set_inl` when the key is new and the packet fits: nothing
is deleted. -/
theorem set_inl_fits {c : cache} (h : c.consistent) {v : value}
    (hk : lookup_find c.lookup_ v.get_key = none)
    (hfit : size_add v.data_str_.length c.size_ ≤ c.capacity_) :
    c.set_inl v =
      { c with
        lru_ := c.lru_ ++ [{ ref := c.next_ref_, k := v.get_key }]
        next_ref_ := c.next_ref_ + 1
        lookup_ := c.lookup_ ++ [(v.get_key, v.set_lru c.next_ref_)]
        size_ := size_add c.size_ v.data_str_.length } := by
  have hdel : c.set_del v = c := by
    unfold cache.set_del
    rw [hk]
    rfl
  have hpre : c.set_pre v = c := by
    unfold cache.set_pre
    rw [hdel, if_neg (Nat.not_lt.2 hfit)]
  rw [set_inl_eq_of_consistent h, hpre]

theorem entries_set_inl_fits {c : cache} (h : c.consistent) {v : value}
    (hk : lookup_find c.lookup_ v.get_key = none)
    (hfit : size_add v.data_str_.length c.size_ ≤ c.capacity_) :
    (c.set_inl v).entries = c.entries ++ [v.packet] := by
  rw [set_inl_fits h hk hfit]
  simp [cache.entries, value.packet, value.set_lru]

theorem size_add_of_lt {a b : Nat} (h : a + b < SIZE_MOD) : size_add a b = a + b :=
  Nat.mod_eq_of_lt h

theorem count_eq_length_entries (c : cache) : c.count = c.entries.length := by
  simp [cache.count, cache.entries]

/-- Storing packets with new, pairwise different keys that all fit appends them
to the resident packets and adds their lengths to the tracked size. -/
theorem sets_fit : ∀ (es : List value) (c : cache), c.consistent →
    (∀ v ∈ es, lookup_find c.lookup_ v.get_key = none) →
    (es.map (fun v => v.get_key.id)).Nodup →
    c.size_ + (es.map (fun v => v.data_str_.length)).sum ≤ c.capacity_ →
    c.capacity_ < SIZE_MOD →
    (es.foldl cache.set c).consistent ∧
      (es.foldl cache.set c).entries = c.entries ++ es.map value.packet ∧
      (es.foldl cache.set c).size_ = c.size_ + (es.map (fun v => v.data_str_.length)).sum
  | [], c, h, _, _, _, _ => by simp [h]
  | v :: es, c, h, hnew, hnd, hsum, hcap => by
    rw [List.map_cons, List.nodup_cons] at hnd
    rw [List.map_cons, List.sum_cons] at hsum
    have hk : lookup_find c.lookup_ v.get_key = none := hnew v (List.mem_cons_self _ _)
    have hadd : size_add v.data_str_.length c.size_ = v.data_str_.length + c.size_ :=
      size_add_of_lt (by omega)
    have hfit : size_add v.data_str_.length c.size_ ≤ c.capacity_ := by rw [hadd]; omega
    have heq := set_inl_fits h hk hfit
    have hc1 : (c.set v).consistent := set_inl_consistent h v
    have hsz : (c.set v).size_ = c.size_ + v.data_str_.length := by
      show (c.set_inl v).size_ = _
      rw [heq]
      exact size_add_of_lt (by omega)
    have hcp : (c.set v).capacity_ = c.capacity_ := by
      show (c.set_inl v).capacity_ = _
      rw [heq]
    have hnew1 : ∀ w ∈ es, lookup_find (c.set v).lookup_ w.get_key = none := by
      intro w hw
      show lookup_find (c.set_inl v).lookup_ w.get_key = none
      rw [heq, lookup_find_none]
      intro e he
      simp only [List.mem_append, List.mem_singleton] at he
      rcases he with he | rfl
      · exact lookup_find_none.1 (hnew w (List.mem_cons_of_mem _ hw)) e he
      · intro hid
        exact hnd.1 (List.mem_map.2 ⟨w, hw, hid.symm⟩)
    obtain ⟨i1, i2, i3⟩ := sets_fit es (c.set v) hc1 hnew1 hnd.2 (by rw [hsz, hcp]; omega)
      (by rw [hcp]; exact hcap)
    refine ⟨i1, ?_, ?_⟩
    · rw [List.foldl_cons, i2]
      show (c.set_inl v).entries ++ _ = _
      rw [entries_set_inl_fits h hk hfit]
      simp
    · rw [List.foldl_cons, i3, hsz, List.map_cons, List.sum_cons]
      omega

/-! ## C5: consistency of the mapping and the LRU list -/

/-- C5: after any sequence of set, get, cas, remove and clear on an empty cache,
every key of the mapping is held by exactly one node of the LRU list, every key
of the LRU list is a key of the mapping, the LRU reference of every entry
designates a node of the list, the only one with that identity, which holds the
key of the entry, and `count()` is the length of the LRU list. -/
theorem lru_mapping_consistency (capacity : Nat) (ops : List cache_op) :
    (∀ e ∈ ((cache.ctor capacity).run ops).lookup_,
      (((cache.ctor capacity).run ops).lru_.filter (fun n => n.k.eq e.1)).length = 1) ∧
    (∀ n ∈ ((cache.ctor capacity).run ops).lru_,
      ∃ e ∈ ((cache.ctor capacity).run ops).lookup_, e.1.eq n.k = true) ∧
    (∀ e ∈ ((cache.ctor capacity).run ops).lookup_,
      ∃ n ∈ ((cache.ctor capacity).run ops).lru_,
        e.2.lru_ref_ = some n.ref ∧ n.k = e.2.get_key ∧ n.k = e.1 ∧
        ∀ m ∈ ((cache.ctor capacity).run ops).lru_, e.2.lru_ref_ = some m.ref → m = n) ∧
    ((cache.ctor capacity).run ops).count = ((cache.ctor capacity).run ops).lru_.length := by
  have h := run_consistent ops (consistent_ctor capacity)
  refine ⟨fun e he => h.lru_count he, ?_, ?_, h.length_eq.symm⟩
  · intro n hn
    obtain ⟨e, he, -, hk⟩ := h.node_entry n hn
    exact ⟨e, he, (key.eq_iff _ _).2 (by rw [hk])⟩
  · intro e he
    obtain ⟨n, hn, hr, hk⟩ := h.entry_node e he
    refine ⟨n, hn, hr, hk.trans (h.key_of e he), hk, ?_⟩
    intro m hm hmr
    apply h.ref_inj hm hn
    rw [hr] at hmr
    exact (Option.some.inj hmr).symm

/-! ## C2: set, then get -/

theorem set_inl_mem_entries {c : cache} (h : c.consistent) (v : value) :
    v.packet ∈ (c.set_inl v).entries := by
  rw [set_inl_eq_of_consistent h]
  simp [cache.entries, value.packet, value.set_lru]

/-- After `set`, a lookup under any key equal to the key of the entry finds the
packet of the entry. -/
theorem get_after_set {c : cache} (h : c.consistent) (v : value) {k : key}
    (hk : k.id = v.get_key.id) :
    ∃ r, ((c.set v).get k).1 = some r ∧ r.packet = v.packet := by
  obtain ⟨r, hr, hp⟩ := get_of_mem_entries (set_inl_consistent h v) (set_inl_mem_entries h v)
  refine ⟨r, ?_, hp⟩
  unfold cache.get at hr ⊢
  rw [get_inl_fst] at hr ⊢
  rw [lookup_find_congr _ hk]
  exact hr

/-- After `set`, the mapping holds the entry under its key, and no other entry
under that key. -/
theorem set_inl_stored {c : cache} (h : c.consistent) (v : value) :
    lookup_find (c.set_inl v).lookup_ v.get_key = some (v.get_key, v.set_lru c.next_ref_) ∧
    (c.set_inl v).lookup_.filter (fun x => x.1.eq v.get_key) =
      [(v.get_key, v.set_lru c.next_ref_)] := by
  have hnone := set_pre_find_none h v
  have hall : ∀ x ∈ (c.set_pre v).lookup_, ¬ (x.1.eq v.get_key = true) := by
    unfold lookup_find at hnone
    exact List.find?_eq_none.1 hnone
  rw [set_inl_eq_of_consistent h]
  constructor
  · unfold lookup_find at hnone ⊢
    simp only [List.find?_append, hnone, Option.none_or]
    simp [List.find?_cons, key.eq_refl]
  · rw [List.filter_append, List.filter_eq_nil_iff.2 hall]
    simp [List.filter_cons, key.eq_refl]

/-- C2: on a consistent cache, after `set(e)` a get of the key of `e` returns an
entry with the packet, header and value bytes of `e`, and that entry is the only
one stored under the key; after setting entries with pairwise different keys
whose packet lengths sum to at most the capacity into an empty cache, `count()`
is their number and a get of each key returns the packet and value set for it. -/
theorem set_then_get (c : cache) (hc : c.consistent) (e : value) (capacity : Nat)
    (es : List value) (hkeys : (es.map (fun v => v.get_key.id)).Nodup)
    (hfit : (es.map (fun v => v.data_str_.length)).sum ≤ (cache.ctor capacity).capacity_)
    (hcap : (cache.ctor capacity).capacity_ < SIZE_MOD) :
    (∃ r, ((c.set e).get e.get_key).1 = some r ∧ r.data_str_ = e.data_str_ ∧
      r.header_ = e.header_ ∧ r.get_value = e.get_value ∧
      (c.set e).lookup_.filter (fun x => x.1.eq e.get_key) = [(e.get_key, r)]) ∧
    (es.foldl cache.set (cache.ctor capacity)).count = es.length ∧
    ∀ v ∈ es, ∃ r, ((es.foldl cache.set (cache.ctor capacity)).get v.get_key).1 = some r ∧
      r.data_str_ = v.data_str_ ∧ r.header_ = v.header_ ∧ r.get_value = v.get_value := by
  refine ⟨⟨e.set_lru c.next_ref_, ?_, rfl, rfl, rfl, (set_inl_stored hc e).2⟩, ?_⟩
  · unfold cache.get cache.set
    rw [get_inl_fst, (set_inl_stored hc e).1]
    rfl
  · have hnew : ∀ v ∈ es, lookup_find (cache.ctor capacity).lookup_ v.get_key = none := by
      intro v _
      rfl
    obtain ⟨h1, h2, -⟩ := sets_fit es (cache.ctor capacity) (consistent_ctor capacity) hnew hkeys
      (by simpa [cache.ctor] using hfit) hcap
    refine ⟨?_, ?_⟩
    · rw [count_eq_length_entries, h2]
      simp [cache.entries, cache.ctor]
    · intro v hv
      have hmem : v.packet ∈ (es.foldl cache.set (cache.ctor capacity)).entries := by
        rw [h2]
        exact List.mem_append_right _ (List.mem_map_of_mem _ hv)
      obtain ⟨r, hr, hp⟩ := get_of_mem_entries h1 hmem
      exact ⟨r, hr, (value.packet_eq hp).1, (value.packet_eq hp).2, value.get_value_congr hp⟩

/-- Witness of C2: an entry set into the empty default cache, and two entries
with different keys set into an empty cache of capacity 100. -/
theorem set_then_get_witness :
    (cache.ctor 0).consistent ∧
    ([set_entry [1] [7] 0, set_entry [2] [8, 9] 0].map (fun v => v.get_key.id)).Nodup ∧
    ([set_entry [1] [7] 0, set_entry [2] [8, 9] 0].map (fun v => v.data_str_.length)).sum
      ≤ (cache.ctor 100).capacity_ ∧
    (cache.ctor 100).capacity_ < SIZE_MOD ∧
    ([set_entry [1] [7] 0, set_entry [2] [8, 9] 0].foldl cache.set (cache.ctor 100)).count = 2 :=
  ⟨consistent_ctor 0, by decide, by decide, by decide,
    (set_then_get (cache.ctor 0) (consistent_ctor 0) (set_entry [1] [7] 0) 100
      [set_entry [1] [7] 0, set_entry [2] [8, 9] 0] (by decide) (by decide) (by decide)).2.1⟩

/-! ## Promotion by `get_inl` -/

theorem filter_ref_ne_of_last {l : List lru_node} (hn : (l.map (fun n => n.ref)).Nodup)
    {n : lru_node} (hl : l.getLast? = some n) :
    l.filter (fun m => !decide (m.ref = n.ref)) ++ [n] = l := by
  obtain ⟨init, rfl⟩ : ∃ init, l = init ++ [n] := by
    rcases List.eq_nil_or_concat l with rfl | ⟨init, m, rfl⟩
    · simp at hl
    · rw [List.concat_eq_append] at hl ⊢
      rw [List.getLast?_concat] at hl
      cases hl
      exact ⟨init, rfl⟩
  rw [List.map_append, List.nodup_append] at hn
  have hinit : init.filter (fun m => !decide (m.ref = n.ref)) = init := by
    rw [List.filter_eq_self]
    intro m hm
    have : m.ref ≠ n.ref := fun hmn =>
      hn.2.2 (List.mem_map_of_mem (fun n => n.ref) hm) (by simp [hmn])
    simpa using this
  simp [List.filter_append, hinit]

/-- The result of `get_inl` on a hit: the entry found, and the node of the entry
moved to the back of the LRU list. -/
theorem get_inl_hit {c : cache} (h : c.consistent) {k : key} {e : key × value}
    (hf : lookup_find c.lookup_ k = some e) :
    ∃ n ∈ c.lru_, e.2.lru_ref_ = some n.ref ∧ n.k = e.1 ∧
      c.get_inl k =
        (some e.2, { c with lru_ := c.lru_.filter (fun m => !decide (m.ref = n.ref)) ++ [n] }) := by
  obtain ⟨n, hn, hr, hk⟩ := h.entry_node e (lookup_find_some hf).1
  refine ⟨n, hn, hr, hk, ?_⟩
  unfold cache.get_inl
  rw [hf]
  simp only
  split
  · rw [hr, lru_splice_eq h.refs_nodup hn]
  · rename_i hlast
    simp only [ne_eq, Decidable.not_not] at hlast
    have hl : c.lru_.getLast? = some n := by
      unfold lru_last at hlast
      rw [hr] at hlast
      cases hg : c.lru_.getLast? with
      | none => rw [hg] at hlast; simp at hlast
      | some m =>
        rw [hg] at hlast
        simp only [Option.map_some', Option.some.injEq] at hlast
        have hm : m ∈ c.lru_ := List.mem_of_getLast?_eq_some hg
        rw [h.ref_inj hn hm hlast]
    rw [filter_ref_ne_of_last h.refs_nodup hl]

theorem get_inl_miss {c : cache} {k : key} (hf : lookup_find c.lookup_ k = none) :
    c.get_inl k = (none, c) := by
  unfold cache.get_inl
  rw [hf]

theorem delete_inl_get_inl {c : cache} (h : c.consistent) (k : key) :
    (c.get_inl k).2.delete_inl k = c.delete_inl k := by
  cases hf : lookup_find c.lookup_ k with
  | none => rw [get_inl_miss hf]
  | some e =>
    obtain ⟨n, hn, hr, hk, heq⟩ := get_inl_hit h hf
    have hc2 := get_inl_consistent h k
    have hf2 : lookup_find (c.get_inl k).2.lookup_ k = some e := by rw [get_inl_lookup, hf]
    obtain ⟨m, hm, hmr, -, heq2⟩ := delete_inl_found hc2 hf2
    obtain ⟨m1, hm1, hmr1, -, heq1⟩ := delete_inl_found h hf
    have hmn : m.ref = n.ref := by
      rw [hr] at hmr
      exact (Option.some.inj hmr).symm
    have hmn1 : m1.ref = n.ref := by
      rw [hr] at hmr1
      exact (Option.some.inj hmr1).symm
    rw [heq2, heq1, hmn, hmn1, heq]
    simp [List.filter_append, List.filter_filter]

theorem set_inl_get_inl {c : cache} (h : c.consistent) (v : value) :
    (c.get_inl v.get_key).2.set_inl v = c.set_inl v := by
  have hdel : (c.get_inl v.get_key).2.set_del v = c.set_del v := by
    unfold cache.set_del
    rw [get_inl_lookup, delete_inl_get_inl h]
    split
    · rfl
    · rename_i hs
      rw [get_inl_miss (by simpa using hs)]
  have hpre : (c.get_inl v.get_key).2.set_pre v = c.set_pre v := by
    unfold cache.set_pre
    rw [hdel]
  rw [set_inl_eq, set_inl_eq, hpre]

/-! ## C3, C10: compare-and-swap -/

theorem cas_zero (c : cache) (v : value) : c.cas v 0 = (true, c.set_inl v) := by
  unfold cache.cas
  simp

theorem cas_absent {c : cache} {v : value} (t : Nat)
    (hf : lookup_find c.lookup_ v.get_key = none) : c.cas v t = (true, c.set_inl v) := by
  unfold cache.cas
  rw [get_inl_miss hf]
  simp

theorem cas_match {c : cache} (h : c.consistent) {v : value} {e : key × value}
    (hf : lookup_find c.lookup_ v.get_key = some e) :
    c.cas v e.2.header_.cas = (true, c.set_inl v) := by
  have hs := set_inl_get_inl h v
  obtain ⟨n, -, -, -, heq⟩ := get_inl_hit h hf
  unfold cache.cas
  rw [heq] at hs ⊢
  simp only [ne_eq, not_true_eq_false, if_false, hs, ite_self]

theorem cas_mismatch {c : cache} (h : c.consistent) {v : value} {e : key × value} {t : Nat}
    (hf : lookup_find c.lookup_ v.get_key = some e) (ht : 0 < t) (hne : e.2.header_.cas ≠ t) :
    c.cas v t = (false, (c.get_inl v.get_key).2) := by
  obtain ⟨n, -, -, -, heq⟩ := get_inl_hit h hf
  unfold cache.cas
  rw [heq]
  simp [ht, hne]

/-- C3: on a consistent cache, `cas(v, 0)` returns true; for `t > 0`, `cas(v, t)`
returns true exactly when no entry is stored under the key of `v` or the header
of the stored entry carries the CAS `t`; and whenever `cas(v, t)` returns true
the cache is the one `set(v)` leaves and a get of the key yields the packet and
the value of `v`. -/
theorem cas_semantics (c : cache) (hc : c.consistent) (v : value) (t : Nat) :
    (c.cas v 0).1 = true ∧
    (0 < t → ((c.cas v t).1 = true ↔
      (lookup_find c.lookup_ v.get_key = none ∨
        ∃ e, lookup_find c.lookup_ v.get_key = some e ∧ e.2.header_.cas = t))) ∧
    ((c.cas v t).1 = true → (c.cas v t).2 = c.set v ∧
      ∃ r, ((c.cas v t).2.get v.get_key).1 = some r ∧ r.data_str_ = v.data_str_ ∧
        r.header_ = v.header_ ∧ r.get_value = v.get_value) := by
  have hget : ∃ r, ((c.set v).get v.get_key).1 = some r ∧ r.data_str_ = v.data_str_ ∧
      r.header_ = v.header_ ∧ r.get_value = v.get_value := by
    obtain ⟨r, hr, hp⟩ := get_after_set hc v (rfl : v.get_key.id = v.get_key.id)
    exact ⟨r, hr, (value.packet_eq hp).1, (value.packet_eq hp).2, value.get_value_congr hp⟩
  refine ⟨by rw [cas_zero], ?_, ?_⟩
  · intro ht
    cases hf : lookup_find c.lookup_ v.get_key with
    | none => simp [cas_absent t hf]
    | some e =>
      by_cases hcas : e.2.header_.cas = t
      · subst hcas
        simp [cas_match hc hf]
      · simp [cas_mismatch hc hf ht hcas, hcas]
  · intro htrue
    have hstate : (c.cas v t).2 = c.set v := by
      cases hf : lookup_find c.lookup_ v.get_key with
      | none => rw [cas_absent t hf]; rfl
      | some e =>
        by_cases hcas : e.2.header_.cas = t
        · subst hcas
          rw [cas_match hc hf]; rfl
        · rcases Nat.eq_zero_or_pos t with h0 | ht
          · subst h0
            rw [cas_zero]; rfl
          · rw [cas_mismatch hc hf ht hcas] at htrue
            cases htrue
    rw [hstate]
    exact ⟨rfl, hget⟩

/-- Witness of C3: a compare-and-swap with the stored CAS 999 on a cache that
holds the key. -/
theorem cas_semantics_witness :
    ((cache.ctor 0).set (set_entry [1] [7] 999)).consistent ∧ 0 < 999 ∧
    (((cache.ctor 0).set (set_entry [1] [7] 999)).cas (set_entry [1] [8] 999) 999).1 = true ∧
    (((cache.ctor 0).set (set_entry [1] [7] 999)).cas (set_entry [1] [8] 999) 999).2 =
      ((cache.ctor 0).set (set_entry [1] [7] 999)).set (set_entry [1] [8] 999) :=
  ⟨set_inl_consistent (consistent_ctor 0) _, by decide, by decide,
    ((cas_semantics ((cache.ctor 0).set (set_entry [1] [7] 999))
      (set_inl_consistent (consistent_ctor 0) _) (set_entry [1] [8] 999) 999).2.2 (by decide)).1⟩

/-- Moving the node of a key to the back leaves the order of the other keys as
it was. -/
theorem others_after_promotion {c : cache} (h : c.consistent) {k : key} {n : lru_node}
    (hn : n ∈ c.lru_) (hk : n.k.id = k.id) :
    (c.lru_.filter (fun m => !decide (m.ref = n.ref)) ++ [n]).filter (fun m => !m.k.eq k) =
      c.lru_.filter (fun m => !m.k.eq k) := by
  have hnk : n.k.eq k = true := (key.eq_iff _ _).2 hk
  rw [List.filter_append, List.filter_filter]
  simp only [List.filter_cons, hnk, Bool.not_true, List.filter_nil, List.append_nil]
  simp only [Bool.false_eq_true, if_false]
  rw [List.append_nil]
  apply List.filter_congr
  intro m hm
  cases hmk : m.k.eq k with
  | true => simp
  | false =>
    have : m.ref ≠ n.ref := by
      intro hr
      rw [h.ref_inj hm hn hr, hnk] at hmk
      cases hmk
    simp [this]

/-- Counterexample to C10 as stated: a compare-and-swap on key `[1]` with token
1000 against the stored CAS 999 returns false, yet key `[1]` moves from the
front of the LRU list to its back. -/
theorem failed_cas_reorders_lru :
    (lookup_find cache_two_keys.lookup_ (set_entry [1] [8] 1000).get_key).map
      (fun e => e.2.header_.cas) = some 999 ∧
    (cache_two_keys.cas (set_entry [1] [8] 1000) 1000).1 = false ∧
    cache_two_keys.lru_keys.map (fun k => k.key_ptr_) = [[1], [2]] ∧
    (cache_two_keys.cas (set_entry [1] [8] 1000) 1000).2.lru_keys.map (fun k => k.key_ptr_)
      = [[2], [1]] ∧
    (cache_two_keys.cas (set_entry [1] [8] 1000) 1000).2 ≠ cache_two_keys := by
  decide

/-- C10, amended: on a consistent cache, a compare-and-swap with a token `t > 0`
against a stored entry whose CAS differs from `t` returns false and leaves the
mapping with every stored value, the tracked size and the capacity as they were;
in the LRU list the node of the key moves to the back and the other keys keep
their order. -/
theorem failed_cas_frame (c : cache) (hc : c.consistent) (v : value) (t : Nat)
    (e : key × value) (hf : lookup_find c.lookup_ v.get_key = some e) (ht : 0 < t)
    (hne : e.2.header_.cas ≠ t) :
    (c.cas v t).1 = false ∧ (c.cas v t).2.lookup_ = c.lookup_ ∧
    (c.cas v t).2.size_ = c.size_ ∧ (c.cas v t).2.capacity_ = c.capacity_ ∧
    (∃ n ∈ c.lru_, e.2.lru_ref_ = some n.ref ∧ n.k = e.1 ∧
      (c.cas v t).2.lru_ = c.lru_.filter (fun m => !decide (m.ref = n.ref)) ++ [n]) ∧
    (c.cas v t).2.lru_.filter (fun m => !m.k.eq v.get_key) =
      c.lru_.filter (fun m => !m.k.eq v.get_key) := by
  rw [cas_mismatch hc hf ht hne]
  obtain ⟨n, hn, hr, hk, heq⟩ := get_inl_hit hc hf
  refine ⟨rfl, get_inl_lookup _ _, get_inl_size _ _, get_inl_capacity _ _,
    ⟨n, hn, hr, hk, by rw [heq]⟩, ?_⟩
  rw [heq]
  exact others_after_promotion hc hn (by rw [hk]; exact (lookup_find_some hf).2)

/-- Witness of C10, amended: the failed compare-and-swap of the counterexample. -/
theorem failed_cas_frame_witness :
    cache_two_keys.consistent ∧
    lookup_find cache_two_keys.lookup_ (set_entry [1] [8] 1000).get_key =
      some ((set_entry [1] [7] 999).get_key, (set_entry [1] [7] 999).set_lru 0) ∧
    0 < 1000 ∧ ((set_entry [1] [7] 999).set_lru 0).header_.cas ≠ 1000 ∧
    (cache_two_keys.cas (set_entry [1] [8] 1000) 1000).2.lookup_ = cache_two_keys.lookup_ :=
  ⟨set_inl_consistent (set_inl_consistent (consistent_ctor 0) _) _, by decide, by decide,
    by decide,
    (failed_cas_frame cache_two_keys
      (set_inl_consistent (set_inl_consistent (consistent_ctor 0) _) _)
      (set_entry [1] [8] 1000) 1000
      ((set_entry [1] [7] 999).get_key, (set_entry [1] [7] 999).set_lru 0)
      (by decide) (by decide) (by decide)).2.1⟩

/-! ## C8: LRU order under access -/

/-- C8: on a consistent cache, a get that hits returns the entry found, leaves a
node with the key at the back of the LRU list, keeps the nodes of the list and
the order of all other keys, and does not touch the mapping; after `set(v)` the
key of `v` is at the back of the LRU list; a get that misses returns nothing and
leaves the cache as it was. -/
theorem lru_order_under_access (c : cache) (hc : c.consistent) (k : key) (v : value) :
    (∀ e, lookup_find c.lookup_ k = some e →
      (c.get k).1 = some e.2 ∧
      (∃ n, (c.get k).2.lru_.getLast? = some n ∧ n.k = e.1 ∧ n.k.eq k = true) ∧
      (c.get k).2.lru_.filter (fun m => !m.k.eq k) = c.lru_.filter (fun m => !m.k.eq k) ∧
      (c.get k).2.lru_.Perm c.lru_ ∧ (c.get k).2.lookup_ = c.lookup_) ∧
    (c.set v).lru_.getLast?.map (fun n => n.k) = some v.get_key ∧
    (lookup_find c.lookup_ k = none → c.get k = (none, c)) := by
  refine ⟨?_, ?_, get_miss⟩
  · intro e hf
    obtain ⟨n, hn, hr, hk, heq⟩ := get_inl_hit hc hf
    have hid : n.k.id = k.id := by rw [hk]; exact (lookup_find_some hf).2
    unfold cache.get
    refine ⟨by rw [heq], ⟨n, by rw [heq]; simp, hk, (key.eq_iff _ _).2 hid⟩, ?_,
      get_inl_lru_perm c k, get_inl_lookup c k⟩
    rw [heq]
    exact others_after_promotion hc hn hid
  · show (c.set_inl v).lru_.getLast?.map (fun n => n.k) = some v.get_key
    rw [set_inl_eq]
    simp

/-- Witness of C8: a get of key `[1]`, the least recent of two keys. -/
theorem lru_order_under_access_witness :
    cache_two_keys.consistent ∧
    ((cache_two_keys.get (set_entry [1] [] 0).get_key).2.lru_keys.map (fun k => k.key_ptr_)
      = [[2], [1]]) ∧
    (cache_two_keys.set (set_entry [3] [7] 0)).lru_.getLast?.map (fun n => n.k) =
      some (set_entry [3] [7] 0).get_key :=
  ⟨set_inl_consistent (set_inl_consistent (consistent_ctor 0) _) _, by decide,
    (lru_order_under_access cache_two_keys
      (set_inl_consistent (set_inl_consistent (consistent_ctor 0) _) _)
      (set_entry [1] [] 0).get_key (set_entry [3] [7] 0)).2.1⟩

/-! ## C4: remove -/

theorem remove_mismatch {c : cache} (h : c.consistent) {v : value} {e : key × value} {t : Nat}
    (hf : lookup_find c.lookup_ v.get_key = some e) (ht : 0 < t) (hne : e.2.header_.cas ≠ t) :
    c.remove v t = (false, (c.get_inl v.get_key).2) := by
  obtain ⟨n, -, -, -, heq⟩ := get_inl_hit h hf
  unfold cache.remove
  rw [heq]
  simp [ht, hne]

/-- Unless the token is positive and differs from the stored CAS, `remove` is
`delete_inl`. -/
theorem remove_eq_delete {c : cache} (h : c.consistent) {v : value} {t : Nat}
    (hok : ∀ e, lookup_find c.lookup_ v.get_key = some e → t = 0 ∨ e.2.header_.cas = t) :
    c.remove v t = c.delete_inl v.get_key := by
  have hd := delete_inl_get_inl h v.get_key
  unfold cache.remove
  split
  · rename_i ht
    cases hf : lookup_find c.lookup_ v.get_key with
    | none => rw [get_inl_miss hf]
    | some e =>
      obtain ⟨n, -, -, -, heq⟩ := get_inl_hit h hf
      have hcas : e.2.header_.cas = t := by
        rcases hok e hf with h0 | h1
        · omega
        · exact h1
      rw [heq] at hd ⊢
      simp only [hcas, ne_eq, not_true_eq_false, if_false]
      exact hd
  · rfl

theorem delete_inl_fst (c : cache) (k : key) :
    (c.delete_inl k).1 = (lookup_find c.lookup_ k).isSome := by
  unfold cache.delete_inl
  cases lookup_find c.lookup_ k <;> rfl

/-- No node of the LRU list of a consistent cache holds a key that the mapping
does not have. -/
theorem lru_no_key_of_find_none {c : cache} (h : c.consistent) {k : key}
    (hf : lookup_find c.lookup_ k = none) : ∀ n ∈ c.lru_, n.k.eq k = false := by
  intro n hn
  obtain ⟨e, he, -, hk⟩ := h.node_entry n hn
  rw [key.eq_false_iff, hk]
  exact lookup_find_none.1 hf e he

/-- C4: on a consistent cache, `remove(v, t)` returns true exactly when an entry
is stored under the key of `v` and `t` is zero or the CAS of that entry; when it
returns true the key is in neither the mapping nor the LRU list afterwards, a
get of it misses and a second `remove(v, 0)` returns false; when the stored CAS
differs from a positive `t` it returns false and the entry is still stored. -/
theorem remove_semantics (c : cache) (hc : c.consistent) (v : value) (t : Nat) :
    ((c.remove v t).1 = true ↔
      ∃ e, lookup_find c.lookup_ v.get_key = some e ∧ (t = 0 ∨ e.2.header_.cas = t)) ∧
    ((c.remove v t).1 = true →
      lookup_find (c.remove v t).2.lookup_ v.get_key = none ∧
      (∀ n ∈ (c.remove v t).2.lru_, n.k.eq v.get_key = false) ∧
      (c.remove v t).2.get v.get_key = (none, (c.remove v t).2) ∧
      ((c.remove v t).2.remove v 0).1 = false) ∧
    (∀ e, lookup_find c.lookup_ v.get_key = some e → 0 < t → e.2.header_.cas ≠ t →
      (c.remove v t).1 = false ∧ lookup_find (c.remove v t).2.lookup_ v.get_key = some e) := by
  have hiff : (c.remove v t).1 = true ↔
      ∃ e, lookup_find c.lookup_ v.get_key = some e ∧ (t = 0 ∨ e.2.header_.cas = t) := by
    cases hf : lookup_find c.lookup_ v.get_key with
    | none =>
      rw [remove_eq_delete hc (by intro e he; rw [hf] at he; cases he), delete_inl_fst, hf]
      simp
    | some e =>
      by_cases hok : t = 0 ∨ e.2.header_.cas = t
      · rw [remove_eq_delete hc (by intro f hf2; rw [hf] at hf2; cases hf2; exact hok),
          delete_inl_fst, hf]
        simp [hok]
      · have ht : 0 < t := by omega
        have hne : e.2.header_.cas ≠ t := fun h => hok (Or.inr h)
        rw [remove_mismatch hc hf ht hne]
        simp [hok]
  refine ⟨hiff, ?_, ?_⟩
  · intro htrue
    obtain ⟨e, hf, hok⟩ := hiff.1 htrue
    have heq : c.remove v t = c.delete_inl v.get_key :=
      remove_eq_delete hc (by intro f hf2; rw [hf] at hf2; cases hf2; exact hok)
    have hnone : lookup_find (c.remove v t).2.lookup_ v.get_key = none := by
      rw [heq]
      exact delete_inl_find_none hc _
    have hc2 : (c.remove v t).2.consistent := remove_consistent hc v t
    refine ⟨hnone, lru_no_key_of_find_none hc2 hnone, get_miss hnone, ?_⟩
    rw [remove_eq_delete hc2 (by intro f hf2; exact Or.inl rfl), delete_inl_fst, hnone]
    rfl
  · intro e hf ht hne
    rw [remove_mismatch hc hf ht hne]
    exact ⟨rfl, by rw [get_inl_lookup, hf]⟩

/-- Witness of C4: removing key `[1]` with its stored CAS 999. -/
theorem remove_semantics_witness :
    cache_two_keys.consistent ∧
    (cache_two_keys.remove (delete_entry [1] 999) 999).1 = true ∧
    ((cache_two_keys.remove (delete_entry [1] 999) 999).2.remove (delete_entry [1] 999) 0).1
      = false :=
  ⟨set_inl_consistent (set_inl_consistent (consistent_ctor 0) _) _, by decide,
    ((remove_semantics cache_two_keys
      (set_inl_consistent (set_inl_consistent (consistent_ctor 0) _) _)
      (delete_entry [1] 999) 999).2.1 (by decide)).2.2.2⟩

/-! ## C9: eviction -/

theorem size_sub_of_le {a b : Nat} (hb : b ≤ a) (ha : a < SIZE_MOD) : size_sub a b = a - b := by
  unfold size_sub SIZE_MOD at *
  omega

theorem size_mul_of_lt {a b : Nat} (h : a * b < SIZE_MOD) : size_mul a b = a * b :=
  Nat.mod_eq_of_lt h

theorem node_value_size {c : cache} (h : c.consistent) {P : Nat}
    (hP : ∀ p ∈ c.entries, p.1.length = P) : ∀ n ∈ c.lru_, n.k.value_size_ = P := by
  intro n hn
  obtain ⟨e, he, -, hk⟩ := h.node_entry n hn
  rw [hk, h.key_of e he]
  exact hP e.2.packet (List.mem_map.2 ⟨e, he, rfl⟩)

/-- The loop of `reclaim` deletes every entry when the nodes all carry the size
`P` and their sizes do not reach the target before the last node. -/
theorem reclaim_loop_all (size P : Nat) (hP : 0 < P) (hsize : size < SIZE_MOD) :
    ∀ (nodes : List lru_node) (c : cache) (freed : Nat), c.consistent → c.lru_ = nodes →
      (∀ n ∈ nodes, n.k.value_size_ = P) → freed + nodes.length * P ≤ size →
      nodes.length * P ≤ c.size_ → c.size_ < SIZE_MOD →
      cache.reclaim_loop size c freed nodes =
        { c with lru_ := [], lookup_ := [], size_ := c.size_ - nodes.length * P }
  | [], c, freed, h, hl, _, _, _, _ => by
    have hlk : c.lookup_ = [] := by
      have := h.length_eq
      rw [hl] at this
      exact List.length_eq_zero.1 this.symm
    unfold cache.reclaim_loop
    cases c
    simp only at hl hlk
    simp [hl, hlk]
  | n :: rest, c, freed, h, hl, hv, hfreed, hsz, hlt => by
    have hn : n ∈ c.lru_ := by rw [hl]; exact List.mem_cons_self _ _
    obtain ⟨e, he, her, hek⟩ := h.node_entry n hn
    have hf : lookup_find c.lookup_ n.k = some e :=
      lookup_find_of_mem h.keys_nodup he (by rw [hek])
    obtain ⟨m, hm, hmr, -, heq⟩ := delete_inl_found h hf
    have hmn : m.ref = n.ref := by
      rw [her] at hmr
      exact (Option.some.inj hmr).symm
    have hc1 := delete_inl_consistent h n.k
    have hnd := h.refs_nodup
    rw [hl, List.map_cons, List.nodup_cons] at hnd
    have hrest : c.lru_.filter (fun x => !decide (x.ref = m.ref)) = rest := by
      rw [hl, hmn, List.filter_cons]
      simp only [decide_True, Bool.not_true, Bool.false_eq_true, if_false]
      rw [List.filter_eq_self]
      intro x hx
      have : x.ref ≠ n.ref := fun hxr => hnd.1 (hxr ▸ List.mem_map_of_mem (fun n => n.ref) hx)
      simpa using this
    have hPn : n.k.value_size_ = P := hv n (List.mem_cons_self _ _)
    simp only [List.length_cons] at hfreed hsz
    have hmul : (rest.length + 1) * P = rest.length * P + P := by ring
    rw [hmul] at hfreed hsz
    unfold cache.reclaim_loop
    rw [if_pos (by omega)]
    rw [heq, hrest, hPn] at hc1 ⊢
    rw [size_sub_of_le (by omega) hlt] at hc1 ⊢
    rw [size_add_of_lt (by omega)]
    rw [reclaim_loop_all size P hP hsize rest _ (freed + P) hc1 rfl
      (fun x hx => hv x (List.mem_cons_of_mem _ hx)) (by omega) (by simp only; omega)
      (by simp only; omega)]
    simp only [List.length_cons, hmul]
    congr 1
    omega

/-- The state after `set_inl` when the key is new, five packets of length `P`
fill the capacity `5 * P` and the new packet has length `P` too: all five are
evicted. -/
theorem set_inl_evicts_all {c : cache} (h : c.consistent) {P : Nat} (hP : 0 < P)
    (h6 : 6 * P < SIZE_MOD) (hcap : c.capacity_ = 5 * P)
    (hlen : ∀ p ∈ c.entries, p.1.length = P) (hcount : c.lookup_.length = 5)
    (hsize : c.size_ = 5 * P) {v : value} (hv : v.data_str_.length = P)
    (hk : lookup_find c.lookup_ v.get_key = none) :
    c.set_inl v =
      { c with
        lru_ := [{ ref := c.next_ref_, k := v.get_key }]
        next_ref_ := c.next_ref_ + 1
        lookup_ := [(v.get_key, v.set_lru c.next_ref_)]
        size_ := P } := by
  have hdel : c.set_del v = c := by
    unfold cache.set_del
    rw [hk]
    rfl
  have hpre : c.set_pre v = { c with lru_ := [], lookup_ := [], size_ := 0 } := by
    unfold cache.set_pre cache.reclaim
    rw [hdel, hv, hsize, hcap, size_add_of_lt (by omega), if_pos (by omega),
      size_mul_of_lt (by omega)]
    have hl5 : c.lru_.length = 5 := by rw [h.length_eq, hcount]
    rw [reclaim_loop_all (5 * P) P hP (by omega) c.lru_ c 0 h rfl (node_value_size h hlen)
      (by rw [hl5]; omega) (by rw [hl5, hsize]) (by rw [hsize]; omega)]
    rw [hl5, hsize]
    simp [hcap]
  have hz : size_add 0 P = P := by
    rw [size_add_of_lt (by omega)]
    omega
  rw [set_inl_eq_of_consistent h, hpre, hv]
  simp only [List.nil_append, hz]

theorem resident_count_le (n : Nat) : resident_count n ≤ n ∧ resident_count n ≤ 5 := by
  unfold resident_count
  split <;> omega

theorem resident_count_succ (n : Nat) :
    (resident_count n < 5 ∧ resident_count (n + 1) = resident_count n + 1) ∨
    (resident_count n = 5 ∧ resident_count (n + 1) = 1) := by
  unfold resident_count
  rw [if_neg (Nat.succ_ne_zero n)]
  split <;> omega

/-- The cache after entries of one packet length `P`, with pairwise different
keys, were set into an empty cache of capacity `5 * P`. -/
theorem sets_equal_length (P : Nat) (hP : 0 < P) (h6 : 6 * P < SIZE_MOD) (es : List value) :
    (∀ v ∈ es, v.data_str_.length = P) → (es.map (fun v => v.get_key.id)).Nodup →
    (es.foldl cache.set (cache.ctor (5 * P))).consistent ∧
    (es.foldl cache.set (cache.ctor (5 * P))).capacity_ = 5 * P ∧
    (es.foldl cache.set (cache.ctor (5 * P))).entries =
      (es.drop (es.length - resident_count es.length)).map value.packet ∧
    (es.foldl cache.set (cache.ctor (5 * P))).size_ = resident_count es.length * P := by
  induction es using List.reverseRecOn with
  | nil =>
    intro _ _
    refine ⟨consistent_ctor _, ?_, rfl, ?_⟩
    · simp only [List.foldl_nil, cache.ctor]
      rw [if_neg (by omega)]
    · simp [cache.ctor, resident_count]
  | append_singleton es v ih =>
    intro hlen hnd
    rw [List.map_append, List.nodup_append] at hnd
    obtain ⟨hc, hcap, hent, hsize⟩ :=
      ih (fun w hw => hlen w (List.mem_append_left _ hw)) hnd.1
    have hv : v.data_str_.length = P := hlen v (List.mem_append_right _ (List.mem_singleton_self v))
    rw [List.foldl_append, List.foldl_cons, List.foldl_nil]
    generalize es.foldl cache.set (cache.ctor (5 * P)) = c at hc hcap hent hsize ⊢
    obtain ⟨hrn, hr5⟩ := resident_count_le es.length
    have hk : lookup_find c.lookup_ v.get_key = none := by
      apply find_none_of_entries hc
      intro p hp hid
      rw [hent] at hp
      obtain ⟨w, hw, rfl⟩ := List.mem_map.1 hp
      exact hnd.2.2 (List.mem_map_of_mem (fun v => v.get_key.id) (List.mem_of_mem_drop hw))
        (by simp only [List.map_cons, List.map_nil, List.mem_singleton]; exact hid)
    have hcount : c.lookup_.length = resident_count es.length := by
      have := congrArg List.length hent
      simp only [cache.entries, List.length_map, List.length_drop] at this
      omega
    have hplen : ∀ p ∈ c.entries, p.1.length = P := by
      intro p hp
      rw [hent] at hp
      obtain ⟨w, hw, rfl⟩ := List.mem_map.1 hp
      exact hlen w (List.mem_append_left _ (List.mem_of_mem_drop hw))
    have hc2 : (c.set v).consistent := set_inl_consistent hc v
    simp only [List.length_append, List.length_singleton]
    rcases resident_count_succ es.length with ⟨hlt, hsucc⟩ | ⟨heq5, hsucc⟩
    · have hle : resident_count es.length * P + P ≤ 5 * P := by
        have : (resident_count es.length + 1) * P ≤ 5 * P := Nat.mul_le_mul_right P hlt
        rw [Nat.add_mul, Nat.one_mul] at this
        exact this
      have hfit : size_add v.data_str_.length c.size_ ≤ c.capacity_ := by
        rw [hv, hsize, hcap, size_add_of_lt (by omega)]
        omega
      refine ⟨hc2, ?_, ?_, ?_⟩
      · show (c.set_inl v).capacity_ = _
        rw [set_inl_fits hc hk hfit]
        exact hcap
      · show (c.set_inl v).entries = _
        rw [entries_set_inl_fits hc hk hfit, hent, hsucc,
          show es.length + 1 - (resident_count es.length + 1) =
            es.length - resident_count es.length by omega,
          List.drop_append_of_le_length (by omega)]
        simp
      · show (c.set_inl v).size_ = _
        rw [set_inl_fits hc hk hfit, hsucc]
        simp only
        rw [hv, hsize, size_add_of_lt (by omega), Nat.add_mul, Nat.one_mul]
    · have heq := set_inl_evicts_all hc hP h6 hcap hplen (by rw [hcount, heq5])
        (by rw [hsize, heq5]) hv hk
      refine ⟨hc2, ?_, ?_, ?_⟩
      · show (c.set_inl v).capacity_ = _
        rw [heq]
        exact hcap
      · show (c.set_inl v).entries = _
        rw [heq, hsucc]
        simp [cache.entries, value.packet, value.set_lru]
      · show (c.set_inl v).size_ = _
        rw [heq, hsucc]
        simp

/-- C9: when entries with pairwise different keys and one packet length `P` are
set in order into an empty cache of capacity `5 * P`, the resident packets are
exactly those of the last `((n - 1) mod 5) + 1` entries set, in the order set; a
get of each of them hits with the packet and value set, a get of any earlier key
misses; for ten entries `count()` is 5, the first five keys miss and the last
five hit. `6 * P < 2 ^ 64` says that six packets fit the address space. -/
theorem lru_eviction_keeps_most_recent (P : Nat) (es : List value) (hP : 0 < P)
    (h6 : 6 * P < SIZE_MOD) (hne : es ≠ []) (hlen : ∀ v ∈ es, v.data_str_.length = P)
    (hkeys : (es.map (fun v => v.get_key.id)).Nodup) :
    (es.foldl cache.set (cache.ctor (5 * P))).entries =
      (es.drop (es.length - ((es.length - 1) % 5 + 1))).map value.packet ∧
    (es.foldl cache.set (cache.ctor (5 * P))).count = (es.length - 1) % 5 + 1 ∧
    (∀ v ∈ es.drop (es.length - ((es.length - 1) % 5 + 1)),
      ∃ r, ((es.foldl cache.set (cache.ctor (5 * P))).get v.get_key).1 = some r ∧
        r.data_str_ = v.data_str_ ∧ r.header_ = v.header_ ∧ r.get_value = v.get_value) ∧
    (∀ v ∈ es.take (es.length - ((es.length - 1) % 5 + 1)),
      (es.foldl cache.set (cache.ctor (5 * P))).get v.get_key =
        (none, es.foldl cache.set (cache.ctor (5 * P)))) ∧
    (es.length = 10 →
      (es.foldl cache.set (cache.ctor (5 * P))).count = 5 ∧
      (∀ v ∈ es.take 5, (es.foldl cache.set (cache.ctor (5 * P))).get v.get_key =
        (none, es.foldl cache.set (cache.ctor (5 * P)))) ∧
      (∀ v ∈ es.drop 5,
        ∃ r, ((es.foldl cache.set (cache.ctor (5 * P))).get v.get_key).1 = some r ∧
          r.data_str_ = v.data_str_ ∧ r.header_ = v.header_ ∧ r.get_value = v.get_value)) := by
  obtain ⟨hc, -, hent, -⟩ := sets_equal_length P hP h6 es hlen hkeys
  have hpos : 0 < es.length := List.length_pos.2 hne
  have hrc : resident_count es.length = (es.length - 1) % 5 + 1 := by
    unfold resident_count
    rw [if_neg (by omega)]
  rw [hrc] at hent
  generalize es.foldl cache.set (cache.ctor (5 * P)) = c at hc hent ⊢
  generalize hk : es.length - ((es.length - 1) % 5 + 1) = d at hent ⊢
  have hcount : c.count = (es.length - 1) % 5 + 1 := by
    rw [count_eq_length_entries, hent, List.length_map, List.length_drop]
    omega
  have hhit : ∀ v ∈ es.drop d, ∃ r, (c.get v.get_key).1 = some r ∧
      r.data_str_ = v.data_str_ ∧ r.header_ = v.header_ ∧ r.get_value = v.get_value := by
    intro v hv
    have hmem : v.packet ∈ c.entries := by
      rw [hent]
      exact List.mem_map_of_mem _ hv
    obtain ⟨r, hr, hp⟩ := get_of_mem_entries hc hmem
    exact ⟨r, hr, (value.packet_eq hp).1, (value.packet_eq hp).2, value.get_value_congr hp⟩
  have hmiss : ∀ v ∈ es.take d, c.get v.get_key = (none, c) := by
    intro v hv
    apply get_miss
    apply find_none_of_entries hc
    intro p hp hid
    rw [hent] at hp
    obtain ⟨w, hw, rfl⟩ := List.mem_map.1 hp
    rw [← List.take_append_drop d es, List.map_append, List.nodup_append] at hkeys
    exact hkeys.2.2 (List.mem_map_of_mem (fun v => v.get_key.id) hv)
      (List.mem_map.2 ⟨w, hw, hid⟩)
  refine ⟨hent, hcount, hhit, hmiss, ?_⟩
  intro h10
  have hd : d = 5 := by omega
  rw [hd] at hhit hmiss
  exact ⟨by rw [hcount, h10], hmiss, hhit⟩

/-- Witness of C9: the ten entries of the eviction test, 34 bytes each, set into
an empty cache of capacity 170. -/
theorem lru_eviction_keeps_most_recent_witness :
    0 < 34 ∧ 6 * 34 < SIZE_MOD ∧ ten_entries ≠ [] ∧
    (∀ v ∈ ten_entries, v.data_str_.length = 34) ∧
    (ten_entries.map (fun v => v.get_key.id)).Nodup ∧
    (ten_entries.foldl cache.set (cache.ctor (5 * 34))).count = 5 :=
  ⟨by decide, by decide, by decide, by decide, by decide,
    ((lru_eviction_keeps_most_recent 34 ten_entries (by decide) (by decide) (by decide)
      (by decide) (by decide)).2.2.2.2 (by decide)).1⟩

/-! ## C6, C7: the tracked size -/

/-- C6 fails on the code: replacing the 34-byte packet of key `[1]` by a 36-byte
packet leaves the tracked size at 34 while 36 bytes are resident, and removing
the 34-byte packet through a 25-byte DELETE packet leaves the tracked size at 9
while nothing is resident. -/
theorem size_accounting_diverges :
    ((cache.ctor 0).run
      [cache_op.set (set_entry [1] [7] 0), cache_op.set (set_entry [1] [7, 8, 9] 0)]).size_ = 34 ∧
    ((cache.ctor 0).run
      [cache_op.set (set_entry [1] [7] 0), cache_op.set (set_entry [1] [7, 8, 9] 0)]).resident_bytes
      = 36 ∧
    ((cache.ctor 0).run
      [cache_op.set (set_entry [1] [7] 0), cache_op.remove (delete_entry [1] 0) 0]).size_ = 9 ∧
    ((cache.ctor 0).run
      [cache_op.set (set_entry [1] [7] 0), cache_op.remove (delete_entry [1] 0) 0]).resident_bytes
      = 0 := by
  decide

/-- C7 fails on the code: in a cache of capacity 100, after SET of key `[1]` and
key `[2]` with 34-byte packets and a further SET of key `[1]` with a 93-byte
packet, two entries with 127 bytes in all are resident, while the tracked size
is 68. -/
theorem capacity_bound_exceeded :
    ((cache.ctor 100).run
      [cache_op.set (set_entry [1] [7] 0), cache_op.set (set_entry [2] [7] 0),
        cache_op.set (set_entry [1] (List.replicate 60 7) 0)]).resident_bytes = 127 ∧
    ((cache.ctor 100).run
      [cache_op.set (set_entry [1] [7] 0), cache_op.set (set_entry [2] [7] 0),
        cache_op.set (set_entry [1] (List.replicate 60 7) 0)]).count = 2 ∧
    ((cache.ctor 100).run
      [cache_op.set (set_entry [1] [7] 0), cache_op.set (set_entry [2] [7] 0),
        cache_op.set (set_entry [1] (List.replicate 60 7) 0)]).capacity_ = 100 ∧
    ((cache.ctor 100).run
      [cache_op.set (set_entry [1] [7] 0), cache_op.set (set_entry [2] [7] 0),
        cache_op.set (set_entry [1] (List.replicate 60 7) 0)]).size_ = 68 := by
  decide

/-! ## Byte order -/

theorem be_encode_length : ∀ (w n : Nat), (be_encode w n).length = w
  | 0, _ => rfl
  | w + 1, n => by
    unfold be_encode
    rw [List.length_append, be_encode_length w, List.length_singleton]

theorem be_decode_append (l : List Nat) (b : Nat) :
    be_decode (l ++ [b]) = be_decode l * 256 + b := by
  unfold be_decode
  rw [List.foldl_append]
  rfl

theorem list_length_four {l : List Nat} (h : l.length = 4) : ∃ a b c d, l = [a, b, c, d] := by
  match l, h with
  | [a, b, c, d], _ => exact ⟨a, b, c, d, rfl⟩

theorem build_response_hdr_ne_nil (h : protocol_binary_request_header) (a b c d : Nat) :
    (build_response_hdr h a b c d).length ≠ 0 := by
  simp [build_response_hdr]

theorem write_response_ok (s : connection) (buf : List Nat) (hbuf : buf.length ≠ 0)
    (hsock : s.fd_.whole) :
    s.write_response buf =
      (true, { s with fd_ := { s.fd_ with written := s.fd_.written ++ [buf] } }) := by
  have hlen : buf.take buf.length = buf := List.take_length buf
  unfold connection.write_response
  rw [hsock.1]
  simp only [write_loop, if_neg hbuf, hsock.2, hlen]
  rfl

/-- The assertion `!lru_.empty()` of `get_inl` holds in a consistent cache. -/
theorem get_inl_assert {c : cache} (h : c.consistent) {k : key} {e : key × value}
    (hf : lookup_find c.lookup_ k = some e) : c.lru_ ≠ [] := by
  obtain ⟨n, hn, -⟩ := h.entry_node e (lookup_find_some hf).1
  exact List.ne_nil_of_mem hn

/-- In a consistent cache `delete_inl` on the key of the front node of the LRU
list succeeds and erases exactly that node, so the assertion in the loop of
`reclaim` holds and the loop goes on with the rest of the list. -/
theorem delete_inl_front {c : cache} (h : c.consistent) {n : lru_node} {rest : List lru_node}
    (hl : c.lru_ = n :: rest) :
    (c.delete_inl n.k).1 = true ∧ (c.delete_inl n.k).2.lru_ = rest := by
  have hn : n ∈ c.lru_ := by rw [hl]; exact List.mem_cons_self _ _
  obtain ⟨e, he, her, hek⟩ := h.node_entry n hn
  have hf : lookup_find c.lookup_ n.k = some e :=
    lookup_find_of_mem h.keys_nodup he (by rw [hek])
  obtain ⟨m, hm, hmr, -, heq⟩ := delete_inl_found h hf
  have hmn : m.ref = n.ref := by
    rw [her] at hmr
    exact (Option.some.inj hmr).symm
  have hnd := h.refs_nodup
  rw [hl, List.map_cons, List.nodup_cons] at hnd
  rw [heq]
  refine ⟨rfl, ?_⟩
  show c.lru_.filter (fun x => !decide (x.ref = m.ref)) = rest
  rw [hl, hmn, List.filter_cons]
  simp only [decide_True, Bool.not_true, Bool.false_eq_true, if_false]
  rw [List.filter_eq_self]
  intro x hx
  have : x.ref ≠ n.ref := fun hxr => hnd.1 (hxr ▸ List.mem_map_of_mem (fun n => n.ref) hx)
  simpa using this

/-! ## C11 to C14: validation of the header -/

/-- C11: for a decoded header with opcode SET, `validate_header` returns SUCCESS
exactly when `1 <= keylen <= 250`, `extlen == 8`, `bodylen >= keylen + 8` and
`bodylen - keylen - 8 <= 1048576`. -/
theorem validate_set_iff (h : protocol_binary_request_header)
    (hop : h.opcode = PROTOCOL_BINARY_CMD_SET) :
    validate_header h = PROTOCOL_BINARY_RESPONSE_SUCCESS ↔
      (1 ≤ h.keylen ∧ h.keylen ≤ 250) ∧ h.extlen = 8 ∧ h.bodylen ≥ h.keylen + 8 ∧
        h.bodylen - h.keylen - 8 ≤ 1048576 := by
  have hop1 : h.opcode = 1 := hop
  unfold validate_header
  simp only [hop1, PROTOCOL_BINARY_CMD_GET, PROTOCOL_BINARY_CMD_SET, PACKET_EXTRAS_SIZE,
    MAX_KEY_SIZE, MAX_VALUE_SIZE, MB, KB, PROTOCOL_BINARY_RESPONSE_SUCCESS,
    PROTOCOL_BINARY_RESPONSE_E2BIG, PROTOCOL_BINARY_RESPONSE_EINVAL]
  split_ifs <;> simp_all <;> omega

/-- Witness of C11: the header of a SET request for a one-byte key and value. -/
theorem validate_set_iff_witness :
    set_header_example.opcode = PROTOCOL_BINARY_CMD_SET ∧
    validate_header set_header_example = PROTOCOL_BINARY_RESPONSE_SUCCESS :=
  ⟨rfl, (validate_set_iff set_header_example rfl).2 (by decide)⟩

/-- C12: for a decoded header with opcode GET or DELETE, `validate_header`
returns SUCCESS exactly when `keylen > 0`, `extlen == 0` and
`bodylen == keylen`. -/
theorem validate_get_delete_iff (h : protocol_binary_request_header)
    (hop : h.opcode = PROTOCOL_BINARY_CMD_GET ∨ h.opcode = PROTOCOL_BINARY_CMD_DELETE) :
    validate_header h = PROTOCOL_BINARY_RESPONSE_SUCCESS ↔
      h.keylen > 0 ∧ h.extlen = 0 ∧ h.bodylen = h.keylen := by
  have hop1 : h.opcode = 0 ∨ h.opcode = 4 := hop
  unfold validate_header
  rcases hop1 with hop1 | hop1 <;>
  · simp only [hop1, PROTOCOL_BINARY_CMD_GET, PROTOCOL_BINARY_CMD_SET,
      PROTOCOL_BINARY_CMD_DELETE, PROTOCOL_BINARY_RESPONSE_SUCCESS,
      PROTOCOL_BINARY_RESPONSE_E2BIG, PROTOCOL_BINARY_RESPONSE_EINVAL]
    split_ifs <;> simp <;> omega

/-- Witness of C12: the header of a GET request for a one-byte key. -/
theorem validate_get_delete_iff_witness :
    (get_header_example.opcode = PROTOCOL_BINARY_CMD_GET ∨
      get_header_example.opcode = PROTOCOL_BINARY_CMD_DELETE) ∧
    validate_header get_header_example = PROTOCOL_BINARY_RESPONSE_SUCCESS :=
  ⟨Or.inl rfl, (validate_get_delete_iff get_header_example (Or.inl rfl)).2 (by decide)⟩

/-- Counterexample to C13 as stated: a header with the unknown opcode 0x02 and
key length 0 is rejected with E2BIG (0x03), not with UNKNOWN_COMMAND (0x81). -/
theorem unknown_opcode_zero_keylen :
    (unknown_header_example 0).opcode ≠ PROTOCOL_BINARY_CMD_GET ∧
    (unknown_header_example 0).opcode ≠ PROTOCOL_BINARY_CMD_SET ∧
    (unknown_header_example 0).opcode ≠ PROTOCOL_BINARY_CMD_DELETE ∧
    validate_header (unknown_header_example 0) = PROTOCOL_BINARY_RESPONSE_E2BIG ∧
    validate_header (unknown_header_example 0) ≠ PROTOCOL_BINARY_RESPONSE_UNKNOWN_COMMAND := by
  decide

/-- C13, amended: a decoded header whose opcode is none of GET, SET and DELETE
is rejected with UNKNOWN_COMMAND (0x81) when its key length is not zero,
whatever the other fields are, and with E2BIG (0x03) when its key length is
zero. -/
theorem validate_unknown_opcode (h : protocol_binary_request_header)
    (hget : h.opcode ≠ PROTOCOL_BINARY_CMD_GET) (hset : h.opcode ≠ PROTOCOL_BINARY_CMD_SET)
    (hdel : h.opcode ≠ PROTOCOL_BINARY_CMD_DELETE) :
    (h.keylen ≠ 0 → validate_header h = PROTOCOL_BINARY_RESPONSE_UNKNOWN_COMMAND) ∧
    (h.keylen = 0 → validate_header h = PROTOCOL_BINARY_RESPONSE_E2BIG) := by
  unfold validate_header
  constructor
  · intro hk
    rw [if_neg hk, if_neg hget, if_neg hset, if_neg hdel]
  · intro hk
    rw [if_pos hk]

/-- Witness of C13, amended: the unknown opcode 0x02 with key length 1. -/
theorem validate_unknown_opcode_witness :
    (unknown_header_example 1).opcode ≠ PROTOCOL_BINARY_CMD_GET ∧
    (unknown_header_example 1).opcode ≠ PROTOCOL_BINARY_CMD_SET ∧
    (unknown_header_example 1).opcode ≠ PROTOCOL_BINARY_CMD_DELETE ∧
    validate_header (unknown_header_example 1) = PROTOCOL_BINARY_RESPONSE_UNKNOWN_COMMAND :=
  ⟨by decide, by decide, by decide,
    (validate_unknown_opcode (unknown_header_example 1) (by decide) (by decide)
      (by decide)).1 (by decide)⟩

/-- C14: `validate_header` returns E2BIG exactly when the key length is zero, or
the opcode is SET with `extlen == 8`, `1 <= keylen <= 250` and
`bodylen > 1048576 + keylen + 8`; every other header with opcode GET, SET or
DELETE that is not accepted yields EINVAL, in particular a SET header with a key
longer than 250 bytes. -/
theorem validate_e2big_iff (h : protocol_binary_request_header) :
    (validate_header h = PROTOCOL_BINARY_RESPONSE_E2BIG ↔
      h.keylen = 0 ∨ (h.opcode = PROTOCOL_BINARY_CMD_SET ∧ h.extlen = 8 ∧
        (1 ≤ h.keylen ∧ h.keylen ≤ 250) ∧ h.bodylen > 1048576 + h.keylen + 8)) ∧
    ((h.opcode = PROTOCOL_BINARY_CMD_GET ∨ h.opcode = PROTOCOL_BINARY_CMD_SET ∨
        h.opcode = PROTOCOL_BINARY_CMD_DELETE) →
      validate_header h ≠ PROTOCOL_BINARY_RESPONSE_SUCCESS →
      validate_header h ≠ PROTOCOL_BINARY_RESPONSE_E2BIG →
      validate_header h = PROTOCOL_BINARY_RESPONSE_EINVAL) ∧
    (h.opcode = PROTOCOL_BINARY_CMD_SET → h.keylen > 250 →
      validate_header h = PROTOCOL_BINARY_RESPONSE_EINVAL) := by
  unfold validate_header
  simp only [PROTOCOL_BINARY_CMD_GET, PROTOCOL_BINARY_CMD_SET, PROTOCOL_BINARY_CMD_DELETE,
    PACKET_EXTRAS_SIZE, MAX_KEY_SIZE, MAX_VALUE_SIZE, MB, KB, PROTOCOL_BINARY_RESPONSE_SUCCESS,
    PROTOCOL_BINARY_RESPONSE_E2BIG, PROTOCOL_BINARY_RESPONSE_EINVAL,
    PROTOCOL_BINARY_RESPONSE_UNKNOWN_COMMAND]
  refine ⟨?_, ?_, ?_⟩
  · split_ifs <;> simp <;> omega
  · intro hop
    split_ifs <;> simp_all
  · intro hop hk
    rw [if_neg (by omega), if_neg (by omega), if_pos hop, if_pos (by omega)]

/-- Witness of C14: a SET header with a key of 251 bytes yields EINVAL, and the
same header with key length zero yields E2BIG. -/
theorem validate_e2big_iff_witness :
    validate_header { set_header_example with keylen := 251, bodylen := 260 } =
      PROTOCOL_BINARY_RESPONSE_EINVAL ∧
    validate_header { set_header_example with keylen := 0 } = PROTOCOL_BINARY_RESPONSE_E2BIG :=
  ⟨(validate_e2big_iff { set_header_example with keylen := 251, bodylen := 260 }).2.2 rfl
      (by decide),
    (validate_e2big_iff { set_header_example with keylen := 0 }).1.2 (Or.inl rfl)⟩

/-! ## The framer: rejected chunks -/

theorem validate_header_range (h : protocol_binary_request_header) :
    validate_header h = PROTOCOL_BINARY_RESPONSE_SUCCESS ∨
    validate_header h = PROTOCOL_BINARY_RESPONSE_E2BIG ∨
    validate_header h = PROTOCOL_BINARY_RESPONSE_EINVAL ∨
    validate_header h = PROTOCOL_BINARY_RESPONSE_UNKNOWN_COMMAND := by
  unfold validate_header
  split_ifs <;> simp

/-- The state after `write_error` for a status that has a diagnostic, on a
socket with whole writes. -/
theorem write_error_ok (s : connection) (err : Nat) (str : List Nat)
    (herr : errstr err = some str) (hsock : s.fd_.whole) :
    s.write_error err = some
      { s with
        request_ := []
        header_ := zero_header
        fd_ := { s.fd_ with written := s.fd_.written ++
          [build_response_hdr s.header_ 0 (str.length % 2 ^ 32) err 0 ++ str] } } := by
  unfold connection.write_error
  rw [herr]
  simp only
  rw [write_response_ok s _ (by simp [build_response_hdr]) hsock]
  rfl

/-- The header of an error response: status `err`, key length 0, extras length
0 and the body length `n`, with the opcode, opaque bytes and cas of the
request. -/
theorem build_error_hdr (h : protocol_binary_request_header) (n err : Nat) (hn : n < 256)
    (herr : err < 256) :
    build_response_hdr h 0 (n % 2 ^ 32) err 0 =
      [0x81, h.opcode, 0, 0, 0, 0, 0, err, 0, 0, 0, n] ++ h.opaque_ ++ be_encode 8 h.cas := by
  have h1 : n % 2 ^ 32 = n := Nat.mod_eq_of_lt (by omega)
  have h2 : n / 256 = 0 := by omega
  have h3 : err / 256 = 0 := by omega
  have h4 : n % 256 = n := by omega
  have h5 : err % 256 = err := by omega
  rw [h1]
  simp [build_response_hdr, be_encode, PROTOCOL_BINARY_RES, PROTOCOL_BINARY_RAW_BYTES, h2, h3,
    h4, h5]

theorem decode_header_opaque_length (r : List Nat) (hr : HEADER_SIZE ≤ r.length) :
    (decode_header r).opaque_.length = 4 := by
  unfold HEADER_SIZE at hr
  simp only [decode_header, List.length_take, List.length_drop]
  omega

/-- C16: on a connection with an empty request buffer, a non-empty chunk whose
first byte is not 0x80 makes `buffer_packet` return false and leave the whole
connection as it was: nothing is written, nothing is buffered and the cache is
untouched. -/
theorem bad_magic_closes (s : connection) (b : List Nat) (hreq : s.request_ = [])
    (hb : b ≠ []) (hmagic : b.head? ≠ some PROTOCOL_BINARY_REQ) :
    s.buffer_packet b = some (false, s) ∧
    ∀ r s1, s.buffer_packet b = some (r, s1) →
      r = false ∧ s1.fd_.written = s.fd_.written ∧ s1.request_ = [] ∧ s1.c_ = s.c_ := by
  have h : s.buffer_packet b = some (false, s) := by
    unfold connection.buffer_packet
    rw [if_neg (by simpa using hb), if_pos ⟨by rw [hreq]; rfl, hmagic⟩]
  refine ⟨h, ?_⟩
  intro r s1 h1
  rw [h] at h1
  cases h1
  exact ⟨rfl, rfl, hreq, rfl⟩

/-- Witness of C16: the chunk `[0x81, 0]` on a fresh connection. -/
theorem bad_magic_closes_witness :
    (connection.ctor (cache.ctor 0) 0).request_ = [] ∧ [0x81, 0] ≠ ([] : List Nat) ∧
    ([0x81, 0] : List Nat).head? ≠ some PROTOCOL_BINARY_REQ ∧
    (connection.ctor (cache.ctor 0) 0).buffer_packet [0x81, 0] =
      some (false, connection.ctor (cache.ctor 0) 0) :=
  ⟨rfl, by decide, by decide,
    (bad_magic_closes (connection.ctor (cache.ctor 0) 0) [0x81, 0] rfl (by decide)
      (by decide)).1⟩

/-- The call of `buffer_packet` that completes the header: the chunk is appended
to fewer than 24 buffered bytes and the buffer then holds 24 bytes or more. -/
theorem buffer_packet_header (s : connection) (b : List Nat) (hb : b ≠ [])
    (hmagic : s.request_ = [] → b.head? = some PROTOCOL_BINARY_REQ)
    (hprev : s.request_.length < HEADER_SIZE) (hlen : HEADER_SIZE ≤ (s.request_ ++ b).length) :
    s.buffer_packet b =
      match (if validate_header (decode_header (s.request_ ++ b)) ≠
            PROTOCOL_BINARY_RESPONSE_SUCCESS then
          ({ s with request_ := s.request_ ++ b
                    header_ := decode_header (s.request_ ++ b) } : connection).write_error
            (validate_header (decode_header (s.request_ ++ b)))
        else some { s with request_ := s.request_ ++ b
                           header_ := decode_header (s.request_ ++ b) }) with
      | none => none
      | some s3 =>
        if s3.request_.length < s3.header_.bodylen + HEADER_SIZE then some (true, s3)
        else if s3.request_.length > s3.header_.bodylen + HEADER_SIZE then
          (s3.write_error PROTOCOL_BINARY_RESPONSE_EINVAL).map (fun t => (false, t))
        else s3.process_packet := by
  have hm : ¬ (s.request_.length = 0 ∧ b.head? ≠ some PROTOCOL_BINARY_REQ) := by
    rintro ⟨h0, h1⟩
    exact h1 (hmagic (List.length_eq_zero.1 h0))
  unfold connection.buffer_packet
  rw [if_neg (by simpa using hb), if_neg hm]
  simp only
  rw [if_neg (by omega), if_neg (by omega)]

/-- The result of the call of `buffer_packet` that completes a header which
fails validation, on a socket with whole writes. -/
theorem buffer_packet_invalid (s : connection) (b : List Nat) (hb : b ≠ [])
    (hmagic : s.request_ = [] → b.head? = some PROTOCOL_BINARY_REQ)
    (hprev : s.request_.length < HEADER_SIZE) (hlen : HEADER_SIZE ≤ (s.request_ ++ b).length)
    (hfail : validate_header (decode_header (s.request_ ++ b)) ≠
      PROTOCOL_BINARY_RESPONSE_SUCCESS)
    (hsock : s.fd_.whole) :
    ∃ str, errstr (validate_header (decode_header (s.request_ ++ b))) = some str ∧
      str.length < 256 ∧
      s.buffer_packet b = some (true,
        { s with
          request_ := []
          header_ := zero_header
          fd_ := { s.fd_ with written := s.fd_.written ++
            [[0x81, (decode_header (s.request_ ++ b)).opcode, 0, 0, 0, 0, 0,
                validate_header (decode_header (s.request_ ++ b)), 0, 0, 0, str.length]
              ++ (decode_header (s.request_ ++ b)).opaque_
              ++ be_encode 8 (decode_header (s.request_ ++ b)).cas ++ str] } }) := by
  have hstr : ∃ str, errstr (validate_header (decode_header (s.request_ ++ b))) = some str ∧
      str.length < 256 ∧ validate_header (decode_header (s.request_ ++ b)) < 256 := by
    rcases validate_header_range (decode_header (s.request_ ++ b)) with h | h | h | h
    · exact absurd h hfail
    · rw [h]; exact ⟨_, rfl, by decide, by decide⟩
    · rw [h]; exact ⟨_, rfl, by decide, by decide⟩
    · rw [h]; exact ⟨_, rfl, by decide, by decide⟩
  obtain ⟨str, hs, hl, hst⟩ := hstr
  refine ⟨str, hs, hl, ?_⟩
  have hw := write_error_ok
    ({ s with request_ := s.request_ ++ b
              header_ := decode_header (s.request_ ++ b) } : connection)
    (validate_header (decode_header (s.request_ ++ b))) str hs hsock
  rw [buffer_packet_header s b hb hmagic hprev hlen, if_pos hfail, hw]
  simp only [zero_header, List.length_nil]
  rw [if_pos (by simp [HEADER_SIZE]), build_error_hdr _ _ _ hl hst]

theorem write_error_request {s s1 : connection} {err : Nat} (h : s.write_error err = some s1) :
    s1.request_ = [] := by
  unfold connection.write_error at h
  cases he : errstr err with
  | none => rw [he] at h; cases h
  | some str =>
    rw [he] at h
    cases h
    rfl

theorem process_packet_request {s : connection} {r : Bool × connection}
    (h : s.process_packet = some r) : r.2.request_ = [] := by
  unfold connection.process_packet at h
  simp only [Option.map_eq_some'] at h
  obtain ⟨p, -, rfl⟩ := h
  rfl

theorem buffering_of_nil {s : connection} (h : s.request_ = []) : s.buffering := by
  intro hl
  rw [h] at hl
  simp [HEADER_SIZE] at hl

/-- Every call of `buffer_packet` that returns leaves the buffer in the state
`buffering`. -/
theorem buffer_packet_buffering {s : connection} {b : List Nat} {r : Bool × connection}
    (hs : s.buffering) (h : s.buffer_packet b = some r) : r.2.buffering := by
  unfold connection.buffer_packet at h
  split at h
  · cases h; exact hs
  split at h
  · cases h; exact hs
  simp only at h
  split at h
  · rename_i hlt
    cases h
    intro hge
    exact absurd hge (by simpa using hlt)
  split at h
  · cases h
  split at h
  · cases h
  · rename_i s3 hs3
    split at hs3
    · have hreq := write_error_request hs3
      rw [hreq] at h
      simp only [List.length_nil] at h
      rw [if_pos (by simp [HEADER_SIZE])] at h
      cases h
      exact buffering_of_nil hreq
    · rename_i hvalid
      cases hs3
      simp only at h
      split at h
      · rename_i hlt
        cases h
        intro _
        exact ⟨by simpa using hvalid, hlt⟩
      split at h
      · simp only [Option.map_eq_some'] at h
        obtain ⟨t, ht, rfl⟩ := h
        exact buffering_of_nil (write_error_request ht)
      · exact buffering_of_nil (process_packet_request h)

/-! ## C17: a header that fails validation -/

/-- The result of the call of `buffer_packet` that completes a valid header and
leaves more bytes in the buffer than the packet has, on a socket with whole writes: the
response with status EINVAL and the diagnostic "Bad parameters" is written, and
the call returns false. -/
theorem buffer_packet_excess (s : connection) (b : List Nat) (hb : b ≠ [])
    (hmagic : s.request_ = [] → b.head? = some PROTOCOL_BINARY_REQ)
    (hprev : s.request_.length < HEADER_SIZE)
    (hvalid : validate_header (decode_header (s.request_ ++ b)) =
      PROTOCOL_BINARY_RESPONSE_SUCCESS)
    (hlen : (s.request_ ++ b).length > (decode_header (s.request_ ++ b)).bodylen + HEADER_SIZE)
    (hsock : s.fd_.whole) :
    s.buffer_packet b = some (false,
      { s with
        request_ := []
        header_ := zero_header
        fd_ := { s.fd_ with written := s.fd_.written ++
          [[0x81, (decode_header (s.request_ ++ b)).opcode, 0, 0, 0, 0, 0, 4, 0, 0, 0, 14]
            ++ (decode_header (s.request_ ++ b)).opaque_
            ++ be_encode 8 (decode_header (s.request_ ++ b)).cas
            ++ "Bad parameters".toList.map Char.toNat] } }) := by
  have hw := write_error_ok
    ({ s with request_ := s.request_ ++ b
              header_ := decode_header (s.request_ ++ b) } : connection)
    PROTOCOL_BINARY_RESPONSE_EINVAL ("Bad parameters".toList.map Char.toNat) rfl hsock
  rw [buffer_packet_header s b hb hmagic hprev (by omega), if_neg (by simpa using hvalid)]
  simp only
  rw [if_neg (by omega), if_pos hlen, hw, build_error_hdr _ _ _ (by decide) (by decide)]
  rfl

/-- Counterexample to C20 as stated: a GET request for a one-byte key followed
by one more byte, fed in one chunk to a fresh connection, makes `buffer_packet`
return false after it has written the response with status EINVAL (0x04) and the
diagnostic "Bad parameters". -/
theorem oversize_packet_answered :
    validate_header (decode_header (get_request [107] 0 [0, 0, 0, 0] ++ [0])) =
      PROTOCOL_BINARY_RESPONSE_SUCCESS ∧
    (get_request [107] 0 [0, 0, 0, 0] ++ [0]).length >
      (decode_header (get_request [107] 0 [0, 0, 0, 0] ++ [0])).bodylen + HEADER_SIZE ∧
    ((connection.ctor (cache.ctor 0) 0).buffer_packet
      (get_request [107] 0 [0, 0, 0, 0] ++ [0])).map (fun p => (p.1, p.2.fd_.written)) =
      some (false, [[0x81, 0, 0, 0, 0, 0, 0, 4, 0, 0, 0, 14, 0, 0, 0, 0, 0, 0, 0, 0, 0, 0, 0, 0,
        66, 97, 100, 32, 112, 97, 114, 97, 109, 101, 116, 101, 114, 115]]) := by
  decide

/-- C20, amended: when the chunk that completes a valid header leaves more
bytes in the buffer than `24 + bodylen`, `buffer_packet` on a socket with whole writes
writes exactly one response, with status EINVAL (0x04), keylen 0, extlen 0 and
the 14-byte diagnostic "Bad parameters", empties the buffer, leaves the cache
untouched and returns false. -/
theorem excess_bytes_response (s : connection) (b : List Nat) (hb : b ≠ [])
    (hmagic : s.request_ = [] → b.head? = some PROTOCOL_BINARY_REQ)
    (hprev : s.request_.length < HEADER_SIZE)
    (hvalid : validate_header (decode_header (s.request_ ++ b)) =
      PROTOCOL_BINARY_RESPONSE_SUCCESS)
    (hlen : (s.request_ ++ b).length > (decode_header (s.request_ ++ b)).bodylen + HEADER_SIZE)
    (hsock : s.fd_.whole) :
    ∃ s1, s.buffer_packet b = some (false, s1) ∧
      s1.fd_.written = s.fd_.written ++
        [[0x81, (decode_header (s.request_ ++ b)).opcode, 0, 0, 0, 0, 0, 4, 0, 0, 0, 14]
          ++ (decode_header (s.request_ ++ b)).opaque_
          ++ be_encode 8 (decode_header (s.request_ ++ b)).cas
          ++ [66, 97, 100, 32, 112, 97, 114, 97, 109, 101, 116, 101, 114, 115]] ∧
      s1.request_ = [] ∧ s1.c_ = s.c_ :=
  ⟨_, buffer_packet_excess s b hb hmagic hprev hvalid hlen hsock, rfl, rfl, rfl⟩

/-- Witness of C20, amended: the chunk of the counterexample. -/
theorem excess_bytes_response_witness :
    get_request [107] 0 [0, 0, 0, 0] ++ [0] ≠ [] ∧
    (connection.ctor (cache.ctor 0) 0).request_.length < HEADER_SIZE ∧
    ∃ s1, (connection.ctor (cache.ctor 0) 0).buffer_packet
        (get_request [107] 0 [0, 0, 0, 0] ++ [0]) = some (false, s1) ∧
      s1.fd_.written = (connection.ctor (cache.ctor 0) 0).fd_.written ++
        [[0x81, (decode_header ((connection.ctor (cache.ctor 0) 0).request_ ++
              (get_request [107] 0 [0, 0, 0, 0] ++ [0]))).opcode, 0, 0, 0, 0, 0, 4, 0, 0, 0, 14]
          ++ (decode_header ((connection.ctor (cache.ctor 0) 0).request_ ++
              (get_request [107] 0 [0, 0, 0, 0] ++ [0]))).opaque_
          ++ be_encode 8 (decode_header ((connection.ctor (cache.ctor 0) 0).request_ ++
              (get_request [107] 0 [0, 0, 0, 0] ++ [0]))).cas
          ++ [66, 97, 100, 32, 112, 97, 114, 97, 109, 101, 116, 101, 114, 115]] ∧
      s1.request_ = [] ∧ s1.c_ = (connection.ctor (cache.ctor 0) 0).c_ :=
  ⟨by decide, by decide,
    excess_bytes_response (connection.ctor (cache.ctor 0) 0)
      (get_request [107] 0 [0, 0, 0, 0] ++ [0]) (by decide) (fun _ => by decide) (by decide)
      (by decide) (by decide) ⟨rfl, rfl⟩⟩

/-- C19 fails on the code: on a fresh connection the 24-byte header of a valid
GET request for a one-byte key is buffered by a first call that returns true;
a second chunk of two bytes then leaves a valid header and 26 bytes, more than
`24 + bodylen = 25`, in the buffer, and the call aborts on
`assert(prev_size < sizeof(header_))` instead of answering EINVAL and returning
false. -/
theorem excess_after_header_aborts :
    ((connection.ctor (cache.ctor 0) 0).buffer_packet
      ((get_request [107] 0 [0, 0, 0, 0]).take 24)).map (fun p => (p.1, p.2.request_)) =
      some (true, (get_request [107] 0 [0, 0, 0, 0]).take 24) ∧
    validate_header (decode_header ((get_request [107] 0 [0, 0, 0, 0]).take 24 ++ [107, 0])) =
      PROTOCOL_BINARY_RESPONSE_SUCCESS ∧
    ((get_request [107] 0 [0, 0, 0, 0]).take 24 ++ [107, 0]).length >
      (decode_header ((get_request [107] 0 [0, 0, 0, 0]).take 24 ++ [107, 0])).bodylen
        + HEADER_SIZE ∧
    (connection.ctor (cache.ctor 0) 0).feed
      [(get_request [107] 0 [0, 0, 0, 0]).take 24, [107, 0]] = none := by
  decide

/-! ## C18: a rejected packet in several chunks -/

/-- A chunk that leaves fewer than 24 bytes in the buffer is buffered, and
nothing else happens. -/
theorem buffer_packet_short (s : connection) (b : List Nat) (hb : b ≠ [])
    (hmagic : s.request_ = [] → b.head? = some PROTOCOL_BINARY_REQ)
    (hlen : (s.request_ ++ b).length < HEADER_SIZE) :
    s.buffer_packet b = some (true, { s with request_ := s.request_ ++ b }) := by
  have hm : ¬ (s.request_.length = 0 ∧ b.head? ≠ some PROTOCOL_BINARY_REQ) := by
    rintro ⟨h0, h1⟩
    exact h1 (hmagic (List.length_eq_zero.1 h0))
  unfold connection.buffer_packet
  rw [if_neg (by simpa using hb), if_neg hm]
  simp only
  rw [if_pos hlen]

/-- The calls for a packet whose header fails validation, when the chunks
before the last leave fewer than 24 bytes in the buffer: every call returns
true, the last one writes the error response and empties the buffer. -/
theorem feed_rejected : ∀ (pre : List (List Nat)) (s : connection) (last : List Nat),
    (∀ b ∈ pre, b ≠ []) → last ≠ [] →
    (s.request_ ++ pre.flatten ++ last).head? = some PROTOCOL_BINARY_REQ →
    (s.request_ ++ pre.flatten).length < HEADER_SIZE →
    HEADER_SIZE ≤ (s.request_ ++ pre.flatten ++ last).length →
    validate_header (decode_header (s.request_ ++ pre.flatten ++ last)) ≠
      PROTOCOL_BINARY_RESPONSE_SUCCESS →
    s.fd_.whole →
    ∃ str s1,
      errstr (validate_header (decode_header (s.request_ ++ pre.flatten ++ last))) = some str ∧
      s.feed (pre ++ [last]) = some (List.replicate (pre.length + 1) true, s1) ∧
      s1.fd_.written = s.fd_.written ++
        [[0x81, (decode_header (s.request_ ++ pre.flatten ++ last)).opcode, 0, 0, 0, 0, 0,
            validate_header (decode_header (s.request_ ++ pre.flatten ++ last)), 0, 0, 0,
            str.length]
          ++ (decode_header (s.request_ ++ pre.flatten ++ last)).opaque_
          ++ be_encode 8 (decode_header (s.request_ ++ pre.flatten ++ last)).cas ++ str] ∧
      s1.request_ = [] ∧ s1.c_ = s.c_
  | [], s, last, _, hlast, hhead, hshort, hlen, hfail, hsock => by
    simp only [List.flatten_nil, List.append_nil] at hhead hshort hlen hfail ⊢
    have hmagic : s.request_ = [] → last.head? = some PROTOCOL_BINARY_REQ := by
      intro h
      rw [h] at hhead
      exact hhead
    obtain ⟨str, hstr, -, heq⟩ := buffer_packet_invalid s last hlast hmagic hshort hlen hfail hsock
    have hex : ∃ s1, s.buffer_packet last = some (true, s1) ∧
        s1.fd_.written = s.fd_.written ++
          [[0x81, (decode_header (s.request_ ++ last)).opcode, 0, 0, 0, 0, 0,
              validate_header (decode_header (s.request_ ++ last)), 0, 0, 0, str.length]
            ++ (decode_header (s.request_ ++ last)).opaque_
            ++ be_encode 8 (decode_header (s.request_ ++ last)).cas ++ str] ∧
        s1.request_ = [] ∧ s1.c_ = s.c_ := ⟨_, heq, rfl, rfl, rfl⟩
    obtain ⟨s1, h1, h2, h3, h4⟩ := hex
    refine ⟨str, s1, hstr, ?_, h2, h3, h4⟩
    rw [List.nil_append]
    unfold connection.feed
    rw [h1]
    rfl
  | b :: pre, s, last, hne, hlast, hhead, hshort, hlen, hfail, hsock => by
    have hb : b ≠ [] := hne b (List.mem_cons_self _ _)
    have hassoc : s.request_ ++ (b :: pre).flatten = (s.request_ ++ b) ++ pre.flatten := by
      simp
    rw [hassoc] at hhead hshort hlen hfail ⊢
    have hmagic : s.request_ = [] → b.head? = some PROTOCOL_BINARY_REQ := by
      intro h
      rw [h, List.nil_append, List.append_assoc, List.head?_append_of_ne_nil _ hb] at hhead
      exact hhead
    have hbl : (s.request_ ++ b).length < HEADER_SIZE := by
      simp only [List.length_append] at hshort ⊢
      omega
    have hstep := buffer_packet_short s b hb hmagic hbl
    obtain ⟨str, s1, hstr, hfeed, hw, hr, hc⟩ := feed_rejected pre
      ({ s with request_ := s.request_ ++ b } : connection) last
      (fun x hx => hne x (List.mem_cons_of_mem _ hx)) hlast hhead hshort hlen hfail hsock
    refine ⟨str, s1, hstr, ?_, hw, hr, hc⟩
    rw [List.cons_append]
    unfold connection.feed
    rw [hstep]
    simp only [hfeed, Option.map_some', List.length_cons, List.replicate_succ]

/-- Counterexample to C18 as stated: the request with the unknown opcode 0x02
(magic 0x80, 24-byte header, one body byte), split into its header and its
body and fed to a fresh connection: the first call writes the error response
and returns true with an empty buffer, the second call finds the body byte 107
where a magic byte is expected and returns false. -/
theorem protocol_error_split_closes :
    unknown_request.head? = some PROTOCOL_BINARY_REQ ∧
    unknown_request.length = HEADER_SIZE + (decode_header unknown_request).bodylen ∧
    validate_header (decode_header unknown_request) = PROTOCOL_BINARY_RESPONSE_UNKNOWN_COMMAND ∧
    [unknown_request.take 24, unknown_request.drop 24].flatten = unknown_request ∧
    ((connection.ctor (cache.ctor 0) 0).feed
      [unknown_request.take 24, unknown_request.drop 24]).map (fun p => p.1) =
      some [true, false] := by
  decide

/-- C18, amended: a packet of at least 24 bytes with magic 0x80 whose header
fails validation, fed to a connection with an empty buffer and a socket with whole writes
in non-empty chunks of which only the last reaches the 24th byte (in particular
in one chunk): every call of `buffer_packet` returns true, exactly one
response, the error response for the status, is written, and after the last
chunk the buffer is empty and the cache untouched. -/
theorem protocol_error_consumed (s : connection) (pre : List (List Nat)) (last : List Nat)
    (hreq : s.request_ = []) (hsock : s.fd_.whole)
    (hpre : ∀ b ∈ pre, b ≠ []) (hlast : last ≠ [])
    (hmagic : (pre.flatten ++ last).head? = some PROTOCOL_BINARY_REQ)
    (hshort : pre.flatten.length < HEADER_SIZE)
    (hlen : HEADER_SIZE ≤ (pre.flatten ++ last).length)
    (hfail : validate_header (decode_header (pre.flatten ++ last)) ≠
      PROTOCOL_BINARY_RESPONSE_SUCCESS) :
    ∃ str s1,
      errstr (validate_header (decode_header (pre.flatten ++ last))) = some str ∧
      s.feed (pre ++ [last]) = some (List.replicate (pre.length + 1) true, s1) ∧
      s1.fd_.written = s.fd_.written ++
        [[0x81, (decode_header (pre.flatten ++ last)).opcode, 0, 0, 0, 0, 0,
            validate_header (decode_header (pre.flatten ++ last)), 0, 0, 0, str.length]
          ++ (decode_header (pre.flatten ++ last)).opaque_
          ++ be_encode 8 (decode_header (pre.flatten ++ last)).cas ++ str] ∧
      s1.request_ = [] ∧ s1.c_ = s.c_ := by
  have h := feed_rejected pre s last hpre hlast (by rw [hreq]; exact hmagic)
    (by rw [hreq]; exact hshort) (by rw [hreq]; exact hlen) (by rw [hreq]; exact hfail) hsock
  rw [hreq] at h
  exact h

/-- Witness of C18, amended: the request with the unknown opcode 0x02 fed to a
fresh connection as its first 23 bytes and then the remaining two. -/
theorem protocol_error_consumed_witness :
    (connection.ctor (cache.ctor 0) 0).request_ = [] ∧
    ([unknown_request.take 23].flatten ++ unknown_request.drop 23) = unknown_request ∧
    ∃ str s1,
      errstr (validate_header (decode_header
        ([unknown_request.take 23].flatten ++ unknown_request.drop 23))) = some str ∧
      (connection.ctor (cache.ctor 0) 0).feed
        ([unknown_request.take 23] ++ [unknown_request.drop 23]) =
        some (List.replicate ([unknown_request.take 23].length + 1) true, s1) ∧
      s1.fd_.written = (connection.ctor (cache.ctor 0) 0).fd_.written ++
        [[0x81, (decode_header
              ([unknown_request.take 23].flatten ++ unknown_request.drop 23)).opcode,
            0, 0, 0, 0, 0,
            validate_header (decode_header
              ([unknown_request.take 23].flatten ++ unknown_request.drop 23)), 0, 0, 0,
            str.length]
          ++ (decode_header
              ([unknown_request.take 23].flatten ++ unknown_request.drop 23)).opaque_
          ++ be_encode 8 (decode_header
              ([unknown_request.take 23].flatten ++ unknown_request.drop 23)).cas ++ str] ∧
      s1.request_ = [] ∧ s1.c_ = (connection.ctor (cache.ctor 0) 0).c_ :=
  ⟨rfl, by decide,
    protocol_error_consumed (connection.ctor (cache.ctor 0) 0) [unknown_request.take 23]
      (unknown_request.drop 23) rfl ⟨rfl, rfl⟩ (by decide) (by decide) (by decide) (by decide)
      (by decide) (by decide)⟩

/-! ## C15: a valid packet in several chunks -/

/-- C15 fails on the code: fed to a fresh connection one byte at a time, a valid
GET request of 25 bytes is buffered by 24 calls that return true, and the 25th
call aborts on `assert(prev_size < sizeof(header_))`; so does the 9th call for
a valid SET request of 34 bytes in chunks of 3 bytes, after 8 calls that return
true. The same SET request in one chunk is dispatched and stored. -/
theorem fragmented_packet_aborts :
    validate_header (decode_header (get_request [107] 0 [0, 0, 0, 0])) =
      PROTOCOL_BINARY_RESPONSE_SUCCESS ∧
    (((connection.ctor (cache.ctor 0) 0).feed
      (((get_request [107] 0 [0, 0, 0, 0]).map (fun x => [x])).take 24)).map (fun p => p.1) =
      some (List.replicate 24 true)) ∧
    (connection.ctor (cache.ctor 0) 0).feed
      ((get_request [107] 0 [0, 0, 0, 0]).map (fun x => [x])) = none ∧
    (((connection.ctor (cache.ctor 0) 0).feed
      ((split_chunks 3 (set_request [107] [118] 0 [0, 0, 0, 0] [0, 0, 0, 0, 0, 0, 0, 0])).take 8)).map
        (fun p => p.1) = some (List.replicate 8 true)) ∧
    (connection.ctor (cache.ctor 0) 0).feed
      (split_chunks 3 (set_request [107] [118] 0 [0, 0, 0, 0] [0, 0, 0, 0, 0, 0, 0, 0])) = none ∧
    ((connection.ctor (cache.ctor 0) 0).feed
      [set_request [107] [118] 0 [0, 0, 0, 0] [0, 0, 0, 0, 0, 0, 0, 0]]).map
        (fun p => (p.1, p.2.c_.count)) = some ([true], 1) := by
  decide

set_option maxRecDepth 100000 in
/-- A valid SET request of 133 bytes, read by `listen_loop` in chunks of
`DATA_READ_CHUNK_SIZE` bytes, that is as a chunk of 128 bytes and a chunk of 5
bytes: the second call of `buffer_packet` aborts on
`assert(prev_size < sizeof(header_))`. -/
theorem large_packet_aborts :
    (split_chunks DATA_READ_CHUNK_SIZE
      (set_request [107] (List.replicate 100 7) 0 [0, 0, 0, 0] [0, 0, 0, 0, 0, 0, 0, 0])).map
        List.length = [128, 5] ∧
    (connection.ctor (cache.ctor 0) 0).feed (split_chunks DATA_READ_CHUNK_SIZE
      (set_request [107] (List.replicate 100 7) 0 [0, 0, 0, 0] [0, 0, 0, 0, 0, 0, 0, 0])) = none := by
  decide

/-! ## The assertion of `buffer_packet` -/

/-- A non-empty chunk that arrives when 24 bytes or more are buffered fails
`assert(prev_size < sizeof(header_))`. -/
theorem buffer_packet_aborts (s : connection) (b : List Nat) (hb : b ≠ [])
    (hprev : HEADER_SIZE ≤ s.request_.length) : s.buffer_packet b = none := by
  have h0 : ¬ (s.request_.length = 0 ∧ b.head? ≠ some PROTOCOL_BINARY_REQ) := by
    rintro ⟨h, -⟩
    rw [h] at hprev
    simp [HEADER_SIZE] at hprev
  unfold connection.buffer_packet
  rw [if_neg (by simpa using hb), if_neg h0]
  simp only
  rw [if_neg (by rw [List.length_append]; omega), if_pos (by omega)]

/-- The call that completes a valid header but not the packet buffers the chunk
and returns true. -/
theorem buffer_packet_waits (s : connection) (b : List Nat) (hb : b ≠ [])
    (hmagic : s.request_ = [] → b.head? = some PROTOCOL_BINARY_REQ)
    (hprev : s.request_.length < HEADER_SIZE) (hlen : HEADER_SIZE ≤ (s.request_ ++ b).length)
    (hvalid : validate_header (decode_header (s.request_ ++ b)) =
      PROTOCOL_BINARY_RESPONSE_SUCCESS)
    (hless : (s.request_ ++ b).length < (decode_header (s.request_ ++ b)).bodylen + HEADER_SIZE) :
    s.buffer_packet b = some (true,
      { s with request_ := s.request_ ++ b, header_ := decode_header (s.request_ ++ b) }) := by
  rw [buffer_packet_header s b hb hmagic hprev hlen, if_neg (by simpa using hvalid)]
  simp only
  rw [if_pos hless]

theorem feed_cons_true {s s1 : connection} {b : List Nat} (cs : List (List Nat))
    (h : s.buffer_packet b = some (true, s1)) :
    s.feed (b :: cs) = (s1.feed cs).map (fun p => (true :: p.1, p.2)) := by
  rw [connection.feed, h]

theorem feed_cons_none {s : connection} {b : List Nat} (cs : List (List Nat))
    (h : s.buffer_packet b = none) : s.feed (b :: cs) = none := by
  rw [connection.feed, h]

/-- The calls for chunks that leave fewer than 24 bytes in the buffer all
return true; the calls for the chunks after them start from the bytes
buffered. -/
theorem feed_short : ∀ (pre : List (List Nat)) (s : connection) (cs : List (List Nat)),
    (∀ b ∈ pre, b ≠ []) →
    (s.request_ = [] → pre ≠ [] → pre.flatten.head? = some PROTOCOL_BINARY_REQ) →
    (s.request_ ++ pre.flatten).length < HEADER_SIZE →
    s.feed (pre ++ cs) =
      (({ s with request_ := s.request_ ++ pre.flatten } : connection).feed cs).map
        (fun p => (List.replicate pre.length true ++ p.1, p.2))
  | [], s, cs, _, _, _ => by
    simp only [List.nil_append, List.flatten_nil, List.append_nil, List.length_nil,
      List.replicate_zero]
    cases s.feed cs <;> rfl
  | b :: pre, s, cs, hne, hhead, hshort => by
    have hb : b ≠ [] := hne b (List.mem_cons_self _ _)
    have hmagic : s.request_ = [] → b.head? = some PROTOCOL_BINARY_REQ := by
      intro h
      have := hhead h (List.cons_ne_nil _ _)
      rwa [List.flatten_cons, List.head?_append_of_ne_nil _ hb] at this
    have hbl : (s.request_ ++ b).length < HEADER_SIZE := by
      simp only [List.flatten_cons, List.length_append] at hshort ⊢
      omega
    have hstep := buffer_packet_short s b hb hmagic hbl
    have ih := feed_short pre ({ s with request_ := s.request_ ++ b } : connection) cs
      (fun x hx => hne x (List.mem_cons_of_mem _ hx))
      (fun h => absurd h (by simpa using fun _ => hb))
      (by simpa [List.append_assoc] using hshort)
    rw [List.cons_append, feed_cons_true _ hstep, ih]
    simp only [List.flatten_cons, List.append_assoc, Option.map_map, List.length_cons,
      List.replicate_succ]
    rfl

/-- A valid packet aborts the program whenever the chunk that completes its
header is not its last chunk: short chunks `pre`, then a chunk `mid` that
reaches the 24th byte but not the end of the packet, then a chunk `nxt`. -/
theorem feed_aborts (s : connection) (pre : List (List Nat)) (mid nxt : List Nat)
    (rest : List (List Nat)) (hreq : s.request_ = []) (hpre : ∀ b ∈ pre, b ≠ [])
    (hmid : mid ≠ []) (hnxt : nxt ≠ [])
    (hmagic : (pre.flatten ++ mid).head? = some PROTOCOL_BINARY_REQ)
    (hshort : pre.flatten.length < HEADER_SIZE)
    (hlen : HEADER_SIZE ≤ (pre.flatten ++ mid).length)
    (hvalid : validate_header (decode_header (pre.flatten ++ mid)) =
      PROTOCOL_BINARY_RESPONSE_SUCCESS)
    (hless : (pre.flatten ++ mid).length <
      (decode_header (pre.flatten ++ mid)).bodylen + HEADER_SIZE) :
    s.feed (pre ++ mid :: nxt :: rest) = none := by
  have hhead : s.request_ = [] → pre ≠ [] → pre.flatten.head? = some PROTOCOL_BINARY_REQ := by
    intro _ hne
    have hfl : pre.flatten ≠ [] := by
      obtain ⟨b, pre1, rfl⟩ := List.exists_cons_of_ne_nil hne
      simp [hpre b (List.mem_cons_self _ _)]
    rwa [List.head?_append_of_ne_nil _ hfl] at hmagic
  rw [feed_short pre s _ hpre hhead (by rw [hreq]; exact hshort), hreq, List.nil_append]
  have hm : (({ s with request_ := pre.flatten } : connection).request_ = [] →
      mid.head? = some PROTOCOL_BINARY_REQ) := by
    intro h
    have h1 : pre.flatten = [] := h
    rwa [h1, List.nil_append] at hmagic
  have hwait := buffer_packet_waits ({ s with request_ := pre.flatten } : connection) mid hmid
    hm hshort hlen hvalid hless
  have habort := buffer_packet_aborts
    ({ s with request_ := pre.flatten ++ mid
              header_ := decode_header (pre.flatten ++ mid) } : connection) nxt hnxt hlen
  rw [feed_cons_true _ hwait, feed_cons_none _ habort]
  rfl

/-! ## C21: the response header -/

theorem be_encode_decode (bs : List Nat) (hb : ∀ b ∈ bs, b < 256) :
    be_encode bs.length (be_decode bs) = bs := by
  induction bs using List.reverseRecOn with
  | nil => rfl
  | append_singleton l a ih =>
    have ha : a < 256 := hb a (by simp)
    have hl : be_encode l.length (be_decode l) = l :=
      ih (fun b hm => hb b (List.mem_append_left _ hm))
    have h1 : (be_decode l * 256 + a) / 256 = be_decode l := by omega
    have h2 : (be_decode l * 256 + a) % 256 = a := by omega
    rw [be_decode_append, List.length_append, List.length_singleton, be_encode, h1, h2, hl]

theorem be_encode_two (n : Nat) : be_encode 2 n = [n / 256 % 256, n % 256] := by
  simp [be_encode]

theorem be_encode_four (n : Nat) :
    be_encode 4 n = [n / 16777216 % 256, n / 65536 % 256, n / 256 % 256, n % 256] := by
  simp [be_encode, Nat.div_div_eq_div_mul]

theorem be_encode_eight (n : Nat) :
    be_encode 8 n =
      [n / 72057594037927936 % 256, n / 281474976710656 % 256, n / 1099511627776 % 256,
        n / 4294967296 % 256, n / 16777216 % 256, n / 65536 % 256, n / 256 % 256, n % 256] := by
  simp [be_encode, Nat.div_div_eq_div_mul]

/-- C21: for a request header whose opaque field has its 4 bytes and an extras
length that fits its byte, `build_response_hdr` returns 24 bytes: 0x81, the
opcode of the request, the key length in 2 bytes, the extras length, 0, the
status in 2 bytes, the body length in 4 bytes, the opaque bytes of the request
and the CAS of the request in 8 bytes, every number with its most significant
byte first; and for the header decoded from 24 or more received bytes, bytes 12
to 15 and bytes 16 to 23 of the response are bytes 12 to 15 and bytes 16 to 23
of what was received. -/
theorem response_header_layout (h : protocol_binary_request_header)
    (keylen body_len err extlen : Nat) (r : List Nat) (hop : h.opaque_.length = 4)
    (hext : extlen < 256) (hr : HEADER_SIZE ≤ r.length) (hb : ∀ b ∈ r, b < 256) :
    build_response_hdr h keylen body_len err extlen =
      [0x81, h.opcode, keylen / 256 % 256, keylen % 256, extlen, 0, err / 256 % 256, err % 256,
        body_len / 16777216 % 256, body_len / 65536 % 256, body_len / 256 % 256, body_len % 256]
        ++ h.opaque_ ++
        [h.cas / 72057594037927936 % 256, h.cas / 281474976710656 % 256,
          h.cas / 1099511627776 % 256, h.cas / 4294967296 % 256, h.cas / 16777216 % 256,
          h.cas / 65536 % 256, h.cas / 256 % 256, h.cas % 256] ∧
    (build_response_hdr h keylen body_len err extlen).length = 24 ∧
    (build_response_hdr (decode_header r) keylen body_len err extlen).getD 1 0 = r.getD 1 0 ∧
    ((build_response_hdr (decode_header r) keylen body_len err extlen).drop 12).take 4 =
      (r.drop 12).take 4 ∧
    (build_response_hdr (decode_header r) keylen body_len err extlen).drop 16 =
      (r.drop 16).take 8 := by
  have hlay : ∀ g : protocol_binary_request_header,
      build_response_hdr g keylen body_len err extlen =
        [0x81, g.opcode, keylen / 256 % 256, keylen % 256, extlen, 0, err / 256 % 256,
          err % 256, body_len / 16777216 % 256, body_len / 65536 % 256, body_len / 256 % 256,
          body_len % 256] ++ g.opaque_ ++ be_encode 8 g.cas := by
    intro g
    unfold build_response_hdr
    rw [be_encode_two, be_encode_two, be_encode_four, Nat.mod_eq_of_lt hext]
    rfl
  have hlen : ((r.drop 16).take 8).length = 8 := by
    unfold HEADER_SIZE at hr
    rw [List.length_take, List.length_drop]
    omega
  have hcas : be_encode 8 (decode_header r).cas = (r.drop 16).take 8 := by
    have := be_encode_decode ((r.drop 16).take 8)
      (fun b hm => hb b (List.mem_of_mem_drop (List.mem_of_mem_take hm)))
    rw [hlen] at this
    exact this
  have hopq := decode_header_opaque_length r hr
  refine ⟨?_, ?_, ?_, ?_, ?_⟩
  · rw [hlay h, be_encode_eight]
  · rw [hlay h]
    simp [hop, be_encode_length]
  · rw [hlay]
    rfl
  · rw [hlay, hcas]
    obtain ⟨a, b, c, d, habcd⟩ := list_length_four hopq
    have : (decode_header r).opaque_ = (r.drop 12).take 4 := rfl
    rw [← this, habcd]
    rfl
  · rw [hlay, hcas]
    obtain ⟨a, b, c, d, habcd⟩ := list_length_four hopq
    rw [habcd]
    rfl

/-- Witness of C21: the response header for the header decoded from a GET
request with the CAS 999 and the opaque bytes 1, 2, 3, 4. -/
theorem response_header_layout_witness :
    build_response_hdr (decode_header (get_request [107] 999 [1, 2, 3, 4])) 0 9 1 0 =
      [0x81, 0, 0, 0, 0, 0, 0, 1, 0, 0, 0, 9, 1, 2, 3, 4, 0, 0, 0, 0, 0, 0, 3, 231] :=
  (response_header_layout (decode_header (get_request [107] 999 [1, 2, 3, 4])) 0 9 1 0
    (get_request [107] 999 [1, 2, 3, 4]) (by decide) (by decide) (by decide) (by decide)).1

/-! ## C22 to C25: the handlers -/

/-- A complete packet whose header passed validation holds its header and its
extras, which is what the constructor of `value` asserts. -/
theorem valid_packet_holds_extras {s : connection}
    (hvalid : validate_header s.header_ = PROTOCOL_BINARY_RESPONSE_SUCCESS)
    (hlen : s.request_.length = s.header_.bodylen + HEADER_SIZE) :
    s.header_.extlen + HEADER_SIZE ≤ s.request_.length := by
  rw [hlen]
  unfold validate_header at hvalid
  simp only [PROTOCOL_BINARY_RESPONSE_SUCCESS, PROTOCOL_BINARY_RESPONSE_E2BIG,
    PROTOCOL_BINARY_RESPONSE_EINVAL, PROTOCOL_BINARY_RESPONSE_UNKNOWN_COMMAND,
    PACKET_EXTRAS_SIZE] at hvalid
  split_ifs at hvalid <;> simp_all
  omega

theorem build_success_hdr (h : protocol_binary_request_header) :
    build_response_hdr h 0 0 0 0 =
      [0x81, h.opcode, 0, 0, 0, 0, 0, 0, 0, 0, 0, 0] ++ h.opaque_ ++ be_encode 8 h.cas := by
  simp [build_response_hdr, be_encode, PROTOCOL_BINARY_RES, PROTOCOL_BINARY_RAW_BYTES]

/-- The error response of `write_error` on a socket with whole writes, byte by byte. -/
theorem write_error_bytes (s : connection) (err : Nat) (str : List Nat)
    (herr : errstr err = some str) (hsock : s.fd_.whole) (hn : str.length < 256)
    (he : err < 256) :
    s.write_error err = some
      { s with
        request_ := []
        header_ := zero_header
        fd_ := { s.fd_ with written := s.fd_.written ++
          [[0x81, s.header_.opcode, 0, 0, 0, 0, 0, err, 0, 0, 0, str.length] ++ s.header_.opaque_
            ++ be_encode 8 s.header_.cas ++ str] } } := by
  rw [write_error_ok s err str herr hsock, build_error_hdr s.header_ str.length err hn he]

/-- The method `handle_set` when the cache took the entry. -/
theorem handle_set_stored (s : connection) {c1 : cache}
    (hlen : s.header_.extlen + HEADER_SIZE ≤ s.request_.length) (hsock : s.fd_.whole)
    (hres : (if s.header_.cas ≠ 0 then s.c_.cas (value.ctor s.request_ s.header_) s.header_.cas
      else (true, s.c_.set (value.ctor s.request_ s.header_))) = (true, c1)) :
    s.handle_set = some (true,
      { s with
        request_ := []
        c_ := c1
        fd_ := { s.fd_ with written := s.fd_.written ++
          [[0x81, s.header_.opcode, 0, 0, 0, 0, 0, 0, 0, 0, 0, 0] ++ s.header_.opaque_
            ++ be_encode 8 s.header_.cas] } }) := by
  unfold connection.handle_set
  rw [if_neg (by omega)]
  simp only [hres]
  have hw := write_response_ok ({ s with request_ := [], c_ := c1 } : connection)
    (build_response_hdr s.header_ 0 0 0 0) (build_response_hdr_ne_nil s.header_ 0 0 0 0) hsock
  rw [hw, build_success_hdr]
  rfl

/-- The method `handle_set` when `cas` refused the entry. -/
theorem handle_set_refused (s : connection) {c1 : cache}
    (hlen : s.header_.extlen + HEADER_SIZE ≤ s.request_.length) (hsock : s.fd_.whole)
    (hres : (if s.header_.cas ≠ 0 then s.c_.cas (value.ctor s.request_ s.header_) s.header_.cas
      else (true, s.c_.set (value.ctor s.request_ s.header_))) = (false, c1)) :
    s.handle_set = some (true,
      { s with
        request_ := []
        header_ := zero_header
        c_ := c1
        fd_ := { s.fd_ with written := s.fd_.written ++
          [[0x81, s.header_.opcode, 0, 0, 0, 0, 0, 2, 0, 0, 0, 20] ++ s.header_.opaque_
            ++ be_encode 8 s.header_.cas ++ "Entry exists for key".toList.map Char.toNat] } }) := by
  unfold connection.handle_set
  rw [if_neg (by omega)]
  simp only [hres]
  have hw := write_error_bytes ({ s with request_ := [], c_ := c1 } : connection)
    PROTOCOL_BINARY_RESPONSE_KEY_EEXISTS ("Entry exists for key".toList.map Char.toNat) rfl hsock
    (by decide) (by decide)
  rw [hw]
  rfl

/-- The method `handle_delete` when `remove` returned true. -/
theorem handle_delete_removed (s : connection) {c1 : cache}
    (hlen : s.header_.extlen + HEADER_SIZE ≤ s.request_.length) (hsock : s.fd_.whole)
    (hres : s.c_.remove (value.ctor s.request_ s.header_) s.header_.cas = (true, c1)) :
    s.handle_delete = some (true,
      { s with
        request_ := []
        c_ := c1
        fd_ := { s.fd_ with written := s.fd_.written ++
          [[0x81, s.header_.opcode, 0, 0, 0, 0, 0, 0, 0, 0, 0, 0] ++ s.header_.opaque_
            ++ be_encode 8 s.header_.cas] } }) := by
  unfold connection.handle_delete
  rw [if_neg (by omega)]
  simp only [hres]
  have hw := write_response_ok ({ s with request_ := [], c_ := c1 } : connection)
    (build_response_hdr s.header_ 0 0 0 0) (build_response_hdr_ne_nil s.header_ 0 0 0 0) hsock
  rw [hw, build_success_hdr]
  rfl

/-- The method `handle_delete` when `remove` returned false. -/
theorem handle_delete_refused (s : connection) {c1 : cache}
    (hlen : s.header_.extlen + HEADER_SIZE ≤ s.request_.length) (hsock : s.fd_.whole)
    (hres : s.c_.remove (value.ctor s.request_ s.header_) s.header_.cas = (false, c1)) :
    s.handle_delete = some (true,
      { s with
        request_ := []
        header_ := zero_header
        c_ := c1
        fd_ := { s.fd_ with written := s.fd_.written ++
          [[0x81, s.header_.opcode, 0, 0, 0, 0, 0, 2, 0, 0, 0, 20] ++ s.header_.opaque_
            ++ be_encode 8 s.header_.cas ++ "Entry exists for key".toList.map Char.toNat] } }) := by
  unfold connection.handle_delete
  rw [if_neg (by omega)]
  simp only [hres]
  have hw := write_error_bytes ({ s with request_ := [], c_ := c1 } : connection)
    PROTOCOL_BINARY_RESPONSE_KEY_EEXISTS ("Entry exists for key".toList.map Char.toNat) rfl hsock
    (by decide) (by decide)
  rw [hw]
  rfl

/-- The method `handle_get` on a miss. -/
theorem handle_get_miss (s : connection)
    (hlen : s.header_.extlen + HEADER_SIZE ≤ s.request_.length) (hsock : s.fd_.whole)
    (hmiss : lookup_find s.c_.lookup_ (value.ctor s.request_ s.header_).get_key = none) :
    s.handle_get = some (true,
      { s with
        request_ := []
        header_ := zero_header
        fd_ := { s.fd_ with written := s.fd_.written ++
          [[0x81, s.header_.opcode, 0, 0, 0, 0, 0, 1, 0, 0, 0, 9] ++ s.header_.opaque_
            ++ be_encode 8 s.header_.cas ++ "Not found".toList.map Char.toNat] } }) := by
  unfold connection.handle_get
  rw [if_neg (by omega)]
  simp only [get_miss hmiss]
  have hw := write_error_bytes ({ s with request_ := [] } : connection)
    PROTOCOL_BINARY_RESPONSE_KEY_ENOENT ("Not found".toList.map Char.toNat) rfl hsock
    (by decide) (by decide)
  rw [hw]
  rfl


theorem remove_false_lookup {c : cache} (h : c.consistent) (v : value) (t : Nat)
    (hr : (c.remove v t).1 = false) : (c.remove v t).2.lookup_ = c.lookup_ := by
  cases hf : lookup_find c.lookup_ v.get_key with
  | none =>
    have heq : c.remove v t = c.delete_inl v.get_key :=
      remove_eq_delete h (by intro e he; rw [hf] at he; cases he)
    rw [heq]
    unfold cache.delete_inl
    rw [hf]
  | some e =>
    by_cases hok : t = 0 ∨ e.2.header_.cas = t
    · have heq : c.remove v t = c.delete_inl v.get_key :=
        remove_eq_delete h (by intro f hf2; rw [hf] at hf2; cases hf2; exact hok)
      rw [heq, delete_inl_fst, hf] at hr
      simp at hr
    · rw [remove_mismatch h hf (by omega) (fun h => hok (Or.inr h)), get_inl_lookup]

/-- C22: `handle_set` on a consistent cache and a socket with whole writes, for a buffered
packet that holds its header and extras (as every complete valid SET packet
does), with `k` the key and `c` the CAS of the packet. If `c > 0` and the entry
stored for `k` has another CAS, the handler returns true, the response written
has status 0x0002 (KEY_EEXISTS) and the diagnostic as body, the stored entries
are unchanged and a get of `k` yields the old entry. Otherwise (`c = 0`, or no
entry for `k`, or the stored CAS is `c`) the handler returns true, the response
written is the 24-byte header with status 0 and body length 0, the cache is the
one `set` leaves, and a get of `k` yields the packet, the header (hence the CAS
`c`) and the value bytes of the request. -/
theorem handle_set_semantics (s : connection) (hc : s.c_.consistent)
    (hlen : s.header_.extlen + HEADER_SIZE ≤ s.request_.length) (hsock : s.fd_.whole) :
    (∀ e, lookup_find s.c_.lookup_ (value.ctor s.request_ s.header_).get_key = some e →
      0 < s.header_.cas → e.2.header_.cas ≠ s.header_.cas →
      ∃ s1, s.handle_set = some (true, s1) ∧
        s1.fd_.written = s.fd_.written ++
          [[0x81, s.header_.opcode, 0, 0, 0, 0, 0, 2, 0, 0, 0, 20] ++ s.header_.opaque_
            ++ be_encode 8 s.header_.cas ++ "Entry exists for key".toList.map Char.toNat] ∧
        s1.c_.lookup_ = s.c_.lookup_ ∧
        (s1.c_.get (value.ctor s.request_ s.header_).get_key).1 = some e.2) ∧
    ((s.header_.cas = 0 ∨
        ∀ e, lookup_find s.c_.lookup_ (value.ctor s.request_ s.header_).get_key = some e →
          e.2.header_.cas = s.header_.cas) →
      ∃ s1 r, s.handle_set = some (true, s1) ∧
        s1.fd_.written = s.fd_.written ++
          [[0x81, s.header_.opcode, 0, 0, 0, 0, 0, 0, 0, 0, 0, 0] ++ s.header_.opaque_
            ++ be_encode 8 s.header_.cas] ∧
        s1.c_ = s.c_.set (value.ctor s.request_ s.header_) ∧
        (s1.c_.get (value.ctor s.request_ s.header_).get_key).1 = some r ∧
        r.data_str_ = s.request_ ∧ r.header_ = s.header_ ∧ r.header_.cas = s.header_.cas ∧
        r.get_value = (value.ctor s.request_ s.header_).get_value) := by
  constructor
  · intro e hf hpos hne
    have hres : (if s.header_.cas ≠ 0 then
          s.c_.cas (value.ctor s.request_ s.header_) s.header_.cas
        else (true, s.c_.set (value.ctor s.request_ s.header_))) =
        (false, (s.c_.get_inl (value.ctor s.request_ s.header_).get_key).2) := by
      rw [if_pos (by omega), cas_mismatch hc hf hpos hne]
    refine ⟨_, handle_set_refused s hlen hsock hres, rfl, get_inl_lookup _ _, ?_⟩
    show ((s.c_.get_inl (value.ctor s.request_ s.header_).get_key).2.get _).1 = some e.2
    unfold cache.get
    rw [get_inl_fst, get_inl_lookup, hf]
    rfl
  · intro hok
    have hres : (if s.header_.cas ≠ 0 then
          s.c_.cas (value.ctor s.request_ s.header_) s.header_.cas
        else (true, s.c_.set (value.ctor s.request_ s.header_))) =
        (true, s.c_.set (value.ctor s.request_ s.header_)) := by
      split
      · rename_i hcas
        cases hf : lookup_find s.c_.lookup_ (value.ctor s.request_ s.header_).get_key with
        | none => exact cas_absent _ hf
        | some e =>
          rcases hok with h0 | h1
          · exact absurd h0 hcas
          · rw [← h1 e hf]
            exact cas_match hc hf
      · rfl
    obtain ⟨r, hr, hp⟩ := get_after_set hc (value.ctor s.request_ s.header_) rfl
    obtain ⟨hrd, hrh⟩ := value.packet_eq hp
    exact ⟨_, r, handle_set_stored s hlen hsock hres, rfl, rfl, hr, hrd, hrh, by rw [hrh]; rfl,
      value.get_value_congr hp⟩

/-- Witness of C22: a SET request without CAS for the key "k" and the value "v"
on a fresh connection to the empty default cache. -/
theorem handle_set_semantics_witness :
    ((connection.ctor (cache.ctor 0) 0).with_request (set_request [107] [118] 0 [0, 0, 0, 0]
      [0, 0, 0, 0, 0, 0, 0, 0])).c_.consistent ∧
    ∃ s1 r, ((connection.ctor (cache.ctor 0) 0).with_request (set_request [107] [118] 0
        [0, 0, 0, 0] [0, 0, 0, 0, 0, 0, 0, 0])).handle_set = some (true, s1) ∧
      s1.fd_.written = [[0x81, 1, 0, 0, 0, 0, 0, 0, 0, 0, 0, 0, 0, 0, 0, 0, 0, 0, 0, 0, 0, 0, 0, 0]] ∧
      (s1.c_.get (set_entry [107] [118] 0).get_key).1 = some r ∧ r.get_value = [118] :=
  ⟨consistent_ctor 0, by
    obtain ⟨s1, r, h1, h2, -, h4, -, -, -, h8⟩ :=
      (handle_set_semantics ((connection.ctor (cache.ctor 0) 0).with_request
        (set_request [107] [118] 0 [0, 0, 0, 0] [0, 0, 0, 0, 0, 0, 0, 0])) (consistent_ctor 0)
        (by decide) ⟨rfl, rfl⟩).2 (Or.inl (by decide))
    exact ⟨s1, r, h1, h2, h4, h8⟩⟩

/-- C23: `handle_get` on a socket with whole writes, for a buffered packet that holds its
header and extras (as every complete valid GET packet does) and whose key is not
stored: the handler returns true, the response written has status 0x0001
(KEY_ENOENT) and the diagnostic as body, and the cache (mapping, LRU list, size)
is the one before the call. -/
theorem handle_get_miss_response (s : connection)
    (hlen : s.header_.extlen + HEADER_SIZE ≤ s.request_.length) (hsock : s.fd_.whole)
    (hmiss : lookup_find s.c_.lookup_ (value.ctor s.request_ s.header_).get_key = none) :
    ∃ s1, s.handle_get = some (true, s1) ∧
      s1.fd_.written = s.fd_.written ++
        [[0x81, s.header_.opcode, 0, 0, 0, 0, 0, 1, 0, 0, 0, 9] ++ s.header_.opaque_
          ++ be_encode 8 s.header_.cas ++ "Not found".toList.map Char.toNat] ∧
      s1.c_ = s.c_ ∧ s1.c_.lookup_ = s.c_.lookup_ ∧ s1.c_.lru_ = s.c_.lru_ ∧
      s1.c_.size_ = s.c_.size_ :=
  ⟨_, handle_get_miss s hlen hsock hmiss, rfl, rfl, rfl, rfl, rfl⟩

/-- Witness of C23: a GET request for the key `[3]` on a connection to the cache
that holds the keys `[1]` and `[2]`. -/
theorem handle_get_miss_response_witness :
    ∃ s1, ((connection.ctor cache_two_keys 0).with_request
        (get_request [3] 0 [0, 0, 0, 0])).handle_get = some (true, s1) ∧
      s1.fd_.written = [[0x81, 0, 0, 0, 0, 0, 0, 1, 0, 0, 0, 9, 0, 0, 0, 0, 0, 0, 0, 0, 0, 0, 0, 0,
        78, 111, 116, 32, 102, 111, 117, 110, 100]] ∧
      s1.c_ = cache_two_keys := by
  obtain ⟨s1, h1, h2, h3, -⟩ := handle_get_miss_response
    ((connection.ctor cache_two_keys 0).with_request (get_request [3] 0 [0, 0, 0, 0]))
    (by decide) ⟨rfl, rfl⟩ (by decide)
  exact ⟨s1, h1, h2, h3⟩


theorem remove_true_find_none {c : cache} (h : c.consistent) (v : value) (t : Nat)
    (hr : (c.remove v t).1 = true) : lookup_find (c.remove v t).2.lookup_ v.get_key = none := by
  cases hf : lookup_find c.lookup_ v.get_key with
  | none =>
    have heq : c.remove v t = c.delete_inl v.get_key :=
      remove_eq_delete h (by intro e he; rw [hf] at he; cases he)
    rw [heq]
    exact delete_inl_find_none h _
  | some e =>
    by_cases hok : t = 0 ∨ e.2.header_.cas = t
    · have heq : c.remove v t = c.delete_inl v.get_key :=
        remove_eq_delete h (by intro f hf2; rw [hf] at hf2; cases hf2; exact hok)
      rw [heq]
      exact delete_inl_find_none h _
    · rw [remove_mismatch h hf (by omega) (fun h => hok (Or.inr h))] at hr
      cases hr

/-- C24: `handle_delete` on a consistent cache and a socket with whole writes, for a
buffered packet that holds its header and extras (as every complete valid DELETE
packet does), with `k` the key and `c` the CAS of the packet. When
`remove(k, c)` returns false the handler returns true, the response written has
status 0x0002 (KEY_EEXISTS) and the stored entries are unchanged; when it returns
true the handler returns true, the response written is the 24-byte header with
status 0 and body length 0, no entry is stored for `k`, and `handle_get` for a
packet with the key `k` on a connection to that cache answers with status 0x0001
(KEY_ENOENT). The two statuses differ, so KEY_EEXISTS is written exactly when
`remove` returns false. -/
theorem handle_delete_semantics (s : connection) (hc : s.c_.consistent)
    (hlen : s.header_.extlen + HEADER_SIZE ≤ s.request_.length) (hsock : s.fd_.whole) :
    ((s.c_.remove (value.ctor s.request_ s.header_) s.header_.cas).1 = false →
      ∃ s1, s.handle_delete = some (true, s1) ∧
        s1.fd_.written = s.fd_.written ++
          [[0x81, s.header_.opcode, 0, 0, 0, 0, 0, 2, 0, 0, 0, 20] ++ s.header_.opaque_
            ++ be_encode 8 s.header_.cas ++ "Entry exists for key".toList.map Char.toNat] ∧
        s1.c_.lookup_ = s.c_.lookup_) ∧
    ((s.c_.remove (value.ctor s.request_ s.header_) s.header_.cas).1 = true →
      ∃ s1, s.handle_delete = some (true, s1) ∧
        s1.fd_.written = s.fd_.written ++
          [[0x81, s.header_.opcode, 0, 0, 0, 0, 0, 0, 0, 0, 0, 0] ++ s.header_.opaque_
            ++ be_encode 8 s.header_.cas] ∧
        lookup_find s1.c_.lookup_ (value.ctor s.request_ s.header_).get_key = none ∧
        ∀ g : connection, g.c_ = s1.c_ → g.fd_.whole →
          g.header_.extlen + HEADER_SIZE ≤ g.request_.length →
          (value.ctor g.request_ g.header_).get_key.id =
            (value.ctor s.request_ s.header_).get_key.id →
          ∃ g1, g.handle_get = some (true, g1) ∧
            g1.fd_.written = g.fd_.written ++
              [[0x81, g.header_.opcode, 0, 0, 0, 0, 0, 1, 0, 0, 0, 9] ++ g.header_.opaque_
                ++ be_encode 8 g.header_.cas ++ "Not found".toList.map Char.toNat]) := by
  constructor
  · intro hr
    have hres : s.c_.remove (value.ctor s.request_ s.header_) s.header_.cas =
        (false, (s.c_.remove (value.ctor s.request_ s.header_) s.header_.cas).2) := by
      rw [← hr]
    exact ⟨_, handle_delete_refused s hlen hsock hres, rfl, remove_false_lookup hc _ _ hr⟩
  · intro hr
    have hres : s.c_.remove (value.ctor s.request_ s.header_) s.header_.cas =
        (true, (s.c_.remove (value.ctor s.request_ s.header_) s.header_.cas).2) := by
      rw [← hr]
    have hnone := remove_true_find_none hc _ _ hr
    refine ⟨_, handle_delete_removed s hlen hsock hres, rfl, hnone, ?_⟩
    intro g hg hgs hgl hid
    have hmiss : lookup_find g.c_.lookup_ (value.ctor g.request_ g.header_).get_key = none := by
      rw [hg, lookup_find_congr _ hid]
      exact hnone
    exact ⟨_, handle_get_miss g hgl hgs hmiss, rfl⟩

/-- Witness of C24: a DELETE request with the CAS 1000 for the key `[1]`, which
is stored with the CAS 999. -/
theorem handle_delete_semantics_witness :
    ((connection.ctor cache_two_keys 0).with_request
      (delete_request [1] 1000 [0, 0, 0, 0])).c_.consistent ∧
    ∃ s1, ((connection.ctor cache_two_keys 0).with_request
        (delete_request [1] 1000 [0, 0, 0, 0])).handle_delete = some (true, s1) ∧
      s1.fd_.written = [[0x81, 4, 0, 0, 0, 0, 0, 2, 0, 0, 0, 20, 0, 0, 0, 0, 0, 0, 0, 0, 0, 0, 3,
        232] ++ "Entry exists for key".toList.map Char.toNat] ∧
      s1.c_.lookup_ = cache_two_keys.lookup_ :=
  ⟨set_inl_consistent (set_inl_consistent (consistent_ctor 0) _) _,
    (handle_delete_semantics ((connection.ctor cache_two_keys 0).with_request
      (delete_request [1] 1000 [0, 0, 0, 0]))
      (set_inl_consistent (set_inl_consistent (consistent_ctor 0) _) _) (by decide) ⟨rfl, rfl⟩).1
      (by decide)⟩

/-- C25: on a socket whose writes fail, `handle_get` returns true on a hit and
on a miss, and `handle_set` and `handle_delete` return true when the response
lost is the KEY_EEXISTS error; only the loss of the success response of
`handle_set` and `handle_delete` makes the handler return false. Nothing is
written in any of these calls. -/
theorem handlers_on_broken_socket :
    (((connection.broken cache_two_keys).with_request
      (get_request [1] 0 [0, 0, 0, 0])).handle_get).map (fun p => (p.1, p.2.fd_.written))
      = some (true, []) ∧
    (((connection.broken cache_two_keys).with_request
      (get_request [3] 0 [0, 0, 0, 0])).handle_get).map (fun p => (p.1, p.2.fd_.written))
      = some (true, []) ∧
    (((connection.broken cache_two_keys).with_request
      (set_request [1] [8] 1000 [0, 0, 0, 0] [0, 0, 0, 0, 0, 0, 0, 0])).handle_set).map
        (fun p => (p.1, p.2.fd_.written)) = some (true, []) ∧
    (((connection.broken cache_two_keys).with_request
      (delete_request [1] 1000 [0, 0, 0, 0])).handle_delete).map
        (fun p => (p.1, p.2.fd_.written)) = some (true, []) ∧
    (((connection.broken cache_two_keys).with_request
      (set_request [1] [8] 0 [0, 0, 0, 0] [0, 0, 0, 0, 0, 0, 0, 0])).handle_set).map
        (fun p => (p.1, p.2.fd_.written)) = some (false, []) ∧
    (((connection.broken cache_two_keys).with_request
      (delete_request [1] 999 [0, 0, 0, 0])).handle_delete).map
        (fun p => (p.1, p.2.fd_.written)) = some (false, []) := by
  refine ⟨by decide, by decide, by decide, by decide, by decide, by decide⟩

/-! ## C26: round-robin selection -/

theorem to_int_of_lt {n : Nat} (h : n < 2 ^ 31) : to_int n = (n : Int) := by
  unfold to_int
  have h1 : n % 2 ^ 32 = n := Nat.mod_eq_of_lt (by omega)
  rw [h1, if_pos h]

theorem ctor_length (N : Nat) : (IOPoolExecutor.ctor (N : Int)).executors_.length = N := by
  simp [IOPoolExecutor.ctor, IOPoolExecutor.init]

theorem pick_eq {p : IOPoolExecutor} {N : Nat} (hlen : p.executors_.length = N) (hN : 1 ≤ N)
    (hN31 : N < 2 ^ 31) :
    p.pick = some (((p.next_ % N : Nat) : Int), { p with next_ := (p.next_ + 1) % 2 ^ 64 }) := by
  have hlt := Nat.mod_lt p.next_ (show 0 < N by omega)
  unfold IOPoolExecutor.pick
  rw [hlen, if_neg (by omega), to_int_of_lt (by omega)]

/-- The method `add` with the index -1 runs `pick()` and pushes the task on the
queue of the executor picked. -/
theorem add_picks {p : IOPoolExecutor} {N : Nat} (hlen : p.executors_.length = N) (hN : 1 ≤ N)
    (hN31 : N < 2 ^ 31) (t : task) (hs : t.s_ ≠ 0) (ht : t.type_ ≠ task_type.NOOP) :
    ∃ e, p.executors_.get? (p.next_ % N) = some e ∧
      p.add t (-1) = some { executors_ := p.executors_.set (p.next_ % N) (e.add t)
                            next_ := (p.next_ + 1) % 2 ^ 64 } := by
  have hlt := Nat.mod_lt p.next_ (show 0 < N by omega)
  cases hget : p.executors_.get? (p.next_ % N) with
  | none =>
    rw [List.get?_eq_none] at hget
    omega
  | some e =>
    refine ⟨e, rfl, ?_⟩
    unfold IOPoolExecutor.add
    rw [if_neg hs, if_neg ht, if_pos rfl, pick_eq hlen hN hN31]
    simp only [Int.toNat_ofNat, hget]
    rw [if_neg (by omega)]

theorem call_spec {p p1 : IOPoolExecutor} (op : pool_call) (hn : p.next_ < 2 ^ 64)
    (h : p.call op = some p1) :
    p1.executors_.length = p.executors_.length ∧
    p1.next_ = (p.next_ + pick_count [op]) % 2 ^ 64 := by
  cases op with
  | pick =>
    simp only [IOPoolExecutor.call, IOPoolExecutor.pick] at h
    split_ifs at h
    · cases h
    · have h2 : ({ p with next_ := (p.next_ + 1) % 2 ^ 64 } : IOPoolExecutor) = p1 :=
        Option.some.inj h
      subst h2
      exact ⟨rfl, rfl⟩
  | add t index =>
    simp only [IOPoolExecutor.call, IOPoolExecutor.add] at h
    split_ifs at h with h1 h2 h3
    · simp only [IOPoolExecutor.pick] at h
      split_ifs at h with h4
      simp only at h
      split at h
      · cases h
      · split_ifs at h
        simp only [Option.some.injEq] at h
        subst h
        simp [pick_count, h3]
    · simp only at h
      split at h
      · cases h
      · split_ifs at h
        simp only [Option.some.injEq] at h
        subst h
        simp only [pick_count, h3, if_false, Nat.add_zero]
        exact ⟨by simp, (Nat.mod_eq_of_lt hn).symm⟩

theorem pick_count_cons (op : pool_call) (ops : List pool_call) :
    pick_count (op :: ops) = pick_count [op] + pick_count ops := by
  cases op with
  | pick => simp [pick_count]; omega
  | add t index =>
    simp only [pick_count]
    split_ifs <;> omega

theorem calls_spec : ∀ (ops : List pool_call) (p p1 : IOPoolExecutor), p.next_ < 2 ^ 64 →
    p.calls ops = some p1 →
    p1.executors_.length = p.executors_.length ∧ p1.next_ = (p.next_ + pick_count ops) % 2 ^ 64
  | [], p, p1, hn, h => by
    simp only [IOPoolExecutor.calls, Option.some.injEq] at h
    subst h
    exact ⟨rfl, (Nat.mod_eq_of_lt hn).symm⟩
  | op :: ops, p, p1, hn, h => by
    simp only [IOPoolExecutor.calls] at h
    cases hc : p.call op with
    | none => rw [hc] at h; cases h
    | some p2 =>
      rw [hc] at h
      obtain ⟨h1, h2⟩ := call_spec op hn hc
      have hn2 : p2.next_ < 2 ^ 64 := by
        rw [h2]
        exact Nat.mod_lt _ (by norm_num)
      obtain ⟨h3, h4⟩ := calls_spec ops p2 p1 hn2 h
      refine ⟨h3.trans h1, ?_⟩
      rw [h4, h2, Nat.mod_add_mod, Nat.add_assoc, ← pick_count_cons]

theorem picks_spec {N : Nat} (hN : 1 ≤ N) (hN31 : N < 2 ^ 31) :
    ∀ (n : Nat) (p : IOPoolExecutor), p.executors_.length = N → p.next_ < 2 ^ 64 →
      p.next_ + n ≤ 2 ^ 64 →
      p.picks n = some ((List.range n).map (fun i => (((p.next_ + i) % N : Nat) : Int)),
        { p with next_ := (p.next_ + n) % 2 ^ 64 })
  | 0, p, _, hlt, _ => by
    have h0 : (p.next_ + 0) % 2 ^ 64 = p.next_ := Nat.mod_eq_of_lt hlt
    rw [h0]
    rfl
  | n + 1, p, hlen, hlt, hle => by
    rw [IOPoolExecutor.picks, pick_eq hlen hN hN31]
    simp only
    by_cases hn0 : n = 0
    · subst hn0
      rfl
    · have h1 : (p.next_ + 1) % 2 ^ 64 = p.next_ + 1 := Nat.mod_eq_of_lt (by omega)
      rw [picks_spec hN hN31 n ({ p with next_ := (p.next_ + 1) % 2 ^ 64 } : IOPoolExecutor) hlen
        (by show (p.next_ + 1) % 2 ^ 64 < 2 ^ 64; omega)
        (by show (p.next_ + 1) % 2 ^ 64 + n ≤ 2 ^ 64; omega)]
      simp only [Option.map_some', h1]
      rw [List.range_succ_eq_map, List.map_cons, List.map_map]
      have hf : (fun i => (((p.next_ + 1 + i) % N : Nat) : Int)) =
          (fun i => (((p.next_ + i) % N : Nat) : Int)) ∘ Nat.succ := by
        funext i
        simp only [Function.comp, Nat.succ_eq_add_one]
        rw [Nat.add_assoc, Nat.add_comm 1 i]
      rw [hf, Nat.add_assoc, Nat.add_comm 1 n]
      rfl

/-- Every index below `N` occurs once among `N` successive residues. -/
theorem residues_perm (N j : Nat) :
    ((List.range N).map (fun i => (j + i) % N)).Perm (List.range N) := by
  rcases Nat.eq_zero_or_pos N with h0 | hpos
  · subst h0
    exact List.Perm.refl _
  · have hnd : ((List.range N).map (fun i => (j + i) % N)).Nodup := by
      apply List.Nodup.map_on _ (List.nodup_range N)
      intro x hx y hy hxy
      rw [List.mem_range] at hx hy
      have h1 : x ≡ y [MOD N] := Nat.ModEq.add_left_cancel' j hxy
      have h2 : x % N = y % N := h1
      rwa [Nat.mod_eq_of_lt hx, Nat.mod_eq_of_lt hy] at h2
    have hsub : (List.range N).map (fun i => (j + i) % N) ⊆ List.range N := by
      intro x hx
      obtain ⟨i, -, rfl⟩ := List.mem_map.1 hx
      exact List.mem_range.2 (Nat.mod_lt _ hpos)
    exact (List.subperm_of_subset hnd hsub).perm_of_length_le (by simp)

/-- C26: for a pool constructed with `N` executors, `1 <= N < 2^31`, that has
gone through any sequence of calls of `pick()` and `add` in which `pick()` ran
`j` times (once for each `pick()` and once for each `add` with the index -1):
the counter is `j mod 2^64` and the pool still has `N` executors; when
`j < 2^64`, the range of the counter, the next `pick()` returns `j mod N`, and an
`add` with the index -1 pushes its task on the queue of the executor `j mod N`
and advances the counter like `pick()`; when `j + N <= 2^64` the next `N` calls
of `pick()` return `(j + i) mod N` for `i = 0 .. N-1`, which is every index below
`N` once; and on a pool initialised with 8 executors the first 8 calls return
0, 1, ..., 7 in this order. -/
theorem round_robin (N : Nat) (ops : List pool_call) (p : IOPoolExecutor) (hN : 1 ≤ N)
    (hN31 : N < 2 ^ 31) (hrun : (IOPoolExecutor.ctor (N : Int)).calls ops = some p) :
    (p.next_ = pick_count ops % 2 ^ 64 ∧ p.executors_.length = N) ∧
    (pick_count ops < 2 ^ 64 →
      p.pick = some (((pick_count ops % N : Nat) : Int),
        { p with next_ := (pick_count ops + 1) % 2 ^ 64 }) ∧
      ∀ t : task, t.s_ ≠ 0 → t.type_ ≠ task_type.NOOP →
        ∃ e, p.executors_.get? (pick_count ops % N) = some e ∧
          p.add t (-1) = some { executors_ := p.executors_.set (pick_count ops % N) (e.add t)
                                next_ := (pick_count ops + 1) % 2 ^ 64 }) ∧
    (pick_count ops + N ≤ 2 ^ 64 →
      ∃ l p1, p.picks N = some (l, p1) ∧
        l = (List.range N).map (fun i => (((pick_count ops + i) % N : Nat) : Int)) ∧
        l.Perm ((List.range N).map Int.ofNat)) ∧
    (((IOPoolExecutor.ctor 0).init 8).picks 8).map (fun r => r.1)
      = some [0, 1, 2, 3, 4, 5, 6, 7] := by
  obtain ⟨hlen, hnext⟩ := calls_spec ops (IOPoolExecutor.ctor (N : Int)) p
    (by simp [IOPoolExecutor.ctor, IOPoolExecutor.init]) hrun
  rw [ctor_length] at hlen
  have hnext2 : p.next_ = pick_count ops % 2 ^ 64 := by
    rw [hnext]
    simp [IOPoolExecutor.ctor, IOPoolExecutor.init]
  refine ⟨⟨hnext2, hlen⟩, ?_, ?_, by decide⟩
  · intro hj
    have hnj : p.next_ = pick_count ops := by rw [hnext2, Nat.mod_eq_of_lt hj]
    constructor
    · rw [pick_eq hlen hN hN31, hnj]
    · intro t hs ht
      have := add_picks hlen hN hN31 t hs ht
      rw [hnj] at this
      exact this
  · intro hj
    have hnj : p.next_ = pick_count ops := by rw [hnext2, Nat.mod_eq_of_lt (by omega)]
    refine ⟨_, _, picks_spec hN hN31 N p hlen (by omega) (by omega), by rw [hnj], ?_⟩
    have hp := (residues_perm N p.next_).map Int.ofNat
    rw [List.map_map] at hp
    exact hp

/-- Witness of C26: a pool of 3 executors after one `pick()` and one `add` with
the index -1; the next `pick()` returns 2. -/
theorem round_robin_witness :
    (IOPoolExecutor.ctor 3).calls [pool_call.pick,
      pool_call.add { type_ := task_type.NEW, s_ := 1, packet_ := [] } (-1)] =
      some { executors_ := [executor.ctor,
          { q_ := [{ type_ := task_type.NEW, s_ := 1, packet_ := [] }], active_connections_ := []
            heap_ := [] }, executor.ctor], next_ := 2 } ∧
    (IOPoolExecutor.pick { executors_ := [executor.ctor,
        { q_ := [{ type_ := task_type.NEW, s_ := 1, packet_ := [] }], active_connections_ := []
          heap_ := [] }, executor.ctor], next_ := 2 }).map (fun r => r.1) = some 2 :=
  ⟨by decide, by
    rw [((round_robin 3 [pool_call.pick,
      pool_call.add { type_ := task_type.NEW, s_ := 1, packet_ := [] } (-1)] _ (by decide)
      (by decide) (by decide)).2.1 (by decide)).1]
    rfl⟩

/-! ## C27: the option `-m` -/

/-- C27: `parse` accepts `-m 1` and `-m 64` and `main` then constructs the cache
with a capacity of 1 byte and of 64 bytes, not of 1 MiB and 64 MiB: the number
given is handed to the constructor as it is. Without `-m` the capacity is
64 MiB. -/
theorem memory_option_in_bytes :
    (parse ["memcache", "-m", "1"] options.ctor).1 = true ∧
    (main_cache ["memcache", "-m", "1"]).capacity_ = 1 ∧
    (main_cache ["memcache", "-m", "64"]).capacity_ = 64 ∧
    (main_cache ["memcache"]).capacity_ = 64 * 1048576 := by
  refine ⟨by decide, by decide, by decide, by decide⟩

/-! ## C28: clear and rehash -/

/-- C28: after `set` of key `[1]` with a one-byte value (34 bytes), `set` of key
`[1]` again with a 60-byte value (93 bytes) and `set` of key `[2]` with a
one-byte value (34 bytes), the tracked size is 68 while 127 bytes are resident;
`clear()` then deletes only the entry of key `[1]` and leaves one entry, one LRU
node and the tracked size `2^64 - 25`, and `rehash(100)` leaves the same entry
behind. -/
theorem clear_leaves_entry :
    ((cache.ctor 0).run [cache_op.set (set_entry [1] [7] 0),
      cache_op.set (set_entry [1] (List.replicate 60 7) 0),
      cache_op.set (set_entry [2] [7] 0)]).size_ = 68 ∧
    ((cache.ctor 0).run [cache_op.set (set_entry [1] [7] 0),
      cache_op.set (set_entry [1] (List.replicate 60 7) 0),
      cache_op.set (set_entry [2] [7] 0)]).clear.count = 1 ∧
    ((cache.ctor 0).run [cache_op.set (set_entry [1] [7] 0),
      cache_op.set (set_entry [1] (List.replicate 60 7) 0),
      cache_op.set (set_entry [2] [7] 0)]).clear.lru_.length = 1 ∧
    ((cache.ctor 0).run [cache_op.set (set_entry [1] [7] 0),
      cache_op.set (set_entry [1] (List.replicate 60 7) 0),
      cache_op.set (set_entry [2] [7] 0)]).clear.size_ = 2 ^ 64 - 25 ∧
    (((cache.ctor 0).run [cache_op.set (set_entry [1] [7] 0),
      cache_op.set (set_entry [1] (List.replicate 60 7) 0),
      cache_op.set (set_entry [2] [7] 0)]).rehash 100).count = 1 := by
  refine ⟨by decide, by decide, by decide, by decide, by decide⟩

/-! ## C30: the active connections of an executor -/

/-- C30: an executor is handed NEW for the connection at address 1, then a READ
with the byte 0x00, then CLOSE. The READ is rejected for its magic byte, so
`put_new_data` closes the connection; the assertion of `close_connection` then
fails for the CLOSE task, and so does the assertion of `put_new_data` when a
second READ follows instead. -/
theorem task_after_rejected_read_aborts :
    executor.process
      { q_ := [], active_connections_ := [], heap_ := [(1, connection.ctor (cache.ctor 0) 0)] }
      [{ type_ := task_type.NEW, s_ := 1, packet_ := [] },
        { type_ := task_type.READ, s_ := 1, packet_ := [0] }] =
      some { q_ := [], active_connections_ := [], heap_ := [] } ∧
    executor.process
      { q_ := [], active_connections_ := [], heap_ := [(1, connection.ctor (cache.ctor 0) 0)] }
      [{ type_ := task_type.NEW, s_ := 1, packet_ := [] },
        { type_ := task_type.READ, s_ := 1, packet_ := [0] },
        { type_ := task_type.CLOSE, s_ := 1, packet_ := [] }] = none ∧
    executor.process
      { q_ := [], active_connections_ := [], heap_ := [(1, connection.ctor (cache.ctor 0) 0)] }
      [{ type_ := task_type.NEW, s_ := 1, packet_ := [] },
        { type_ := task_type.READ, s_ := 1, packet_ := [0] },
        { type_ := task_type.READ, s_ := 1, packet_ := [0] }] = none := by
  refine ⟨by decide, by decide, by decide⟩

/-! ## C29: the entries that `set` evicts -/

theorem delete_inl_front_lookup {c : cache} (h : c.consistent) {n : lru_node}
    {rest : List lru_node} (hl : c.lru_ = n :: rest) :
    (c.delete_inl n.k).2.lookup_ = c.lookup_.filter (fun f => !decide (f.1.id = n.k.id)) := by
  have hn : n ∈ c.lru_ := by rw [hl]; exact List.mem_cons_self _ _
  obtain ⟨e, he, -, hek⟩ := h.node_entry n hn
  have hf : lookup_find c.lookup_ n.k = some e :=
    lookup_find_of_mem h.keys_nodup he (by rw [hek])
  obtain ⟨m, -, -, -, heq⟩ := delete_inl_found h hf
  rw [heq]

/-- The loop of `reclaim` on a consistent cache deletes the first
`reclaim_count` nodes of the LRU list and the entries of their keys, and leaves
the other nodes in their order. -/
theorem reclaim_loop_drop (size : Nat) :
    ∀ (nodes : List lru_node) (c : cache) (freed : Nat), c.consistent → c.lru_ = nodes →
      (cache.reclaim_loop size c freed nodes).lru_ =
        nodes.drop (reclaim_count size freed nodes) ∧
      (cache.reclaim_loop size c freed nodes).lookup_ =
        c.lookup_.filter (fun x =>
          (nodes.take (reclaim_count size freed nodes)).all (fun n => !decide (x.1.id = n.k.id)))
  | [], c, freed, _, hl => by
    unfold cache.reclaim_loop reclaim_count
    refine ⟨hl, ?_⟩
    simp
  | n :: rest, c, freed, h, hl => by
    unfold cache.reclaim_loop reclaim_count
    by_cases hlt : freed < size
    · rw [if_pos hlt, if_pos hlt]
      obtain ⟨h1, h2⟩ := reclaim_loop_drop size rest (c.delete_inl n.k).2
        (size_add freed n.k.value_size_) (delete_inl_consistent h n.k) (delete_inl_front h hl).2
      rw [h1, h2, delete_inl_front_lookup h hl, List.filter_filter]
      refine ⟨rfl, ?_⟩
      congr 1
      funext x
      simp only [List.take_succ_cons, List.all_cons]
      rw [Bool.and_comm]
    · rw [if_neg hlt, if_neg hlt]
      refine ⟨hl, ?_⟩
      simp

/-- The number of nodes that the loop of `reclaim` deletes marks the shortest
prefix of the list whose sizes, added to `freed`, reach `size`, or the whole
list when they do not. -/
theorem reclaim_count_spec (size : Nat) :
    ∀ (nodes : List lru_node) (freed : Nat),
      freed + (nodes.map (fun n => n.k.value_size_)).sum < SIZE_MOD →
      reclaim_count size freed nodes ≤ nodes.length ∧
      (size ≤ freed + ((nodes.take (reclaim_count size freed nodes)).map
          (fun n => n.k.value_size_)).sum ∨ reclaim_count size freed nodes = nodes.length) ∧
      ∀ m, m < reclaim_count size freed nodes →
        freed + ((nodes.take m).map (fun n => n.k.value_size_)).sum < size
  | [], freed, _ => by
    unfold reclaim_count
    exact ⟨Nat.le_refl _, Or.inr rfl, fun m hm => absurd hm (Nat.not_lt_zero m)⟩
  | n :: rest, freed, hsum => by
    unfold reclaim_count
    rw [List.map_cons, List.sum_cons] at hsum
    by_cases hlt : freed < size
    · rw [if_pos hlt]
      have hadd : size_add freed n.k.value_size_ = freed + n.k.value_size_ :=
        size_add_of_lt (by omega)
      rw [hadd]
      obtain ⟨h1, h2, h3⟩ := reclaim_count_spec size rest (freed + n.k.value_size_) (by omega)
      refine ⟨by simp only [List.length_cons]; omega, ?_, ?_⟩
      · rcases h2 with h2 | h2
        · left
          rw [List.take_succ_cons, List.map_cons, List.sum_cons]
          omega
        · right
          rw [h2, List.length_cons]
      · intro m hm
        cases m with
        | zero => simpa using hlt
        | succ m =>
          rw [List.take_succ_cons, List.map_cons, List.sum_cons]
          have := h3 m (by omega)
          omega
    · rw [if_neg hlt]
      refine ⟨Nat.zero_le _, Or.inl ?_, fun m hm => absurd hm (Nat.not_lt_zero m)⟩
      simp only [List.take_zero, List.map_nil, List.sum_nil]
      omega

/-- The size that a node of the LRU list of a consistent cache carries is the
length of the packet stored for its key. -/
theorem node_packet_length {c : cache} (h : c.consistent) :
    ∀ n ∈ c.lru_, ∃ x ∈ c.lookup_, x.2.lru_ref_ = some n.ref ∧ x.1 = n.k ∧
      x.2.data_str_.length = n.k.value_size_ := by
  intro n hn
  obtain ⟨x, hx, hr, hk⟩ := h.node_entry n hn
  refine ⟨x, hx, hr, hk.symm, ?_⟩
  rw [hk, h.key_of x hx]
  rfl

/-- C29: `set(e)` on a consistent cache, with `mem` the packet length of `e`
(`5 * mem` and the sum of the resident packet lengths within `size_t`). Let `d`
be the cache after the entry stored for the key of `e`, if any, has been
deleted: no entry of that key is left in `d`, and every node of its LRU list
carries the length of the packet stored for its key. If `mem + size` (as the
code adds them) is at most the capacity, no entry is evicted: the LRU list and
the mapping are those of `d` with `e` appended. If it exceeds the capacity, the
target `5 * mem` is positive, as `reclaim` asserts (`e` holds its header, as
its constructor asserts), and the
nodes evicted are the first `cnt` of the LRU list of `d`, where the lengths of
the first `cnt` total at least `5 * mem` or `cnt` is the whole list, and the
lengths of fewer than `cnt` total less than `5 * mem`; the LRU list afterwards is
the rest of the list of `d` in its order with the node of `e` appended, and the
mapping holds the entries of `d` whose key is none of the evicted ones, with `e`
appended. -/
theorem eviction_policy (c : cache) (hc : c.consistent) (e : value)
    (hval : e.header_.extlen + HEADER_SIZE ≤ e.data_str_.length)
    (hmem : 5 * e.data_str_.length < SIZE_MOD)
    (hres : ((c.set_del e).lru_.map (fun n => n.k.value_size_)).sum < SIZE_MOD) :
    lookup_find (c.set_del e).lookup_ e.get_key = none ∧
    (∀ n ∈ (c.set_del e).lru_, ∃ x ∈ (c.set_del e).lookup_, x.2.lru_ref_ = some n.ref ∧
      x.1 = n.k ∧ x.2.data_str_.length = n.k.value_size_) ∧
    (size_add e.data_str_.length (c.set_del e).size_ ≤ (c.set_del e).capacity_ →
      (c.set_inl e).lru_ = (c.set_del e).lru_ ++ [{ ref := c.next_ref_, k := e.get_key }] ∧
      (c.set_inl e).lookup_ = (c.set_del e).lookup_ ++ [(e.get_key, e.set_lru c.next_ref_)]) ∧
    ((c.set_del e).capacity_ < size_add e.data_str_.length (c.set_del e).size_ →
      0 < size_mul 5 e.data_str_.length ∧
      ∃ cnt, cnt ≤ (c.set_del e).lru_.length ∧
        (5 * e.data_str_.length ≤
            (((c.set_del e).lru_.take cnt).map (fun n => n.k.value_size_)).sum ∨
          cnt = (c.set_del e).lru_.length) ∧
        (∀ m, m < cnt →
          (((c.set_del e).lru_.take m).map (fun n => n.k.value_size_)).sum
            < 5 * e.data_str_.length) ∧
        (c.set_inl e).lru_ =
          (c.set_del e).lru_.drop cnt ++ [{ ref := c.next_ref_, k := e.get_key }] ∧
        (c.set_inl e).lookup_ =
          (c.set_del e).lookup_.filter (fun x =>
            ((c.set_del e).lru_.take cnt).all (fun n => !decide (x.1.id = n.k.id)))
            ++ [(e.get_key, e.set_lru c.next_ref_)]) := by
  have hd := set_del_consistent hc e
  refine ⟨set_del_find_none hc e, node_packet_length hd, ?_, ?_⟩
  · intro hfit
    have hpre : c.set_pre e = c.set_del e := by
      unfold cache.set_pre
      rw [if_neg (Nat.not_lt.2 hfit)]
    rw [set_inl_eq_of_consistent hc, hpre]
    exact ⟨rfl, rfl⟩
  · intro hover
    have hpre : c.set_pre e = (c.set_del e).reclaim (5 * e.data_str_.length) := by
      unfold cache.set_pre
      rw [if_pos hover, size_mul_of_lt hmem]
    obtain ⟨h1, h2⟩ := reclaim_loop_drop (5 * e.data_str_.length) (c.set_del e).lru_
      (c.set_del e) 0 hd rfl
    obtain ⟨h3, h4, h5⟩ := reclaim_count_spec (5 * e.data_str_.length) (c.set_del e).lru_ 0
      (by omega)
    rw [Nat.zero_add] at h4
    have hpos : 0 < size_mul 5 e.data_str_.length := by
      rw [size_mul_of_lt hmem]
      unfold HEADER_SIZE at hval
      omega
    refine ⟨hpos, reclaim_count (5 * e.data_str_.length) 0 (c.set_del e).lru_, h3, h4, ?_, ?_,
      ?_⟩
    · intro m hm
      have := h5 m hm
      rwa [Nat.zero_add] at this
    · rw [set_inl_eq_of_consistent hc, hpre]
      show (cache.reclaim_loop _ _ 0 _).lru_ ++ _ = _
      rw [h1]
    · rw [set_inl_eq_of_consistent hc, hpre]
      show (cache.reclaim_loop _ _ 0 _).lookup_ ++ _ = _
      rw [h2]

set_option maxRecDepth 100000 in
/-- Witness of C29: `set` of key `[3]` with a one-byte value (34 bytes) into the
cache of capacity 250 that holds a packet of 203 bytes and one of 34 bytes:
`34 + 237 > 250`, and the first node alone carries more than `5 * 34` bytes. -/
theorem eviction_policy_witness :
    cache_long_short.consistent ∧
    ∃ cnt, cnt ≤ (cache_long_short.set_del (set_entry [3] [7] 0)).lru_.length ∧
      (5 * (set_entry [3] [7] 0).data_str_.length ≤
          (((cache_long_short.set_del (set_entry [3] [7] 0)).lru_.take cnt).map
            (fun n => n.k.value_size_)).sum ∨
        cnt = (cache_long_short.set_del (set_entry [3] [7] 0)).lru_.length) ∧
      (∀ m, m < cnt →
        (((cache_long_short.set_del (set_entry [3] [7] 0)).lru_.take m).map
          (fun n => n.k.value_size_)).sum < 5 * (set_entry [3] [7] 0).data_str_.length) ∧
      (cache_long_short.set_inl (set_entry [3] [7] 0)).lru_ =
        (cache_long_short.set_del (set_entry [3] [7] 0)).lru_.drop cnt
          ++ [{ ref := cache_long_short.next_ref_, k := (set_entry [3] [7] 0).get_key }] ∧
      (cache_long_short.set_inl (set_entry [3] [7] 0)).lookup_ =
        (cache_long_short.set_del (set_entry [3] [7] 0)).lookup_.filter (fun x =>
          ((cache_long_short.set_del (set_entry [3] [7] 0)).lru_.take cnt).all
            (fun n => !decide (x.1.id = n.k.id)))
          ++ [((set_entry [3] [7] 0).get_key,
            (set_entry [3] [7] 0).set_lru cache_long_short.next_ref_)] :=
  ⟨set_inl_consistent (set_inl_consistent (consistent_ctor 250) _) _,
    ((eviction_policy cache_long_short
      (set_inl_consistent (set_inl_consistent (consistent_ctor 250) _) _) (set_entry [3] [7] 0)
      (by decide) (by decide) (by decide)).2.2.2 (by decide)).2⟩

/-! ## C31: the order of the tasks and shutdown -/

theorem add_connection_q {e e1 : executor} {s : Nat} (h : e.add_connection s = some e1) :
    e1.q_ = e.q_ := by
  unfold executor.add_connection at h
  split_ifs at h
  simp only [Option.some.injEq] at h
  subst h
  rfl

theorem close_connection_q {e e1 : executor} {s : Nat} (h : e.close_connection s = some e1) :
    e1.q_ = e.q_ := by
  unfold executor.close_connection at h
  split_ifs at h
  simp only [Option.some.injEq] at h
  subst h
  rfl

theorem put_new_data_q {e e1 : executor} {s : Nat} {b : List Nat}
    (h : e.put_new_data s b = some e1) : e1.q_ = e.q_ := by
  unfold executor.put_new_data at h
  split_ifs at h
  split at h
  · cases h
  · split at h
    · cases h
    · simp only at h
      split_ifs at h
      · have hq := close_connection_q h
        exact hq
      · simp only [Option.some.injEq] at h
        subst h
        rfl

/-- The method `process_inl` leaves the queue alone, so the loop goes on with
the tasks that `pop` left in it. -/
theorem process_inl_q {e e1 : executor} {v : task} {b : Bool}
    (h : e.process_inl v = some (b, e1)) : e1.q_ = e.q_ := by
  unfold executor.process_inl at h
  cases hty : v.type_ with
  | SHUTDOWN =>
    rw [hty] at h
    simp only [Option.some.injEq, Prod.mk.injEq] at h
    rw [← h.2]
  | NOOP => rw [hty] at h; cases h
  | NEW =>
    rw [hty] at h
    simp only at h
    split_ifs at h
    cases ha : e.add_connection v.s_ with
    | none => rw [ha] at h; cases h
    | some a =>
      rw [ha] at h
      simp only [Option.map_some', Option.some.injEq, Prod.mk.injEq] at h
      rw [← h.2]
      exact add_connection_q ha
  | READ =>
    rw [hty] at h
    simp only at h
    cases ha : e.put_new_data v.s_ v.packet_ with
    | none => rw [ha] at h; cases h
    | some a =>
      rw [ha] at h
      simp only [Option.map_some', Option.some.injEq, Prod.mk.injEq] at h
      rw [← h.2]
      exact put_new_data_q ha
  | CLOSE =>
    rw [hty] at h
    simp only at h
    split_ifs at h
    cases ha : e.close_connection v.s_ with
    | none => rw [ha] at h; cases h
    | some a =>
      rw [ha] at h
      simp only [Option.map_some', Option.some.injEq, Prod.mk.injEq] at h
      rw [← h.2]
      exact close_connection_q ha

/-- C32 fails on the code: a valid SET request of 34 bytes for the key "k" and
the value "v" reaches a fresh connection as its 24-byte header and then its 10
bytes of body. The first call of `buffer_packet` decodes the header and returns
true with 24 bytes buffered; the second call appends the body, finds 34 bytes
and `prev_size = 24`, and `assert(prev_size < sizeof(header_))` fails. -/
theorem header_then_body_aborts :
    validate_header (decode_header (set_request [107] [118] 0 [0, 0, 0, 0]
      [0, 0, 0, 0, 0, 0, 0, 0])) = PROTOCOL_BINARY_RESPONSE_SUCCESS ∧
    (set_request [107] [118] 0 [0, 0, 0, 0] [0, 0, 0, 0, 0, 0, 0, 0]).length =
      (decode_header (set_request [107] [118] 0 [0, 0, 0, 0] [0, 0, 0, 0, 0, 0, 0, 0])).bodylen
        + HEADER_SIZE ∧
    ((connection.ctor (cache.ctor 0) 0).buffer_packet
      ((set_request [107] [118] 0 [0, 0, 0, 0] [0, 0, 0, 0, 0, 0, 0, 0]).take 24)).map
        (fun p => (p.1, p.2.request_.length, p.2.fd_.written)) = some (true, 24, []) ∧
    (connection.ctor (cache.ctor 0) 0).feed
      [(set_request [107] [118] 0 [0, 0, 0, 0] [0, 0, 0, 0, 0, 0, 0, 0]).take 24,
        (set_request [107] [118] 0 [0, 0, 0, 0] [0, 0, 0, 0, 0, 0, 0, 0]).drop 24] = none := by
  refine ⟨by decide, by decide, by decide, by decide⟩

/-! ## C33: exact accounting when lengths are equal -/

theorem resident_filter {l : List (key × value)} (hn : (l.map (fun e => e.1.id)).Nodup)
    {e : key × value} (he : e ∈ l) {k : key} (hk : e.1.id = k.id) :
    ((l.filter (fun f => !decide (f.1.id = k.id))).map (fun f => f.2.data_str_.length)).sum
      + e.2.data_str_.length = (l.map (fun f => f.2.data_str_.length)).sum ∧
    (l.filter (fun f => !decide (f.1.id = k.id))).length + 1 = l.length := by
  induction l with
  | nil => cases he
  | cons a l ih =>
    rw [List.map_cons, List.nodup_cons] at hn
    rcases List.mem_cons.1 he with rfl | he
    · have hall : l.filter (fun f => !decide (f.1.id = k.id)) = l := by
        rw [List.filter_eq_self]
        intro f hf
        have : f.1.id ≠ k.id := fun hfk =>
          hn.1 (by rw [hk, ← hfk]; exact List.mem_map_of_mem (fun e => e.1.id) hf)
        simpa using this
      rw [List.filter_cons]
      simp only [hk, decide_True, Bool.not_true, Bool.false_eq_true, if_false, hall,
        List.map_cons, List.sum_cons, List.length_cons]
      exact ⟨Nat.add_comm _ _, trivial⟩
    · have hne : a.1.id ≠ k.id := fun hak =>
        hn.1 (by rw [hak, ← hk]; exact List.mem_map_of_mem (fun e => e.1.id) he)
      obtain ⟨h1, h2⟩ := ih hn.2 he
      rw [List.filter_cons]
      simp only [hne, decide_False, Bool.not_false, if_true, List.map_cons, List.sum_cons,
        List.length_cons]
      constructor <;> omega

/-- When `delete_inl` is called with a key that carries the length of the
stored packet, the subtraction does not wrap and the size stays the sum of the
resident lengths. -/
theorem delete_inl_exact {c : cache} (h : c.consistent) (hs : c.size_ = c.resident_bytes)
    (hlt : c.size_ < SIZE_MOD) {k : key} {e : key × value}
    (hf : lookup_find c.lookup_ k = some e) (hk : k.value_size_ = e.2.data_str_.length) :
    (c.delete_inl k).2.size_ = (c.delete_inl k).2.resident_bytes ∧
    (c.delete_inl k).2.size_ + e.2.data_str_.length = c.size_ ∧
    (c.delete_inl k).2.lookup_.length + 1 = c.lookup_.length := by
  obtain ⟨n, -, -, -, heq⟩ := delete_inl_found h hf
  obtain ⟨he, hid⟩ := lookup_find_some hf
  obtain ⟨h1, h2⟩ := resident_filter h.keys_nodup he hid
  have hle : k.value_size_ ≤ c.size_ := by
    rw [hs, hk]
    unfold cache.resident_bytes
    omega
  rw [heq]
  simp only [cache.resident_bytes]
  rw [size_sub_of_le hle hlt]
  unfold cache.resident_bytes at hs
  refine ⟨by omega, by omega, h2⟩

/-- The loop of `reclaim` on a cache with exact accounting keeps the accounting
exact, and ends with an empty LRU list or with at least `size` bytes freed. -/
theorem reclaim_loop_exact (size : Nat) :
    ∀ (nodes : List lru_node) (c : cache) (freed : Nat), c.consistent → c.lru_ = nodes →
      c.size_ = c.resident_bytes → freed + c.size_ < SIZE_MOD →
      (cache.reclaim_loop size c freed nodes).size_ =
        (cache.reclaim_loop size c freed nodes).resident_bytes ∧
      (cache.reclaim_loop size c freed nodes).size_ ≤ c.size_ ∧
      ((cache.reclaim_loop size c freed nodes).lru_ = [] ∨
        size ≤ freed + (c.size_ - (cache.reclaim_loop size c freed nodes).size_))
  | [], c, freed, _, hl, hs, _ => by
    unfold cache.reclaim_loop
    exact ⟨hs, Nat.le_refl _, Or.inl hl⟩
  | n :: rest, c, freed, h, hl, hs, hlt => by
    unfold cache.reclaim_loop
    by_cases hfr : freed < size
    · rw [if_pos hfr]
      have hn : n ∈ c.lru_ := by rw [hl]; exact List.mem_cons_self _ _
      obtain ⟨x, hx, -, hxk, hxl⟩ := node_packet_length h n hn
      have hf : lookup_find c.lookup_ n.k = some x :=
        lookup_find_of_mem h.keys_nodup hx (by rw [hxk])
      obtain ⟨d1, d2, -⟩ := delete_inl_exact h hs (by omega) hf hxl.symm
      have hadd : size_add freed n.k.value_size_ = freed + n.k.value_size_ :=
        size_add_of_lt (by omega)
      rw [hadd]
      obtain ⟨i1, i2, i3⟩ := reclaim_loop_exact size rest (c.delete_inl n.k).2
        (freed + n.k.value_size_) (delete_inl_consistent h n.k) (delete_inl_front h hl).2 d1
        (by omega)
      refine ⟨i1, by omega, ?_⟩
      rcases i3 with i3 | i3
      · exact Or.inl i3
      · exact Or.inr (by omega)
    · rw [if_neg hfr]
      exact ⟨hs, Nat.le_refl _, Or.inr (by omega)⟩

theorem reclaim_loop_single {c : cache} (h : c.consistent) {n : lru_node} (hl : c.lru_ = [n])
    {size freed : Nat} (hfr : freed < size) :
    (cache.reclaim_loop size c freed [n]).lru_ = [] := by
  unfold cache.reclaim_loop
  rw [if_pos hfr]
  unfold cache.reclaim_loop
  exact (delete_inl_front h hl).2


theorem exact_ctor (capacity : Nat) (hcap : (cache.ctor capacity).capacity_ < SIZE_MOD) :
    (cache.ctor capacity).exact :=
  ⟨consistent_ctor capacity, rfl, hcap, Or.inl (Nat.zero_le _)⟩

theorem exact_get_inl {c : cache} (h : c.exact) (k : key) : (c.get_inl k).2.exact := by
  obtain ⟨hc, hs, hcap, hb⟩ := h
  refine ⟨get_inl_consistent hc k, ?_, ?_, ?_⟩
  · rw [get_inl_size]
    unfold cache.resident_bytes
    rw [get_inl_lookup]
    exact hs
  · rw [get_inl_capacity]
    exact hcap
  · rw [get_inl_size, get_inl_capacity]
    unfold cache.count
    rw [get_inl_lookup]
    exact hb

theorem exact_delete_inl {c : cache} (h : c.exact) {k : key}
    (hk : ∀ e, lookup_find c.lookup_ k = some e → k.value_size_ = e.2.data_str_.length) :
    (c.delete_inl k).2.exact := by
  obtain ⟨hc, hs, hcap, hb⟩ := h
  cases hf : lookup_find c.lookup_ k with
  | none =>
    have heq : (c.delete_inl k).2 = c := by
      unfold cache.delete_inl
      rw [hf]
    rw [heq]
    exact ⟨hc, hs, hcap, hb⟩
  | some e =>
    have hlt : c.size_ < SIZE_MOD := by
      rcases hb with hb | ⟨-, hb⟩ <;> omega
    obtain ⟨d1, d2, d3⟩ := delete_inl_exact hc hs hlt hf (hk e hf)
    refine ⟨delete_inl_consistent hc k, d1, by rw [delete_inl_capacity]; exact hcap, ?_⟩
    rw [delete_inl_capacity]
    rcases hb with hb | ⟨hcnt, -⟩
    · exact Or.inl (by omega)
    · have h0 : (c.delete_inl k).2.lookup_ = [] := by
        apply List.length_eq_zero.1
        unfold cache.count at hcnt
        omega
      refine Or.inl ?_
      rw [d1]
      unfold cache.resident_bytes
      rw [h0]
      exact Nat.zero_le _

theorem takes_iff {c : cache} {v : value} (h : c.takes v = true) :
    v.header_.extlen + HEADER_SIZE ≤ v.data_str_.length ∧ 5 * v.data_str_.length < SIZE_MOD ∧
    c.capacity_ + v.data_str_.length < SIZE_MOD := by
  unfold cache.takes at h
  simp only [Bool.and_eq_true, decide_eq_true_eq] at h
  exact ⟨h.1.1, h.1.2, h.2⟩

theorem same_length_iff {c : cache} {v : value} (h : c.same_length v = true) :
    ∀ e, lookup_find c.lookup_ v.get_key = some e →
      v.get_key.value_size_ = e.2.data_str_.length := by
  intro e he
  unfold cache.same_length at h
  rw [he] at h
  simp only [decide_eq_true_eq] at h
  rw [h]
  rfl

theorem exact_set_del {c : cache} (h : c.exact) {v : value} (hsame : c.same_length v = true) :
    (c.set_del v).exact := by
  unfold cache.set_del
  split
  · exact exact_delete_inl h (same_length_iff hsame)
  · exact h

/-- The cache right before `set_inl` inserts the new entry, when the accounting
was exact: the accounting is exact, adding the new length does not wrap, and
the new total is at most the capacity unless every entry has been evicted. -/
theorem set_pre_exact {c : cache} (h : c.exact) {v : value} (hsame : c.same_length v = true)
    (htakes : c.takes v = true) :
    (c.set_pre v).size_ = (c.set_pre v).resident_bytes ∧
    (c.set_pre v).size_ + v.data_str_.length < SIZE_MOD ∧
    ((c.set_pre v).size_ + v.data_str_.length ≤ c.capacity_ ∨ (c.set_pre v).lookup_ = []) := by
  obtain ⟨hval, hmem, hcapm⟩ := takes_iff htakes
  obtain ⟨hc1, hs1, -, hb1⟩ := exact_set_del h hsame
  have hcap1 : (c.set_del v).capacity_ = c.capacity_ := set_del_capacity c v
  rw [hcap1] at hb1
  have hnw : v.data_str_.length + (c.set_del v).size_ < SIZE_MOD := by
    rcases hb1 with hb1 | ⟨-, hb1⟩ <;> omega
  have hadd : size_add v.data_str_.length (c.set_del v).size_ =
      v.data_str_.length + (c.set_del v).size_ := size_add_of_lt hnw
  unfold cache.set_pre
  rw [hadd, hcap1]
  by_cases hover : v.data_str_.length + (c.set_del v).size_ > c.capacity_
  · rw [if_pos hover, size_mul_of_lt hmem]
    unfold cache.reclaim
    obtain ⟨i1, i2, i3⟩ := reclaim_loop_exact (5 * v.data_str_.length) (c.set_del v).lru_
      (c.set_del v) 0 hc1 rfl hs1 (by omega)
    have hr := reclaim_loop_consistent (5 * v.data_str_.length) (c.set_del v).lru_
      (c.set_del v) 0 hc1
    have hempty : (cache.reclaim_loop (5 * v.data_str_.length) (c.set_del v) 0
        (c.set_del v).lru_).lru_ = [] →
        (cache.reclaim_loop (5 * v.data_str_.length) (c.set_del v) 0
          (c.set_del v).lru_).lookup_ = [] := by
      intro h0
      have hl := hr.length_eq
      rw [h0] at hl
      exact List.length_eq_zero.1 hl.symm
    refine ⟨i1, by omega, ?_⟩
    rcases i3 with i3 | i3
    · exact Or.inr (hempty i3)
    · rcases hb1 with hb1 | ⟨hcnt, -⟩
      · exact Or.inl (by omega)
      · have hlen : (c.set_del v).lru_.length = 1 := by
          rw [hc1.length_eq]
          exact hcnt
        obtain ⟨n, hn⟩ := List.length_eq_one.1 hlen
        have hpos : 0 < 5 * v.data_str_.length := by
          unfold HEADER_SIZE at hval
          omega
        have hsingle := reclaim_loop_single hc1 hn hpos
        rw [← hn] at hsingle
        exact Or.inr (hempty hsingle)
  · rw [if_neg hover]
    exact ⟨hs1, by omega, Or.inl (by omega)⟩

theorem exact_set_inl {c : cache} (h : c.exact) {v : value} (hsame : c.same_length v = true)
    (htakes : c.takes v = true) : (c.set_inl v).exact := by
  obtain ⟨-, hmem, -⟩ := takes_iff htakes
  obtain ⟨p1, p2, p3⟩ := set_pre_exact h hsame htakes
  have hc := h.1
  have hcap := h.2.2.1
  have hsz : (c.set_inl v).size_ = (c.set_pre v).size_ + v.data_str_.length := by
    rw [set_inl_eq_of_consistent hc]
    exact size_add_of_lt p2
  have hlk : (c.set_inl v).lookup_ =
      (c.set_pre v).lookup_ ++ [(v.get_key, v.set_lru c.next_ref_)] := by
    rw [set_inl_eq_of_consistent hc]
  have hcp : (c.set_inl v).capacity_ = c.capacity_ := by
    rw [set_inl_eq_of_consistent hc]
    exact set_pre_capacity c v
  have hres : (c.set_inl v).resident_bytes =
      (c.set_pre v).resident_bytes + v.data_str_.length := by
    unfold cache.resident_bytes
    rw [hlk]
    simp [value.set_lru]
  refine ⟨set_inl_consistent hc v, by rw [hsz, hres, p1], by rw [hcp]; exact hcap, ?_⟩
  rw [hsz, hcp]
  rcases p3 with p3 | p3
  · exact Or.inl p3
  · have h0 : (c.set_pre v).size_ = 0 := by
      rw [p1]
      unfold cache.resident_bytes
      rw [p3]
      rfl
    refine Or.inr ⟨?_, by omega⟩
    unfold cache.count
    rw [hlk, p3]
    rfl

theorem cas_snd {c : cache} (h : c.consistent) (v : value) (t : Nat) :
    (c.cas v t).2 = c.set_inl v ∨ (c.cas v t).2 = (c.get_inl v.get_key).2 := by
  by_cases ht : t = 0
  · subst ht
    rw [cas_zero]
    exact Or.inl rfl
  · cases hf : lookup_find c.lookup_ v.get_key with
    | none =>
      rw [cas_absent t hf]
      exact Or.inl rfl
    | some e =>
      by_cases he : e.2.header_.cas = t
      · rw [← he, cas_match h hf]
        exact Or.inl rfl
      · rw [cas_mismatch h hf (by omega) he]
        exact Or.inr rfl

theorem remove_snd {c : cache} (h : c.consistent) (v : value) (t : Nat) :
    (c.remove v t).2 = (c.delete_inl v.get_key).2 ∨
    (c.remove v t).2 = (c.get_inl v.get_key).2 := by
  cases hf : lookup_find c.lookup_ v.get_key with
  | none =>
    have heq : c.remove v t = c.delete_inl v.get_key :=
      remove_eq_delete h (by intro e he; rw [hf] at he; cases he)
    rw [heq]
    exact Or.inl rfl
  | some e =>
    by_cases hok : t = 0 ∨ e.2.header_.cas = t
    · have heq : c.remove v t = c.delete_inl v.get_key :=
        remove_eq_delete h (by intro f hf2; rw [hf] at hf2; cases hf2; exact hok)
      rw [heq]
      exact Or.inl rfl
    · rw [remove_mismatch h hf (by omega) (fun h => hok (Or.inr h))]
      exact Or.inr rfl

theorem exact_step {c : cache} (h : c.exact) {op : cache_op} (hop : c.admits_op op = true) :
    (c.step op).exact := by
  cases op with
  | set v =>
    simp only [cache.admits_op, Bool.and_eq_true] at hop
    exact exact_set_inl h hop.1 hop.2
  | get k => exact exact_get_inl h k
  | cas v t =>
    simp only [cache.admits_op, Bool.and_eq_true] at hop
    show (c.cas v t).2.exact
    rcases cas_snd h.1 v t with heq | heq
    · rw [heq]
      exact exact_set_inl h hop.1 hop.2
    · rw [heq]
      exact exact_get_inl h _
  | remove v t =>
    simp only [cache.admits_op] at hop
    show (c.remove v t).2.exact
    rcases remove_snd h.1 v t with heq | heq
    · rw [heq]
      exact exact_delete_inl h (same_length_iff hop)
    · rw [heq]
      exact exact_get_inl h _
  | clear =>
    simp [cache.admits_op] at hop

theorem exact_run : ∀ (ops : List cache_op) (c : cache), c.exact → c.admits ops = true →
    (c.run ops).exact
  | [], _, h, _ => h
  | op :: ops, c, h, hadm => by
    simp only [cache.admits, Bool.and_eq_true] at hadm
    exact exact_run ops (c.step op) (exact_step h hadm.1) hadm.2

theorem admits_take : ∀ (ops : List cache_op) (c : cache) (n : Nat), c.admits ops = true →
    c.admits (ops.take n) = true
  | [], _, n, _ => by simp [cache.admits]
  | _ :: _, _, 0, _ => by simp [cache.admits]
  | op :: ops, c, n + 1, hadm => by
    simp only [cache.admits, Bool.and_eq_true, List.take_succ_cons] at hadm ⊢
    exact ⟨hadm.1, admits_take ops (c.step op) n hadm.2⟩


theorem set_inl_capacity (c : cache) (v : value) : (c.set_inl v).capacity_ = c.capacity_ := by
  rw [set_inl_eq]
  exact set_pre_capacity c v

theorem step_capacity (c : cache) (op : cache_op) : (c.step op).capacity_ = c.capacity_ := by
  cases op with
  | set v => exact set_inl_capacity c v
  | get k => exact get_inl_capacity c k
  | cas v t =>
    show (c.cas v t).2.capacity_ = c.capacity_
    unfold cache.cas
    split
    · split
      · split
        · rename_i heq _
          have := get_inl_capacity c v.get_key
          rw [heq] at this
          exact this
        · rename_i heq _
          have := get_inl_capacity c v.get_key
          rw [heq] at this
          rw [set_inl_capacity]
          exact this
      · rename_i heq
        have := get_inl_capacity c v.get_key
        rw [heq] at this
        rw [set_inl_capacity]
        exact this
    · exact set_inl_capacity c v
  | remove v t =>
    show (c.remove v t).2.capacity_ = c.capacity_
    unfold cache.remove
    split
    · split
      · split
        · rename_i heq _
          have := get_inl_capacity c v.get_key
          rw [heq] at this
          exact this
        · rename_i heq _
          have := get_inl_capacity c v.get_key
          rw [heq] at this
          rw [delete_inl_capacity]
          exact this
      · rename_i heq
        have := get_inl_capacity c v.get_key
        rw [heq] at this
        rw [delete_inl_capacity]
        exact this
    · exact delete_inl_capacity c _
  | clear =>
    show c.clear.capacity_ = c.capacity_
    unfold cache.clear cache.reclaim
    split
    · exact reclaim_loop_capacity _ _ _ _
    · rfl

theorem run_capacity : ∀ (ops : List cache_op) (c : cache), (c.run ops).capacity_ = c.capacity_
  | [], _ => rfl
  | op :: ops, c => by
    show ((c.step op).run ops).capacity_ = c.capacity_
    rw [run_capacity ops, step_capacity]

/-- C33: a cache constructed with a capacity within `size_t` goes through a
sequence of set, get, cas and remove in which every set, cas and remove for a
key that is stored at that moment comes with a packet of the length of the
stored one (and every packet set passed the assertion of its constructor and is
small enough for `5 * length` and `capacity + length` to be within `size_t`).
After every number `n` of calls the tracked size is the sum of the resident
packet lengths, every resident length is at most the tracked size (so that
subtracting it does not wrap), the size is below `2^64`, and it is at most the
capacity, which is still the one constructed, unless exactly one entry is
resident. -/
theorem exact_accounting (capacity : Nat) (ops : List cache_op)
    (hcap : (cache.ctor capacity).capacity_ < SIZE_MOD)
    (hadm : (cache.ctor capacity).admits ops = true) (n : Nat) :
    ((cache.ctor capacity).run (ops.take n)).size_ =
      ((cache.ctor capacity).run (ops.take n)).resident_bytes ∧
    (∀ e ∈ ((cache.ctor capacity).run (ops.take n)).lookup_,
      e.2.data_str_.length ≤ ((cache.ctor capacity).run (ops.take n)).size_) ∧
    ((cache.ctor capacity).run (ops.take n)).size_ < SIZE_MOD ∧
    ((cache.ctor capacity).run (ops.take n)).capacity_ = (cache.ctor capacity).capacity_ ∧
    (((cache.ctor capacity).run (ops.take n)).size_ ≤
        ((cache.ctor capacity).run (ops.take n)).capacity_ ∨
      ((cache.ctor capacity).run (ops.take n)).count = 1) := by
  obtain ⟨hc, hs, hcp, hb⟩ := exact_run (ops.take n) (cache.ctor capacity)
    (exact_ctor capacity hcap) (admits_take ops _ n hadm)
  refine ⟨hs, ?_, ?_, run_capacity _ _, ?_⟩
  · intro e he
    obtain ⟨h1, -⟩ := resident_filter hc.keys_nodup he (rfl : e.1.id = e.1.id)
    rw [hs]
    unfold cache.resident_bytes
    omega
  · rcases hb with hb | ⟨-, hb⟩ <;> omega
  · rcases hb with hb | ⟨hb, -⟩
    · exact Or.inl hb
    · exact Or.inr hb

/-- Witness of C33: in a cache of capacity 100, key `[1]` is set and replaced
by a packet of the same length, key `[2]` is set, the set of key `[3]` evicts
both, and key `[3]` is removed with a packet of its length. -/
theorem exact_accounting_witness :
    (cache.ctor 100).capacity_ < SIZE_MOD ∧
    (cache.ctor 100).admits [cache_op.set (set_entry [1] [7] 0),
      cache_op.set (set_entry [1] [8] 0), cache_op.set (set_entry [2] [7] 0),
      cache_op.set (set_entry [3] [7] 0), cache_op.remove (set_entry [3] [9] 0) 0] = true ∧
    ((cache.ctor 100).run ([cache_op.set (set_entry [1] [7] 0),
      cache_op.set (set_entry [1] [8] 0), cache_op.set (set_entry [2] [7] 0),
      cache_op.set (set_entry [3] [7] 0), cache_op.remove (set_entry [3] [9] 0) 0].take 4)).size_ =
      ((cache.ctor 100).run ([cache_op.set (set_entry [1] [7] 0),
        cache_op.set (set_entry [1] [8] 0), cache_op.set (set_entry [2] [7] 0),
        cache_op.set (set_entry [3] [7] 0),
        cache_op.remove (set_entry [3] [9] 0) 0].take 4)).resident_bytes :=
  ⟨by decide, by decide,
    (exact_accounting 100 [cache_op.set (set_entry [1] [7] 0),
      cache_op.set (set_entry [1] [8] 0), cache_op.set (set_entry [2] [7] 0),
      cache_op.set (set_entry [3] [7] 0), cache_op.remove (set_entry [3] [9] 0) 0]
      (by decide) (by decide) 4).1⟩

/-! ## The loop of `write_response` on short counts -/

/-- When `::write` takes only 2 of the 5 bytes offered, the loop offers the first
3 bytes of the same buffer next, so the bytes 1, 2, 1, 2, 3 reach the peer and
the method returns true; after `EAGAIN` the loop offers the same bytes again. -/
theorem write_loop_short :
    write_loop [1, 2, 3, 4, 5] [write_result.count 2] 5
        { written := [], broken := false, results := [write_result.count 2] } =
      (true, { written := [[1, 2], [1, 2, 3]], broken := false, results := [] }) ∧
    write_loop [1, 2, 3, 4, 5] [write_result.again, write_result.again] 5
        { written := [], broken := false, results := [write_result.again, write_result.again] } =
      (true, { written := [[1, 2, 3, 4, 5]], broken := false, results := [] }) ∧
    write_loop [1, 2, 3, 4, 5] [write_result.count 2, write_result.error] 5
        { written := [], broken := false,
          results := [write_result.count 2, write_result.error] } =
      (false, { written := [[1, 2]], broken := false, results := [] }) := by
  decide

/-! ## C31: a task that fails an assertion -/

end memcache
